import Mathlib

/-!
# Verification of the lexdata order-preserving codec library

This file gives a shallow embedding, in Lean 4, of the Rust library `lexdata`
(files `src/lib.rs` and `src/backup.rs`), which produces compact lexical byte
representations of typed values, and proves or refutes the behavioural claims
made about it.

Modelling conventions:
* Rust `u8` bytes are `Nat` values; byte buffers (`Vec<u8>`, `&[u8]`, `Bytes`)
  are `List Nat`.  Bitwise complement of a byte (`!b` on `u8`) is `b ^^^ 255`.
* Rust `String` values are modelled by their UTF-8 byte sequences (`List Nat`);
  UTF-8 validity is not modelled (no claim depends on it).
* `rug::Integer` is `Int`; `i32`/`i64` are `Int` with range hypotheses where
  they matter; `f32`/`f64` values are carried as their IEEE-754 bit patterns
  (`Nat` below `2^32` / `2^64`), since the library only ever moves their bits.
* A Rust function returning `Result<T, LexDataError>` becomes
  `Except LexDataError T`; a function that can additionally panic
  (`unwrap`, `expect`, `panic!`, out-of-range slice index, arithmetic
  underflow) becomes `Option (Except LexDataError T)` (or `Option T`), with
  `none` meaning "panics".
-/

set_option maxRecDepth 10000
set_option exponentiation.threshold 600

deriving instance DecidableEq for Except

namespace Lexdata

/-! ## Byte-level helpers -/

/-- Bitwise complement of one byte (`!b` on Rust `u8`, for `b < 256`). -/
def complByte (b : Nat) : Nat := b ^^^ 255

/-- Big-endian byte serialisation of `n` into exactly `w` bytes
(`byteorder::WriteBytesExt::write_u32/u64::<BigEndian>` and friends,
applied to `n < 2^(8*w)`). -/
def be_bytes : Nat → Nat → List Nat
  | 0, _ => []
  | w + 1, n => (n >>> (8 * w)) % 256 :: be_bytes w n

/-- Big-endian value of a byte list (`byteorder::ReadBytesExt` reading all
the listed bytes). -/
def beVal (l : List Nat) : Nat := l.foldl (fun a b => a * 256 + b) 0

/-- Strict unsigned lexicographic order on byte sequences: the order used by
`Vec<u8>: Ord` in Rust (elementwise, a strict prefix sorts first). -/
def lexLt : List Nat → List Nat → Bool
  | [], [] => false
  | [], _ :: _ => true
  | _ :: _, [] => false
  | a :: as, b :: bs => if a < b then true else if b < a then false else lexLt as bs

/-- Non-strict unsigned lexicographic order on byte sequences. -/
def lexLe (u v : List Nat) : Bool := !(lexLt v u)

/-- Stable insertion of an element into a sorted list (auxiliary for
`isort`). -/
def insertLe {α : Type} (le : α → α → Bool) (x : α) : List α → List α
  | [] => [x]
  | y :: ys => if le x y then x :: y :: ys else y :: insertLe le x ys

/-- Stable sort by a total comparator: models Rust's stable `slice::sort`
(elements that compare equal keep their original relative order). -/
def isort {α : Type} (le : α → α → Bool) : List α → List α
  | [] => []
  | x :: xs => insertLe le x (isort le xs)

/-! ## Storage types, aspects, values, errors (`lib.rs` lines 22-155) -/

/-- `enum StorageType` — one per strategy used to store data. -/
inductive StorageType
  | String | Int32 | Int64 | Float32 | Float64 | BigInt | BigNum | DateTime
deriving DecidableEq

/-- `enum Aspect` — XSD-style semantic tags; the declaration order fixes the
wire bytes 1..48 (`String = 1`, append-only). -/
inductive Aspect
  | String | Boolean | Decimal | Integer
  | Double | Float
  | Date | Time | DateTime | DateTimeStamp
  | GYear | GMonth | GDay | GYearMonth | GMonthDay
  | Duration | YearMonthDuration | DayTimeDuration
  | Byte | Short | Int | Long
  | UnsignedByte | UnsignedShort | UnsignedInt | UnsignedLong
  | PositiveInteger | NonNegativeInteger
  | HexBinary | Base64Binary
  | AnyURI | Language | NormalizedString | Token | NmToken
  | Name | NCName | NOtation | QName | ID | IdRef | Entity
  | XMLLiteral | PlainLiteral | LangString
  | Literal
  | False | True
deriving DecidableEq

/-- `aspect_byte` — `a as u8` with the discriminants starting at 1. -/
def aspect_byte : Aspect → Nat
  | .String => 1 | .Boolean => 2 | .Decimal => 3 | .Integer => 4
  | .Double => 5 | .Float => 6
  | .Date => 7 | .Time => 8 | .DateTime => 9 | .DateTimeStamp => 10
  | .GYear => 11 | .GMonth => 12 | .GDay => 13 | .GYearMonth => 14
  | .GMonthDay => 15
  | .Duration => 16 | .YearMonthDuration => 17 | .DayTimeDuration => 18
  | .Byte => 19 | .Short => 20 | .Int => 21 | .Long => 22
  | .UnsignedByte => 23 | .UnsignedShort => 24 | .UnsignedInt => 25
  | .UnsignedLong => 26
  | .PositiveInteger => 27 | .NonNegativeInteger => 28
  | .HexBinary => 29 | .Base64Binary => 30
  | .AnyURI => 31 | .Language => 32 | .NormalizedString => 33 | .Token => 34
  | .NmToken => 35
  | .Name => 36 | .NCName => 37 | .NOtation => 38 | .QName => 39 | .ID => 40
  | .IdRef => 41 | .Entity => 42
  | .XMLLiteral => 43 | .PlainLiteral => 44 | .LangString => 45
  | .Literal => 46
  | .False => 47 | .True => 48

/-- `byte_aspect` — `FromPrimitive::from_u32(b).expect(..)`: the derived
partial inverse of the discriminant assignment; `none` models the
`expect` panic on an unassigned byte. -/
def byte_aspect : Nat → Option Aspect
  | 1 => some .String | 2 => some .Boolean | 3 => some .Decimal
  | 4 => some .Integer | 5 => some .Double | 6 => some .Float
  | 7 => some .Date | 8 => some .Time | 9 => some .DateTime
  | 10 => some .DateTimeStamp
  | 11 => some .GYear | 12 => some .GMonth | 13 => some .GDay
  | 14 => some .GYearMonth | 15 => some .GMonthDay
  | 16 => some .Duration | 17 => some .YearMonthDuration
  | 18 => some .DayTimeDuration
  | 19 => some .Byte | 20 => some .Short | 21 => some .Int | 22 => some .Long
  | 23 => some .UnsignedByte | 24 => some .UnsignedShort
  | 25 => some .UnsignedInt | 26 => some .UnsignedLong
  | 27 => some .PositiveInteger | 28 => some .NonNegativeInteger
  | 29 => some .HexBinary | 30 => some .Base64Binary
  | 31 => some .AnyURI | 32 => some .Language | 33 => some .NormalizedString
  | 34 => some .Token | 35 => some .NmToken
  | 36 => some .Name | 37 => some .NCName | 38 => some .NOtation
  | 39 => some .QName | 40 => some .ID | 41 => some .IdRef | 42 => some .Entity
  | 43 => some .XMLLiteral | 44 => some .PlainLiteral | 45 => some .LangString
  | 46 => some .Literal
  | 47 => some .False | 48 => some .True
  | _ => none

/-- `aspect_storage` — total function from aspect to storage strategy in the
source, except that the catch-all arm is `panic!("Unimplemented aspect")`;
`none` models that panic. -/
def aspect_storage : Aspect → Option StorageType
  | .String | .AnyURI | .Language | .NormalizedString | .Token | .NmToken
  | .Name | .NCName | .NOtation | .QName | .ID | .IdRef | .Entity =>
      some .String
  | .Decimal => some .BigNum
  | .Float => some .Float32
  | .Double => some .Float64
  | .Long => some .Int64
  | .Int | .Short | .Byte => some .Int32
  | .Integer | .PositiveInteger | .NonNegativeInteger => some .BigInt
  | .DateTime => some .DateTime
  | _ => none

/-- Debug rendering of an aspect (`{a:?}` in the Rust format strings). -/
def aspectName : Aspect → String
  | .String => "String" | .Boolean => "Boolean" | .Decimal => "Decimal"
  | .Integer => "Integer" | .Double => "Double" | .Float => "Float"
  | .Date => "Date" | .Time => "Time" | .DateTime => "DateTime"
  | .DateTimeStamp => "DateTimeStamp"
  | .GYear => "GYear" | .GMonth => "GMonth" | .GDay => "GDay"
  | .GYearMonth => "GYearMonth" | .GMonthDay => "GMonthDay"
  | .Duration => "Duration" | .YearMonthDuration => "YearMonthDuration"
  | .DayTimeDuration => "DayTimeDuration"
  | .Byte => "Byte" | .Short => "Short" | .Int => "Int" | .Long => "Long"
  | .UnsignedByte => "UnsignedByte" | .UnsignedShort => "UnsignedShort"
  | .UnsignedInt => "UnsignedInt" | .UnsignedLong => "UnsignedLong"
  | .PositiveInteger => "PositiveInteger"
  | .NonNegativeInteger => "NonNegativeInteger"
  | .HexBinary => "HexBinary" | .Base64Binary => "Base64Binary"
  | .AnyURI => "AnyURI" | .Language => "Language"
  | .NormalizedString => "NormalizedString" | .Token => "Token"
  | .NmToken => "NmToken" | .Name => "Name" | .NCName => "NCName"
  | .NOtation => "NOtation" | .QName => "QName" | .ID => "ID"
  | .IdRef => "IdRef" | .Entity => "Entity"
  | .XMLLiteral => "XMLLiteral" | .PlainLiteral => "PlainLiteral"
  | .LangString => "LangString" | .Literal => "Literal"
  | .False => "False" | .True => "True"

/-- `enum Value` — the user-visible tagged values.  Strings are their UTF-8
bytes, big integers are `Int`, 32/64-bit integers are `Int` (ranges appear as
hypotheses), floats are their IEEE bit patterns. -/
inductive Value
  | String (s : List Nat)
  | BigInt (i : Int)
  | Int32 (i : Int)
  | Int64 (i : Int)
  | Float32 (bits : Nat)
  | Float64 (bits : Nat)
  | Boolean (b : Bool)
deriving DecidableEq

/-- `enum LexDataError` — the library's error values.  Note the source has no
`BadSizeEncoding` variant. -/
inductive LexDataError
  | UnexpectedAspect (msg : String)
  | BadFloat32Layout (msg : String)
  | BadFloat64Layout (msg : String)
  | BadInt32Layout (msg : String)
  | BadInt64Layout (msg : String)
  | BadDateFormat (msg : String)
deriving DecidableEq

/-! ## Size codec (`lib.rs` lines 295-366) -/

def TERMINAL : Nat := 0
def FIRST_SIGN : Nat := 0b10000000
def FIRST_TERMINAL : Nat := 0b00000000
def CONTINUATION : Nat := 0b10000000
def FIRST_CONTINUATION : Nat := 0b01000000
def BASE_MASK : Nat := 0b01111111
def FIRST_MASK : Nat := 0b00111111
def FIRST_MAX : Nat := FIRST_CONTINUATION
def NEGATIVE_ZERO : Nat := 0b01111111

/-- One bound-indexed formulation of the `while remainder > 0` loop of
`size_encode`; bytes are pushed least-significant chunk first (the caller
reverses the whole buffer).  The first argument only bounds the number of
iterations (each pass replaces `remainder` by `remainder >>> 7`, which is
strictly smaller, so `remainder` itself is such a bound); it makes the loop
structurally recursive, hence computable inside the kernel. -/
def size_encode_go : Nat → Nat → Bool → List Nat
  | 0, _, _ => []
  | bound + 1, remainder, last =>
    if remainder = 0 then []
    else if remainder ≥ CONTINUATION then
      ((if last then TERMINAL else CONTINUATION) ||| (remainder &&& BASE_MASK))
        :: size_encode_go bound (remainder >>> 7) false
    else if remainder ≥ FIRST_MAX then
      -- fits in 7 bits but not 6: emit the chunk, then a zero-padded first byte
      ((if last then TERMINAL else CONTINUATION) ||| (remainder &&& BASE_MASK))
        :: (FIRST_SIGN ||| FIRST_CONTINUATION)
        :: size_encode_go bound (remainder >>> 7) false
    else
      (FIRST_SIGN ||| (if last then FIRST_TERMINAL else FIRST_CONTINUATION)
          ||| (remainder &&& FIRST_MASK))
        :: size_encode_go bound (remainder >>> 7) false

/-- The `while remainder > 0` loop of `size_encode`. -/
def size_encode_loop (remainder : Nat) (last : Bool) : List Nat :=
  size_encode_go remainder remainder last

/-- `size_encode` — order-preserving varint for a non-negative count.  The
result is left in reverse order (least-significant first) "for the
convenience of the caller", which reverses the surrounding buffer. -/
def size_encode (size : Nat) : List Nat :=
  if size = 0 then [NEGATIVE_ZERO]
  else size_encode_loop size true

/-- The `i > 0` iterations of the `size_decode` loop: `sign` is fixed by the
first byte, `size` is the accumulator (already shifted), `i` counts bytes
consumed. -/
def size_decode_from (sign : Bool) (size : Nat) (i : Nat) :
    List Nat → Bool × Nat × Nat
  | [] => (sign, size, i)
  | b :: rest =>
    let vi := bif sign then b else b ^^^ 255
    let val := vi &&& BASE_MASK
    if vi &&& CONTINUATION = 0 then (sign, size + val, i + 1)
    else size_decode_from sign ((size + val) <<< 7) (i + 1) rest

/-- `size_decode` — returns `(sign, magnitude, bytes_consumed)`; a first byte
with the high bit clear selects the negated (complemented) reading. -/
def size_decode : List Nat → Bool × Nat × Nat
  | [] => (true, 0, 0)
  | b :: rest =>
    let sign := decide (b &&& FIRST_SIGN ≠ 0)
    let vi := bif sign then b else b ^^^ 255
    let val := vi &&& FIRST_MASK
    if vi &&& FIRST_CONTINUATION = 0 then (sign, val, 1)
    else size_decode_from sign ((0 + val) <<< 7) 1 rest

/-! ## Size codec of `backup.rs` (lines 30-94): same chunking, but the
encoder reverses its own output and encodes 0 as the empty vector. -/

/-- `size_enc` of `backup.rs` — identical chunk loop, but big-endian output
(the function reverses before returning) and no special case for 0. -/
def size_enc (size : Nat) : List Nat :=
  (size_encode_loop size true).reverse

/-! ## Fixed-width integer codecs (`lib.rs` lines 234-293) -/

def BYTE_SIGN_MASK : Nat := 0b10000000

/-- Two's-complement unsigned image of a `w`-bit signed integer
(what `write_i32/i64::<BigEndian>` writes, as a number). -/
def toUnsigned (w : Nat) (i : Int) : Nat := (i % (2 ^ w : Int)).toNat

/-- Signed value of a `w`-bit two's-complement pattern
(what `read_i32/i64::<BigEndian>` returns). -/
def fromUnsigned (w : Nat) (n : Nat) : Int :=
  if n < 2 ^ (w - 1) then (n : Int) else (n : Int) - (2 ^ w : Int)

/-- Flip the sign bit of the first byte of a buffer (`wtr[1] ^= BYTE_SIGN_MASK`
after the aspect byte, or `vec[0] ^= BYTE_SIGN_MASK` before decoding). -/
def flipHead : List Nat → List Nat
  | [] => []
  | b :: rest => (b ^^^ BYTE_SIGN_MASK) :: rest

/-- `int32_to_storage` — aspect byte, then the big-endian two's complement of
`i` with the sign bit flipped. -/
def int32_to_storage (i : Int) (a : Aspect) :
    Option (Except LexDataError (List Nat)) :=
  match aspect_storage a with
  | none => none
  | some storage_type =>
    if storage_type = StorageType.Int32 then
      some (.ok (aspect_byte a :: flipHead (be_bytes 4 (toUnsigned 32 i))))
    else
      some (.error (.UnexpectedAspect
        ("The aspect " ++ aspectName a ++ " did not match Int32 value type")))

/-- `storage_to_int32` — flip the first byte's sign bit back and read a
big-endian `i32` from the first four bytes. -/
def storage_to_int32 (bytes : List Nat) : Except LexDataError Value :=
  if 4 ≤ bytes.length then
    .ok (.Int32 (fromUnsigned 32 (beVal ((flipHead bytes).take 4))))
  else
    .error (.BadInt32Layout "Unable to read bytes of float from storage!")

/-- `int64_to_storage` — also used for the `DateTime` storage type. -/
def int64_to_storage (i : Int) (a : Aspect) :
    Option (Except LexDataError (List Nat)) :=
  match aspect_storage a with
  | none => none
  | some storage_type =>
    if storage_type = StorageType.Int64 ∨ storage_type = StorageType.DateTime
    then
      some (.ok (aspect_byte a :: flipHead (be_bytes 8 (toUnsigned 64 i))))
    else
      some (.error (.UnexpectedAspect
        ("The aspect " ++ aspectName a ++ " did not match Int64 value type")))

/-- `storage_to_int64`. -/
def storage_to_int64 (bytes : List Nat) : Except LexDataError Value :=
  if 8 ≤ bytes.length then
    .ok (.Int64 (fromUnsigned 64 (beVal ((flipHead bytes).take 8))))
  else
    .error (.BadInt64Layout "Unable to read bytes of float from storage!")

/-! ## Float codecs (`lib.rs` lines 539-615).  Floats are carried as their
IEEE-754 bit patterns; the library only permutes bits, so this is exact. -/

def F32_SIGN_MASK : Nat := 0x80000000
def F32_COMPLEMENT : Nat := 0xffffffff
def F64_SIGN_MASK : Nat := 0x8000000000000000
def F64_COMPLEMENT : Nat := 0xffffffffffffffff

/-- NaN test on an `f64` bit pattern: exponent all ones and non-zero
mantissa. -/
def f64_isNaN (f : Nat) : Bool :=
  (f >>> 52) &&& 0x7ff = 0x7ff && f &&& 0xfffffffffffff ≠ 0

/-- NaN test on an `f32` bit pattern. -/
def f32_isNaN (f : Nat) : Bool :=
  (f >>> 23) &&& 0xff = 0xff && f &&& 0x7fffff ≠ 0

/-- `f.signum() == -1.0` on an `f64` bit pattern: true for negative numbers
including `-0.0` and `-inf`, false for NaN (whose `signum()` is NaN). -/
def f64_signum_is_neg_one (f : Nat) : Bool :=
  f &&& F64_SIGN_MASK ≠ 0 && !(f64_isNaN f)

/-- `float32_to_storage` — flip all bits of negatives, else flip the sign
bit; write big-endian after the aspect byte.  The sign test is the bit test
`f.to_bits() & F32_SIGN_MASK > 0`. -/
def float32_to_storage (f : Nat) (a : Aspect) :
    Option (Except LexDataError (List Nat)) :=
  match aspect_storage a with
  | none => none
  | some storage_type =>
    if storage_type = StorageType.Float32 then
      let g := if f &&& F32_SIGN_MASK > 0 then f ^^^ F32_COMPLEMENT
               else f ^^^ F32_SIGN_MASK
      some (.ok (aspect_byte a :: be_bytes 4 g))
    else
      some (.error (.UnexpectedAspect
        ("The aspect " ++ aspectName a ++ " did not match Float32 value type")))

/-- `storage_to_float32` — read four big-endian bytes and invert the
transform (branching again on the stored sign bit). -/
def storage_to_float32 (bytes : List Nat) : Except LexDataError Value :=
  if 4 ≤ bytes.length then
    let f := beVal (bytes.take 4)
    let g := if f &&& F32_SIGN_MASK > 0 then f ^^^ F32_SIGN_MASK
             else f ^^^ F32_COMPLEMENT
    .ok (.Float32 g)
  else
    .error (.BadFloat32Layout "Unable to read bytes of float from storage!")

/-- `float64_to_storage` — as for `f32`, but the sign test is
`f.signum() == -1.0`, which is false for every NaN. -/
def float64_to_storage (f : Nat) (a : Aspect) :
    Option (Except LexDataError (List Nat)) :=
  match aspect_storage a with
  | none => none
  | some storage_type =>
    if storage_type = StorageType.Float64 then
      let g := bif f64_signum_is_neg_one f then f ^^^ F64_COMPLEMENT
               else f ^^^ F64_SIGN_MASK
      some (.ok (aspect_byte a :: be_bytes 8 g))
    else
      some (.error (.UnexpectedAspect
        ("The aspect " ++ aspectName a ++ " did not match Float64 value type")))

/-- `storage_to_float64`. -/
def storage_to_float64 (bytes : List Nat) : Except LexDataError Value :=
  if 8 ≤ bytes.length then
    let f := beVal (bytes.take 8)
    let g := bif f64_signum_is_neg_one f then f ^^^ F64_SIGN_MASK
             else f ^^^ F64_COMPLEMENT
    .ok (.Float64 g)
  else
    .error (.BadFloat64Layout "Unable to read bytes of float from storage!")

/-! ## String codec (`lib.rs` lines 197-211, 617-621, 645-654) -/

/-- `string_to_storage` — aspect byte followed by the raw UTF-8 bytes; no
terminator is appended. -/
def string_to_storage (v : List Nat) (a : Aspect) :
    Option (Except LexDataError (List Nat)) :=
  match aspect_storage a with
  | none => none
  | some storage_type =>
    if storage_type = StorageType.String then
      some (.ok (aspect_byte a :: v))
    else
      some (.error (.UnexpectedAspect
        ("The aspect " ++ aspectName a ++ " did not match String value type")))

/-- `string_from_bytes` — the whole remaining buffer is the string (UTF-8
validation is not modelled). -/
def string_from_bytes (bytes : List Nat) : Value := .String bytes

/-- `string_length` — number of bytes before the first `0` byte (the `0`
itself is not counted), or the whole slice if there is none. -/
def string_length : List Nat → Nat
  | [] => 0
  | b :: rest => if b = 0 then 0 else 1 + string_length rest

/-! ## Date-time codec (`lib.rs` lines 213-232).  The RFC-3339 parsing and
formatting are done by the external `chrono` crate, whose source is not part
of this repository; both are modelled below from the spec. -/

/-- Days-from-civil-date (proleptic Gregorian), Hinnant's algorithm — the
arithmetic underlying `chrono`'s timestamp conversions. -/
def days_from_civil (y : Int) (m : Nat) (d : Nat) : Int :=
  let y := if m ≤ 2 then y - 1 else y
  let era : Int := y / 400
  let yoe : Int := y - era * 400
  let mp : Int := (if m ≤ 2 then (m : Int) + 9 else (m : Int) - 3)
  let doy : Int := (153 * mp + 2) / 5 + (d : Int) - 1
  let doe : Int := yoe * 365 + yoe / 4 - yoe / 100 + doy
  era * 146097 + doe - 719468

/-- Civil-date-from-days (proleptic Gregorian), Hinnant's algorithm. -/
def civil_from_days (z : Int) : Int × Nat × Nat :=
  let z := z + 719468
  let era : Int := z / 146097
  let doe : Int := z - era * 146097
  let yoe : Int := (doe - doe / 1460 + doe / 36524 - doe / 146096) / 365
  let y : Int := yoe + era * 400
  let doy : Int := doe - (365 * yoe + yoe / 4 - yoe / 100)
  let mp : Int := (5 * doy + 2) / 153
  let d : Nat := (doy - (153 * mp + 2) / 5 + 1).toNat
  let m : Nat := (if mp < 10 then mp + 3 else mp - 9).toNat
  (if m ≤ 2 then y + 1 else y, m, d)

/-- ASCII decimal digits of a natural number. -/
def decDigits (n : Nat) : List Nat :=
  (Nat.toDigits 10 n).map Char.toNat

/-- ASCII decimal digits of `n`, left-padded with zeros to width `w`. -/
def decDigitsPad (w : Nat) (n : Nat) : List Nat :=
  let ds := decDigits n
  List.replicate (w - ds.length) 48 ++ ds

/-- Number of days in a month of the proleptic Gregorian calendar. -/
def daysInMonth (y : Int) (m : Nat) : Nat :=
  if m = 2 then
    if y % 4 = 0 ∧ (y % 100 ≠ 0 ∨ y % 400 = 0) then 29 else 28
  else if m = 4 ∨ m = 6 ∨ m = 9 ∨ m = 11 then 30
  else 31

/-- Modelled from the spec: `chrono`'s
`NaiveDateTime::from_timestamp(i, 0).format("%Y-%m-%dT%H:%M:%SZ")` (the
crate's source is not under `src/`).  Returns the ASCII bytes of the
formatted UTC date-time; `none` models the panic of `from_timestamp` on an
out-of-range number of seconds (`chrono` supports years -262144..=262143). -/
def format_timestamp (i : Int) : Option (List Nat) :=
  let days := i / 86400
  let sod := (i % 86400).toNat
  if days < days_from_civil (-262144) 1 1 ∨
      days > days_from_civil 262143 12 31 then none
  else
    let (y, m, d) := civil_from_days days
    let ybytes :=
      if y < 0 then 45 :: decDigitsPad 4 (-y).toNat else decDigitsPad 4 y.toNat
    some (ybytes ++ [45] ++ decDigitsPad 2 m ++ [45] ++ decDigitsPad 2 d ++
      [84] ++ decDigitsPad 2 (sod / 3600) ++ [58] ++
      decDigitsPad 2 (sod % 3600 / 60) ++ [58] ++ decDigitsPad 2 (sod % 60) ++
      [90])

/-- Check that every byte of `l` is an ASCII digit. -/
def allDigits (l : List Nat) : Bool := l.all (fun b => 48 ≤ b ∧ b ≤ 57)

/-- Numeric value of an ASCII digit string. -/
def digitsVal (l : List Nat) : Nat := l.foldl (fun a b => a * 10 + (b - 48)) 0

/-- Modelled from the spec: `chrono`'s `DateTime::parse_from_rfc3339` (the
crate's source is not under `src/`), restricted to the canonical form
`YYYY-MM-DDThh:mm:ssZ` that the library itself emits; other RFC-3339 forms
(numeric offsets, fractional seconds, lowercase separators) are treated as
parse failures by this model.  Returns seconds since the Unix epoch. -/
def parse_rfc3339 (s : List Nat) : Option Int :=
  match s with
  | [y1, y2, y3, y4, 45, m1, m2, 45, d1, d2, 84,
     h1, h2, 58, mi1, mi2, 58, s1, s2, 90] =>
    if allDigits [y1, y2, y3, y4, m1, m2, d1, d2, h1, h2, mi1, mi2, s1, s2]
    then
      let y : Int := digitsVal [y1, y2, y3, y4]
      let mo := digitsVal [m1, m2]
      let d := digitsVal [d1, d2]
      let h := digitsVal [h1, h2]
      let mi := digitsVal [mi1, mi2]
      let sec := digitsVal [s1, s2]
      if 1 ≤ mo ∧ mo ≤ 12 ∧ 1 ≤ d ∧ d ≤ daysInMonth y mo ∧
          h ≤ 23 ∧ mi ≤ 59 ∧ sec ≤ 59 then
        some (days_from_civil y mo d * 86400 + (h * 3600 + mi * 60 + sec : Nat))
      else none
    else none
  | _ => none

/-- `date_time_to_storage` — RFC-3339 parse, then the `i64` codec on the
timestamp. -/
def date_time_to_storage (s : List Nat) (a : Aspect) :
    Option (Except LexDataError (List Nat)) :=
  match parse_rfc3339 s with
  | some timestamp => int64_to_storage timestamp a
  | none => some (.error (.BadDateFormat "input is out of range"))

/-- `storage_to_date_time` — `i64` decode, then format as an RFC-3339 UTC
string; `none` models the panics (impossible variant, out-of-range
timestamp). -/
def storage_to_date_time (bytes : List Nat) :
    Option (Except LexDataError Value) :=
  match storage_to_int64 bytes with
  | .ok (.Int64 i) =>
    match format_timestamp i with
    | some s => some (.ok (.String s))
    | none => none
  | .ok _ => none
  | .error err => some (.error err)

/-! ## BigInt codec (`lib.rs` lines 368-408) -/

/-- `rug::Integer::significant_bits` (number of binary digits; zero has
zero significant bits), written with the value bounding its own recursion
depth so the kernel can compute it; it agrees with `Nat.size`
(`significant_bits_eq_size` below). -/
def significant_bits_go : Nat → Nat → Nat
  | 0, _ => 0
  | bound + 1, n => if n = 0 then 0 else significant_bits_go bound (n / 2) + 1

/-- Number of binary digits of a natural number. -/
def significant_bits (n : Nat) : Nat := significant_bits_go n n

/-- The payload loop of `bigint_to_storage`: push `num_bytes` bytes of the
magnitude, least significant first (`int.to_u8_wrapping()` then
`int >>= 8`). -/
def le_bytes : Nat → Nat → List Nat
  | 0, _ => []
  | k + 1, int => int % 256 :: le_bytes k (int >>> 8)

/-- `bigint_to_storage` — aspect byte, size code of the magnitude byte count
(computed with one extra bit of headroom), big-endian magnitude; for
negatives everything after the aspect byte is bitwise negated.  The function
performs no aspect check and never fails. -/
def bigint_to_storage (bigint : Int) (a : Aspect) :
    Except LexDataError (List Nat) :=
  let is_neg := bigint < 0
  let int := bigint.natAbs
  let size := significant_bits int + 1
  let num_bytes := size / 8 + (if size % 8 ≠ 0 then 1 else 0)
  let number_vec := le_bytes num_bytes int ++ size_encode num_bytes
  let number_vec := if is_neg then number_vec.map complByte else number_vec
  .ok ((number_vec ++ [aspect_byte a]).reverse)

/-- The accumulation loop of `storage_to_bigint`: add each payload byte
(complemented when negative), shifting left by 8 before every byte except
the one at index `size - 1`. -/
def bigint_acc (is_pos : Bool) (size : Nat) : Nat → Int → List Nat → Int
  | _, int, [] => int
  | i, int, b :: rest =>
    let int := int + (bif is_pos then (b : Int) else (complByte b : Int))
    let int := if i < size - 1 then int * 256 else int
    bigint_acc is_pos size (i + 1) int rest

/-- `storage_to_bigint` — size-decode, then accumulate the payload slice
`bytes[idx..size+1]`; `none` models the slice-index panic when the buffer is
too short (or the size code over-runs `size + 1`). -/
def storage_to_bigint (bytes : List Nat) :
    Option (Except LexDataError Value) :=
  let (is_pos, size, idx) := size_decode bytes
  if size = 0 then some (.ok (.BigInt 0))
  else if idx ≤ size + 1 ∧ size + 1 ≤ bytes.length then
    let payload := (bytes.drop idx).take (size + 1 - idx)
    let int := bigint_acc is_pos size 0 0 payload
    some (.ok (.BigInt (bif is_pos then int else -int)))
  else none

/-! ## Fraction codec (`lib.rs` lines 410-476).  Fraction digit strings are
ASCII byte lists. -/

/-- `centary_decimal_encode` — `s.parse::<u8>()` then the centimal map;
`none` models the `unwrap` panic on non-digit input.  `s` is one or two
ASCII characters. -/
def centary_decimal_encode (s : List Nat) : Option Nat :=
  if allDigits s = false then none
  else match s with
  | [_] => some (digitsVal s * 11 + 1)
  | [_, _] =>
    let i := digitsVal s
    let o := i / 10 + 1
    some (i + o + 1)
  | _ => none

/-- `centary_decimal_decode` — inverse centimal map, producing one ASCII
digit (`format!("{num:}")`) or a two-padded decimal (`format!("{num:02}")`);
`none` models the `u8` underflow panic on input `0`. -/
def centary_decimal_decode (i : Nat) : Option (List Nat) :=
  if i = 0 then none
  else
    let j := i - 1
    if j % 11 = 0 then some (decDigits (j / 11))
    else
      let d := j / 11
      let num := j - d - 1
      some (decDigitsPad 2 num)

/-- The chunking loop of `encode_fraction` on a non-empty digit string: two
digits per byte, centimal-encoded, shifted left with the low bit as a
continuation flag on every byte but the last. -/
def encode_fraction_go : List Nat → Option (List Nat)
  | [] => some []
  | [d] => do
    let e ← centary_decimal_encode [d]
    some [e <<< 1]
  | [d1, d2] => do
    let e ← centary_decimal_encode [d1, d2]
    some [e <<< 1]
  | d1 :: d2 :: rest => do
    let e ← centary_decimal_encode [d1, d2]
    let tail ← encode_fraction_go rest
    some (((e <<< 1) ||| 1) :: tail)

/-- `encode_fraction` — a missing or empty fraction becomes the single
"false zero" byte `0x00`. -/
def encode_fraction : Option (List Nat) → Option (List Nat)
  | some f => if f = [] then some [0x00] else encode_fraction_go f
  | none => some [0x00]

/-- The scanning loop of `decode_fraction`: decode each byte, stopping after
a byte whose decode is a single digit or whose continuation bit is clear. -/
def decode_fraction_go : List Nat → Option (List Nat)
  | [] => some []
  | b :: rest => do
    let num := b >>> 1
    let res ← centary_decimal_decode num
    if res.length = 1 ∨ b &&& 1 = 0 then some res
    else do
      let s ← decode_fraction_go rest
      some (res ++ s)

/-- `decode_fraction` — the exact byte string `[0x00]` denotes the empty
fraction. -/
def decode_fraction (fraction_vec : List Nat) : Option (List Nat) :=
  if fraction_vec = [0x00] then some []
  else decode_fraction_go fraction_vec

/-! ## BigNum codec (`lib.rs` lines 478-537) -/

/-- `str::parse::<rug::Integer>` on an ASCII byte string: an optional sign
followed by at least one digit; `none` models the `unwrap` panic. -/
def parseInteger (s : List Nat) : Option Int :=
  match s with
  | 45 :: rest => if rest ≠ [] ∧ allDigits rest then some (-(digitsVal rest : Int)) else none
  | 43 :: rest => if rest ≠ [] ∧ allDigits rest then some (digitsVal rest) else none
  | _ => if s ≠ [] ∧ allDigits s then some (digitsVal s) else none

/-- `bignum.split('.')`: the part before the first `.` (ASCII 46) and, when a
dot is present, the part between the first and second dots. -/
def splitDot (s : List Nat) : List Nat × Option (List Nat) :=
  match s.findIdx? (· = 46) with
  | none => (s, none)
  | some i => (s.take i, some ((s.drop (i + 1)).takeWhile (· ≠ 46)))

/-- `bignum_to_storage` — encode the integer part with the BigInt codec
(replacing the prefix by `{aspect, NEGATIVE_ZERO}` for `-0.x`), then append
the fraction encoding, bitwise negated for negatives. -/
def bignum_to_storage (bignum : List Nat) (a : Aspect) :
    Option (Except LexDataError (List Nat)) :=
  match aspect_storage a with
  | none => none
  | some storage_type =>
    if storage_type = StorageType.BigNum then
      let (bigint, fraction) := splitDot bignum
      match parseInteger bigint with
      | none => none
      | some integer_part =>
        let is_neg := bignum.head? = some 45
        match bigint_to_storage integer_part a with
        | .error e => some (.error e)
        | .ok prefixBytes =>
          let prefixBytes :=
            if integer_part = 0 ∧ is_neg then [aspect_byte a, NEGATIVE_ZERO]
            else prefixBytes
          match encode_fraction fraction with
          | none => none
          | some suffix =>
            let suffix := if is_neg then suffix.map complByte else suffix
            some (.ok (prefixBytes ++ suffix))
    else
      some (.error (.UnexpectedAspect
        ("The aspect " ++ aspectName a ++ " did not match Bignum value type")))

/-- ASCII decimal rendering of an integer (`format!("{int}")`). -/
def intDecBytes (i : Int) : List Nat :=
  if i < 0 then 45 :: decDigits i.natAbs else decDigits i.natAbs

/-- `storage_to_bignum` — BigInt-decode the front, then fraction-decode the
remainder (complemented when the size code was negative); `none` models the
panics (slice out of range, fraction decode underflow). -/
def storage_to_bignum (bytes : List Nat) :
    Option (Except LexDataError Value) :=
  match storage_to_bigint bytes with
  | none => none
  | some (.error e) => some (.error e)
  | some (.ok v) =>
    let (is_pos, size, idx) := size_decode bytes
    let start := size + idx
    if start ≤ bytes.length then
      let fraction_bytes := bytes.drop start
      let fracRes :=
        bif is_pos then decode_fraction fraction_bytes
        else decode_fraction (fraction_bytes.map complByte)
      match fracRes with
      | none => none
      | some fraction =>
        match v with
        | .BigInt int =>
          let decimal :=
            if fraction = [] then intDecBytes int
            else
              (if int = 0 ∧ is_pos = false then [45] else []) ++
                intDecBytes int ++ [46] ++ fraction
          some (.ok (.String decimal))
        | _ => none
    else none

/-! ## Dispatch layer (`lib.rs` lines 157-195, 623-683) -/

/-- `value_to_storage` — dispatch on the value variant (with the `DateTime`
and `Decimal` special cases for strings, and the zero-payload boolean
aspects). -/
def value_to_storage (v : Value) (a : Aspect) :
    Option (Except LexDataError (List Nat)) :=
  match v with
  | .String s =>
    if a = Aspect.DateTime then date_time_to_storage s a
    else if a = Aspect.Decimal then bignum_to_storage s a
    else string_to_storage s a
  | .Int32 i => int32_to_storage i a
  | .BigInt i => some (bigint_to_storage i a)
  | .Int64 i => int64_to_storage i a
  | .Float32 f => float32_to_storage f a
  | .Float64 f => float64_to_storage f a
  | .Boolean b =>
    if a = Aspect.Boolean then
      some (.ok [aspect_byte (if b then Aspect.True else Aspect.False)])
    else
      some (.error (.UnexpectedAspect
        ("The aspect " ++ aspectName a ++ " did not match Boolean storage type")))

/-- `storage_to_value` — read the aspect byte (panicking on an empty buffer
or an unassigned byte), short-circuit the boolean aspects, then dispatch on
the storage type (panicking on aspects with no storage mapping). -/
def storage_to_value (bytes : List Nat) :
    Option (Except LexDataError (Value × Aspect)) :=
  match bytes with
  | [] => none
  | aspectByte :: rest =>
    match byte_aspect aspectByte with
    | none => none
    | some aspect =>
      if aspect = Aspect.True then some (.ok (.Boolean true, .Boolean))
      else if aspect = Aspect.False then some (.ok (.Boolean false, .Boolean))
      else
        match aspect_storage aspect with
        | none => none
        | some ty =>
          match ty with
          | .String => some (.ok (string_from_bytes rest, aspect))
          | .Int32 => some ((storage_to_int32 rest).map (fun r => (r, aspect)))
          | .Int64 => some ((storage_to_int64 rest).map (fun r => (r, aspect)))
          | .Float32 =>
            some ((storage_to_float32 rest).map (fun r => (r, aspect)))
          | .Float64 =>
            some ((storage_to_float64 rest).map (fun r => (r, aspect)))
          | .BigInt =>
            (storage_to_bigint rest).map (fun r => r.map (fun v => (v, aspect)))
          | .BigNum =>
            (storage_to_bignum rest).map (fun r => r.map (fun v => (v, aspect)))
          | .DateTime =>
            (storage_to_date_time rest).map (fun r => r.map (fun v => (v, aspect)))

/-- The counting loop in the `BigNum` arm of `storage_size`. -/
def bignum_tail_count : List Nat → Nat
  | [] => 0
  | b :: rest => if b &&& 1 ≠ 1 then 1 else 1 + bignum_tail_count rest

/-- `storage_size` — length of the record at the front of the buffer;
`none` models the panics of `byte_aspect`/`aspect_storage`. -/
def storage_size (bytes : List Nat) : Option Nat :=
  match bytes with
  | [] => none
  | aspectByte :: rest =>
    match byte_aspect aspectByte with
    | none => none
    | some a =>
      match aspect_storage a with
      | none => none
      | some storage_type =>
        match storage_type with
        | .String => some (1 + string_length rest)
        | .Int32 => some 5
        | .Int64 => some 9
        | .Float32 => some 5
        | .Float64 => some 9
        | .BigInt =>
          let (_, size, idx) := size_decode rest
          some (size + idx + 1)
        | .BigNum =>
          let (_, size, idx) := size_decode rest
          let offset := size + idx + 1
          some (bignum_tail_count (bytes.drop offset) + offset)
        | .DateTime => some 9

/-- The magnitude byte count computed by `bigint_to_storage`. -/
def num_bytes_of (n : Nat) : Nat :=
  (significant_bits n + 1) / 8 +
    (if (significant_bits n + 1) % 8 ≠ 0 then 1 else 0)

/-- The centimal key of a single final digit, as computed by
`centary_decimal_encode` on a one-character chunk. -/
def centary1 (d : Nat) : Nat := (d - 48) * 11 + 1

/-- The centimal key of a two-digit chunk, as computed by
`centary_decimal_encode`. -/
def centary2 (d1 d2 : Nat) : Nat :=
  let v := (d1 - 48) * 10 + (d2 - 48)
  v + v / 10 + 2

/-- Bundled decidable facts about one two-digit centimal chunk (used to
check them for all digit pairs by enumeration). -/
def centaryPairOK (d1 d2 : Nat) : Bool :=
  decide (48 ≤ d1 → 48 ≤ d2 →
    centary_decimal_encode [d1, d2] = some (centary2 d1 d2) ∧
    1 < centary2 d1 d2 ∧ centary2 d1 d2 ≤ 110 ∧
    centary_decimal_decode (centary2 d1 d2) = some [d1, d2])

/-- Spec-side semantic sort key of an `f32` bit pattern (sign-magnitude
reading: the real-number order of non-NaN floats, with `-0.0` and `+0.0`
both mapping to `0`). -/
def f32_key (f : Nat) : Int :=
  if f &&& F32_SIGN_MASK ≠ 0 then -((f &&& 0x7fffffff : Nat) : Int)
  else ((f &&& 0x7fffffff : Nat) : Int)

/-- Spec-side semantic sort key of an `f64` bit pattern. -/
def f64_key (f : Nat) : Int :=
  if f &&& F64_SIGN_MASK ≠ 0 then -((f &&& 0x7fffffffffffffff : Nat) : Int)
  else ((f &&& 0x7fffffffffffffff : Nat) : Int)

/-- Spec-side semantic order on decimals presented as a sign, an integer
magnitude and a (normalized, no trailing zero) fraction digit string.
`lexLt` on normalized fraction strings is exactly their numeric order. -/
def decSemLt (neg1 : Bool) (m1 : Nat) (f1 : List Nat)
    (neg2 : Bool) (m2 : Nat) (f2 : List Nat) : Bool :=
  match neg1, neg2 with
  | true, false => !(m1 == 0 && f1.isEmpty && m2 == 0 && f2.isEmpty)
  | false, true => false
  | false, false => decide (m1 < m2) || (m1 == m2 && lexLt f1 f2)
  | true, true => decide (m2 < m1) || (m2 == m1 && lexLt f2 f1)

/-! ## Lemmas: byte-level facts for the size codec -/

theorem or_id_lt256 : ∀ v, v < 256 → 0 ||| v = v := by decide

theorem or128_eq_add : ∀ v, v < 128 → 128 ||| v = 128 + v := by decide

theorem or192_eq_add : ∀ v, v < 64 → 192 ||| v = 192 + v := by decide

theorem and127_cont : ∀ v, v < 128 → (128 + v) &&& 127 = v := by decide

theorem and128_cont : ∀ v, v < 128 → (128 + v) &&& 128 ≠ 0 := by decide

theorem and127_term : ∀ v, v < 128 → v &&& 127 = v := by decide

theorem and128_term : ∀ v, v < 128 → v &&& 128 = 0 := by decide

theorem and63_first_term : ∀ v, v < 64 → (128 + v) &&& 63 = v := by decide

theorem and64_first_term : ∀ v, v < 64 → (128 + v) &&& 64 = 0 := by decide

theorem and63_first_cont : ∀ v, v < 64 → (192 + v) &&& 63 = v := by decide

theorem and64_first_cont : ∀ v, v < 64 → (192 + v) &&& 64 ≠ 0 := by decide

theorem and128_first_cont : ∀ v, v < 64 → (192 + v) &&& 128 ≠ 0 := by decide

/-! ## Lemmas: shape of `size_encode_loop` -/

theorem size_encode_go_zero_arg (b : Nat) (last : Bool) :
    size_encode_go b 0 last = [] := by
  cases b with
  | zero => rfl
  | succ b => rw [size_encode_go, if_pos rfl]

/-- The iteration bound of `size_encode_go` is irrelevant as long as it is
at least the remainder. -/
theorem size_encode_go_irrel :
    ∀ b1 b2 r : Nat, ∀ last : Bool, r ≤ b1 → r ≤ b2 →
      size_encode_go b1 r last = size_encode_go b2 r last := by
  intro b1
  induction b1 with
  | zero =>
    intro b2 r last h1 _
    have : r = 0 := by omega
    subst this
    rw [size_encode_go_zero_arg, size_encode_go_zero_arg]
  | succ b1 ih =>
    intro b2 r last h1 h2
    by_cases h0 : r = 0
    · subst h0
      rw [size_encode_go_zero_arg, size_encode_go_zero_arg]
    · obtain ⟨b2', rfl⟩ : ∃ b2', b2 = b2' + 1 :=
        Nat.exists_eq_succ_of_ne_zero (by omega)
      have hlt : r >>> 7 < r := by
        rw [Nat.shiftRight_eq_div_pow]
        exact Nat.div_lt_self (by omega) (by norm_num)
      have hrec : size_encode_go b1 (r >>> 7) false =
          size_encode_go b2' (r >>> 7) false :=
        ih b2' (r >>> 7) false (by omega) (by omega)
      rw [size_encode_go, size_encode_go, if_neg h0, if_neg h0, hrec]

theorem size_encode_loop_zero (last : Bool) : size_encode_loop 0 last = [] :=
  rfl

theorem size_encode_loop_small_t {r : Nat} (h1 : r ≠ 0) (h2 : r < 64) :
    size_encode_loop r true = [128 + r] := by
  rw [size_encode_loop]
  obtain ⟨k, rfl⟩ := Nat.exists_eq_succ_of_ne_zero h1
  have hr7 : (k + 1) >>> 7 = 0 := by
    rw [Nat.shiftRight_eq_div_pow]
    exact Nat.div_eq_of_lt (by omega)
  have hmask : (k + 1) &&& FIRST_MASK = k + 1 := by
    show (k + 1) &&& 63 = k + 1
    have := Nat.and_pow_two_sub_one_of_lt_two_pow (x := k + 1) (n := 6)
      (by omega)
    simpa using this
  rw [size_encode_go, if_neg (Nat.succ_ne_zero k),
    if_neg (show ¬ k + 1 ≥ CONTINUATION by unfold CONTINUATION; omega),
    if_neg (show ¬ k + 1 ≥ FIRST_MAX by
      unfold FIRST_MAX FIRST_CONTINUATION; omega),
    hr7, size_encode_go_zero_arg, hmask]
  show [FIRST_SIGN ||| FIRST_TERMINAL ||| (k + 1)] = [128 + (k + 1)]
  unfold FIRST_SIGN FIRST_TERMINAL
  rw [Nat.or_zero, or128_eq_add (k + 1) (by omega)]

theorem size_encode_loop_small_f {r : Nat} (h1 : r ≠ 0) (h2 : r < 64) :
    size_encode_loop r false = [192 + r] := by
  rw [size_encode_loop]
  obtain ⟨k, rfl⟩ := Nat.exists_eq_succ_of_ne_zero h1
  have hr7 : (k + 1) >>> 7 = 0 := by
    rw [Nat.shiftRight_eq_div_pow]
    exact Nat.div_eq_of_lt (by omega)
  have hmask : (k + 1) &&& FIRST_MASK = k + 1 := by
    show (k + 1) &&& 63 = k + 1
    have := Nat.and_pow_two_sub_one_of_lt_two_pow (x := k + 1) (n := 6)
      (by omega)
    simpa using this
  rw [size_encode_go, if_neg (Nat.succ_ne_zero k),
    if_neg (show ¬ k + 1 ≥ CONTINUATION by unfold CONTINUATION; omega),
    if_neg (show ¬ k + 1 ≥ FIRST_MAX by
      unfold FIRST_MAX FIRST_CONTINUATION; omega),
    hr7, size_encode_go_zero_arg, hmask]
  show [FIRST_SIGN ||| FIRST_CONTINUATION ||| (k + 1)] = [192 + (k + 1)]
  unfold FIRST_SIGN FIRST_CONTINUATION
  rw [show (128 : Nat) ||| 64 = 192 from by decide,
    or192_eq_add (k + 1) (by omega)]

theorem size_encode_loop_mid_t {r : Nat} (h1 : 64 ≤ r) (h2 : r < 128) :
    size_encode_loop r true = [r, 192] := by
  rw [size_encode_loop]
  obtain ⟨k, rfl⟩ := Nat.exists_eq_succ_of_ne_zero (show r ≠ 0 by omega)
  have hr7 : (k + 1) >>> 7 = 0 := by
    rw [Nat.shiftRight_eq_div_pow]
    exact Nat.div_eq_of_lt (by omega)
  have hmask : (k + 1) &&& BASE_MASK = k + 1 := by
    show (k + 1) &&& 127 = k + 1
    have := Nat.and_pow_two_sub_one_of_lt_two_pow (x := k + 1) (n := 7)
      (by omega)
    simpa using this
  rw [size_encode_go, if_neg (Nat.succ_ne_zero k),
    if_neg (show ¬ k + 1 ≥ CONTINUATION by unfold CONTINUATION; omega),
    if_pos (show k + 1 ≥ FIRST_MAX by
      unfold FIRST_MAX FIRST_CONTINUATION; omega),
    hr7, size_encode_go_zero_arg, hmask]
  show [TERMINAL ||| (k + 1), FIRST_SIGN ||| FIRST_CONTINUATION] = [k + 1, 192]
  unfold TERMINAL FIRST_SIGN FIRST_CONTINUATION
  rw [Nat.zero_or, show (128 : Nat) ||| 64 = 192 from by decide]

theorem size_encode_loop_mid_f {r : Nat} (h1 : 64 ≤ r) (h2 : r < 128) :
    size_encode_loop r false = [128 + r, 192] := by
  rw [size_encode_loop]
  obtain ⟨k, rfl⟩ := Nat.exists_eq_succ_of_ne_zero (show r ≠ 0 by omega)
  have hr7 : (k + 1) >>> 7 = 0 := by
    rw [Nat.shiftRight_eq_div_pow]
    exact Nat.div_eq_of_lt (by omega)
  have hmask : (k + 1) &&& BASE_MASK = k + 1 := by
    show (k + 1) &&& 127 = k + 1
    have := Nat.and_pow_two_sub_one_of_lt_two_pow (x := k + 1) (n := 7)
      (by omega)
    simpa using this
  rw [size_encode_go, if_neg (Nat.succ_ne_zero k),
    if_neg (show ¬ k + 1 ≥ CONTINUATION by unfold CONTINUATION; omega),
    if_pos (show k + 1 ≥ FIRST_MAX by
      unfold FIRST_MAX FIRST_CONTINUATION; omega),
    hr7, size_encode_go_zero_arg, hmask]
  show [CONTINUATION ||| (k + 1), FIRST_SIGN ||| FIRST_CONTINUATION] =
    [128 + (k + 1), 192]
  unfold CONTINUATION FIRST_SIGN FIRST_CONTINUATION
  rw [or128_eq_add (k + 1) (by omega),
    show (128 : Nat) ||| 64 = 192 from by decide]

theorem size_encode_loop_big_t {r : Nat} (h1 : 128 ≤ r) :
    size_encode_loop r true = (r % 128) :: size_encode_loop (r / 128) false := by
  rw [size_encode_loop]
  obtain ⟨k, rfl⟩ := Nat.exists_eq_succ_of_ne_zero (show r ≠ 0 by omega)
  have hr7 : (k + 1) >>> 7 = (k + 1) / 128 := by
    rw [Nat.shiftRight_eq_div_pow]
  have hmask : (k + 1) &&& BASE_MASK = (k + 1) % 128 := by
    show (k + 1) &&& 127 = (k + 1) % 128
    have := Nat.and_pow_two_sub_one_eq_mod (k + 1) 7
    simpa using this
  rw [size_encode_go, if_neg (Nat.succ_ne_zero k),
    if_pos (show k + 1 ≥ CONTINUATION by unfold CONTINUATION; omega),
    hr7, hmask,
    size_encode_go_irrel k ((k + 1) / 128) ((k + 1) / 128) false
      (by omega) (by omega)]
  show (TERMINAL ||| (k + 1) % 128) :: _ = ((k + 1) % 128) :: _
  unfold TERMINAL
  rw [Nat.zero_or]
  rfl

theorem size_encode_loop_big_f {r : Nat} (h1 : 128 ≤ r) :
    size_encode_loop r false =
      (128 + r % 128) :: size_encode_loop (r / 128) false := by
  rw [size_encode_loop]
  obtain ⟨k, rfl⟩ := Nat.exists_eq_succ_of_ne_zero (show r ≠ 0 by omega)
  have hr7 : (k + 1) >>> 7 = (k + 1) / 128 := by
    rw [Nat.shiftRight_eq_div_pow]
  have hmask : (k + 1) &&& BASE_MASK = (k + 1) % 128 := by
    show (k + 1) &&& 127 = (k + 1) % 128
    have := Nat.and_pow_two_sub_one_eq_mod (k + 1) 7
    simpa using this
  rw [size_encode_go, if_neg (Nat.succ_ne_zero k),
    if_pos (show k + 1 ≥ CONTINUATION by unfold CONTINUATION; omega),
    hr7, hmask,
    size_encode_go_irrel k ((k + 1) / 128) ((k + 1) / 128) false
      (by omega) (by omega)]
  show (CONTINUATION ||| (k + 1) % 128) :: _ = (128 + (k + 1) % 128) :: _
  unfold CONTINUATION
  rw [or128_eq_add _ (Nat.mod_lt _ (by omega))]
  rfl

/-- Every byte emitted by the size-encode loop fits in one byte. -/
theorem size_encode_loop_bytes_lt :
    ∀ r : Nat, ∀ last : Bool, ∀ b ∈ size_encode_loop r last, b < 256 := by
  intro r
  induction r using Nat.strong_induction_on with
  | _ r ih =>
    intro last b hb
    by_cases h0 : r = 0
    · subst h0; rw [size_encode_loop_zero] at hb; cases hb
    by_cases hs : r < 64
    · cases last with
      | true =>
        rw [size_encode_loop_small_t h0 hs] at hb
        rcases List.mem_singleton.mp hb with rfl; omega
      | false =>
        rw [size_encode_loop_small_f h0 hs] at hb
        rcases List.mem_singleton.mp hb with rfl; omega
    by_cases hm : r < 128
    · cases last with
      | true =>
        rw [size_encode_loop_mid_t (by omega) hm] at hb
        rcases List.mem_cons.mp hb with rfl | hb
        · omega
        · rcases List.mem_singleton.mp hb with rfl; omega
      | false =>
        rw [size_encode_loop_mid_f (by omega) hm] at hb
        rcases List.mem_cons.mp hb with rfl | hb
        · omega
        · rcases List.mem_singleton.mp hb with rfl; omega
    · have hmod : r % 128 < 128 := Nat.mod_lt _ (by omega)
      have hrec := ih (r / 128) (Nat.div_lt_self (by omega) (by omega)) false
      cases last with
      | true =>
        rw [size_encode_loop_big_t (by omega)] at hb
        rcases List.mem_cons.mp hb with rfl | hb
        · omega
        · exact hrec b hb
      | false =>
        rw [size_encode_loop_big_f (by omega)] at hb
        rcases List.mem_cons.mp hb with rfl | hb
        · omega
        · exact hrec b hb

/-- Every byte of `size_encode` fits in one byte. -/
theorem size_encode_bytes_lt {r : Nat} : ∀ b ∈ size_encode r, b < 256 := by
  unfold size_encode
  by_cases h0 : r = 0
  · rw [if_pos h0]; decide
  · rw [if_neg h0]; exact size_encode_loop_bytes_lt r true

/-! ## Lemmas: decode steps -/

theorem sd_first_term {v : Nat} (h : v < 64) (t : List Nat) :
    size_decode ((128 + v) :: t) = (true, v, 1) := by
  have h1 : ((128 + v) &&& FIRST_SIGN ≠ 0) := and128_cont v (by omega)
  have h2 : (128 + v) &&& FIRST_CONTINUATION = 0 := and64_first_term v h
  have h3 : (128 + v) &&& FIRST_MASK = v := and63_first_term v h
  simp only [size_decode, decide_eq_true h1, cond_true, h3, if_pos h2]

theorem sd_first_cont {v : Nat} (h : v < 64) (t : List Nat) :
    size_decode ((192 + v) :: t) = size_decode_from true (v <<< 7) 1 t := by
  have h1 : ((192 + v) &&& FIRST_SIGN ≠ 0) := and128_first_cont v h
  have h2 : ¬ (192 + v) &&& FIRST_CONTINUATION = 0 := and64_first_cont v h
  have h3 : (192 + v) &&& FIRST_MASK = v := and63_first_cont v h
  simp only [size_decode, decide_eq_true h1, cond_true, h3, if_neg h2,
    Nat.zero_add]

theorem sd_from_term {v : Nat} (h : v < 128) (sign : Bool)
    (acc i : Nat) (t : List Nat) :
    size_decode_from sign acc i ((bif sign then v else v ^^^ 255) :: t) =
      (sign, acc + v, i + 1) := by
  have h2 : v &&& CONTINUATION = 0 := and128_term v h
  have h3 : v &&& BASE_MASK = v := and127_term v h
  cases sign with
  | false =>
    have hxor : (v ^^^ 255) ^^^ 255 = v := Nat.xor_cancel_right 255 v
    simp only [size_decode_from, cond_false, hxor, h3, if_pos h2]
  | true =>
    simp only [size_decode_from, cond_true, h3, if_pos h2]

theorem sd_from_cont {v : Nat} (h : v < 128) (sign : Bool)
    (acc i : Nat) (t : List Nat) :
    size_decode_from sign acc i
        ((bif sign then 128 + v else (128 + v) ^^^ 255) :: t) =
      size_decode_from sign ((acc + v) <<< 7) (i + 1) t := by
  have h2 : ¬ (128 + v) &&& CONTINUATION = 0 := and128_cont v h
  have h3 : (128 + v) &&& BASE_MASK = v := and127_cont v h
  cases sign with
  | false =>
    have hxor : ((128 + v) ^^^ 255) ^^^ 255 = 128 + v :=
      Nat.xor_cancel_right 255 (128 + v)
    simp only [size_decode_from, cond_false, hxor, h3, if_neg h2]
  | true =>
    simp only [size_decode_from, cond_true, h3, if_neg h2]

/-! ## Lemmas: decoding an encoded size (with arbitrary trailing bytes) -/

/-- Continuation-form chunk lists decode into the accumulator `r <<< 7` and
hand over to the remaining bytes. -/
theorem size_decode_loop_cont :
    ∀ r : Nat, 0 < r → ∀ tail : List Nat,
    size_decode ((size_encode_loop r false).reverse ++ tail) =
      size_decode_from true (r <<< 7) (size_encode_loop r false).length tail := by
  intro r
  induction r using Nat.strong_induction_on with
  | _ r ih =>
    intro h0 tail
    by_cases hs : r < 64
    · rw [size_encode_loop_small_f (by omega) hs]
      simpa using sd_first_cont hs tail
    by_cases hm : r < 128
    · rw [size_encode_loop_mid_f (by omega) hm]
      have e1 := sd_first_cont (v := 0) (by omega) ((128 + r) :: tail)
      have e2 := sd_from_cont (v := r) hm true (0 <<< 7) 1 tail
      simp only [Nat.add_zero] at e1
      simp only [cond_true, Nat.zero_shiftLeft, Nat.zero_add] at e1 e2
      simp only [List.reverse_cons, List.reverse_nil, List.nil_append,
        List.cons_append, List.length_cons, List.length_nil]
      rw [e1, e2]
    · have hr : 128 ≤ r := by omega
      rw [size_encode_loop_big_f hr]
      have hd : 0 < r / 128 := Nat.div_pos hr (by omega)
      have hmod : r % 128 < 128 := Nat.mod_lt _ (by omega)
      simp only [List.reverse_cons, List.length_cons]
      rw [List.append_assoc]
      rw [ih (r / 128) (Nat.div_lt_self (by omega) (by omega)) hd
        (([(128 + r % 128)] : List Nat) ++ tail)]
      have e2 := sd_from_cont (v := r % 128) hmod true ((r / 128) <<< 7)
        (size_encode_loop (r / 128) false).length tail
      simp only [cond_true] at e2
      simp only [List.singleton_append]
      rw [e2]
      congr 2
      simp only [Nat.shiftLeft_eq]
      omega

/-- `size_decode` recovers any positive count from its reversed encoding,
consuming exactly the encoded bytes and ignoring anything after them. -/
theorem size_decode_of_encode_pos :
    ∀ r : Nat, 0 < r → ∀ tail : List Nat,
    size_decode ((size_encode_loop r true).reverse ++ tail) =
      (true, r, (size_encode_loop r true).length) := by
  intro r h0 tail
  by_cases hs : r < 64
  · rw [size_encode_loop_small_t (by omega) hs]
    simpa using sd_first_term hs tail
  by_cases hm : r < 128
  · rw [size_encode_loop_mid_t (by omega) hm]
    have e1 := sd_first_cont (v := 0) (by omega) (r :: tail)
    have e2 := sd_from_term (v := r) hm true (0 <<< 7) 1 tail
    simp only [Nat.add_zero] at e1
    simp only [cond_true, Nat.zero_shiftLeft, Nat.zero_add] at e1 e2
    simp only [List.reverse_cons, List.reverse_nil, List.nil_append,
      List.cons_append, List.length_cons, List.length_nil]
    rw [e1, e2]
  · have hr : 128 ≤ r := by omega
    rw [size_encode_loop_big_t hr]
    have hd : 0 < r / 128 := Nat.div_pos hr (by omega)
    have hmod : r % 128 < 128 := Nat.mod_lt _ (by omega)
    simp only [List.reverse_cons, List.length_cons]
    rw [List.append_assoc]
    rw [size_decode_loop_cont (r / 128) hd (([r % 128] : List Nat) ++ tail)]
    have e2 := sd_from_term (v := r % 128) hmod true ((r / 128) <<< 7)
      (size_encode_loop (r / 128) false).length tail
    simp only [cond_true] at e2
    simp only [List.singleton_append]
    rw [e2]
    congr 2
    simp only [Nat.shiftLeft_eq]
    omega

/-- Processing a run of bytes whose continuation bit is set (under the
established sign) consumes all of them and returns a triple. -/
theorem size_decode_from_all_cont :
    ∀ (l : List Nat) (sign : Bool) (acc i : Nat),
    (∀ b ∈ l, (bif sign then b else b ^^^ 255) &&& CONTINUATION ≠ 0) →
    ∃ m, size_decode_from sign acc i l = (sign, m, i + l.length) := by
  intro l
  induction l with
  | nil =>
    intro sign acc i _
    exact ⟨acc, by simp [size_decode_from]⟩
  | cons b rest ih =>
    intro sign acc i hall
    have hb := hall b (List.mem_cons_self b rest)
    obtain ⟨m, hm⟩ := ih sign
      ((acc + ((bif sign then b else b ^^^ 255) &&& BASE_MASK)) <<< 7) (i + 1)
      (fun x hx => hall x (List.mem_cons_of_mem _ hx))
    refine ⟨m, ?_⟩
    simp only [size_decode_from, if_neg hb]
    rw [hm]
    simp only [List.length_cons, Prod.mk.injEq, true_and]
    omega

/-! ## Claims C3, C6, C7 -/

/-- Claim C3 (corrected).  For every `n < 2^32`, `size_decode` applied to
the *byte-reversed* output of `size_encode` returns `(true, n, len)` when
`0 < n`, and `(false, 0, 1)` when `n = 0` (the canonical zero byte
`NEGATIVE_ZERO = 0b01111111` reads back as a negative carrier).  Applied to
the unreversed encoder output, as the claim literally states, the round
trip fails for `n = 0` and for every `n ≥ 64` (`size_encode` leaves its
bytes in reverse order for the caller). -/
theorem C3_size_roundtrip_amended (n : Nat) (hn : n < 2 ^ 32) :
    size_decode ((size_encode n).reverse) =
      if n = 0 then (false, 0, 1) else (true, n, (size_encode n).length) := by
  by_cases h0 : n = 0
  · subst h0; decide
  · rw [if_neg h0]
    unfold size_encode
    rw [if_neg h0]
    have := size_decode_of_encode_pos n (Nat.pos_of_ne_zero h0) []
    simpa using this

/-- Witness for C3 at `n = 4095`. -/
theorem C3_size_roundtrip_witness :
    size_decode ((size_encode 4095).reverse) =
      (true, 4095, (size_encode 4095).length) := by
  have h := C3_size_roundtrip_amended 4095 (by norm_num)
  rw [if_neg (by norm_num)] at h
  exact h

/-- Counterexample to C3 as stated: feeding `size_decode` the unreversed
output of `size_encode` returns the wrong triple at `n = 0` (sign `false`)
and at `n = 64` (reads the low-order chunk as a negated first byte). -/
theorem C3_counterexample :
    size_decode (size_encode 0) ≠ (true, 0, (size_encode 0).length) ∧
    size_decode (size_encode 64) ≠ (true, 64, (size_encode 64).length) := by
  decide

/-- Claim C6 (corrected).  When the buffer ends mid-continuation
(the first byte announces a continuation and every following byte keeps its
continuation bit set under the sign), `size_decode` does not fail — the
library has no `BadSizeEncoding` error at all, and `size_decode`'s type is a
total triple — it returns the sign, a partially accumulated magnitude, and
the full buffer length. -/
theorem C6_midcontinuation_amended (b0 : Nat) (rest : List Nat) (sign : Bool)
    (hsign : sign = decide (b0 &&& FIRST_SIGN ≠ 0))
    (hcont : (bif sign then b0 else b0 ^^^ 255) &&& FIRST_CONTINUATION ≠ 0)
    (hall : ∀ b ∈ rest, (bif sign then b else b ^^^ 255) &&& CONTINUATION ≠ 0) :
    ∃ m, size_decode (b0 :: rest) = (sign, m, (b0 :: rest).length) := by
  obtain ⟨m, hm⟩ := size_decode_from_all_cont rest sign
    ((0 + ((bif sign then b0 else b0 ^^^ 255) &&& FIRST_MASK)) <<< 7) 1 hall
  refine ⟨m, ?_⟩
  simp only [size_decode, ← hsign, if_neg hcont]
  rw [hm]
  simp only [List.length_cons, Prod.mk.injEq, true_and]
  omega

/-- Witness for C6 at the truncated buffer `[0b11000000]`. -/
theorem C6_midcontinuation_witness :
    ∃ m, size_decode [192] = (true, m, 1) := by
  have h := C6_midcontinuation_amended 192 [] true (by decide) (by decide)
    (by intro b hb; cases hb)
  simpa using h

/-- Counterexample to C6 as stated: on the mid-continuation buffer `[192]`
the decoder returns the `(sign, magnitude, consumed)` triple `(true, 0, 1)`
rather than failing; `LexDataError` has no `BadSizeEncoding` variant to
fail with. -/
theorem C6_counterexample : size_decode [192] = (true, 0, 1) := by decide

/-- Claim C7 (corrected).  `size_encode` (of `lib.rs`) emits its bytes in
reverse order: its single-byte outputs match the claim
(`size_encode 0 = [0b01111111]`, `size_encode 1 = [129]`,
`size_encode 12 = [140]`), but `size_encode 4095` is the *reversal* of the
claimed `[0b11011111, 0b01111111]`, and `72057594037927935` does not fit
`size_encode`'s `u32` argument — the nine-byte sequence is produced by
`size_enc` of `backup.rs`, which reverses its own output (but encodes 0 as
`[]`, not `[NEGATIVE_ZERO]`). -/
theorem C7_size_encode_values_amended :
    size_encode 0 = [0b01111111] ∧
    size_encode 1 = [129] ∧
    size_encode 12 = [140] ∧
    (size_encode 4095).reverse = [0b11011111, 0b01111111] ∧
    size_enc 72057594037927935 =
      [0xc0, 0xff, 0xff, 0xff, 0xff, 0xff, 0xff, 0xff, 0x7f] := by
  refine ⟨by decide, by decide, by decide, by decide, by decide⟩

/-- Counterexample to C7 as stated: `size_encode 4095` is
`[0b01111111, 0b11011111]`, not the claimed big-endian sequence. -/
theorem C7_counterexample :
    size_encode 4095 ≠ [0b11011111, 0b01111111] := by decide

/-! ## Claim C8 -/

/-- Claim C8 (corrected).  The BigInt encoding of zero is the aspect tag
(un-negated) followed by the size code for *one* magnitude byte (`129`) and
a single `0x00` payload byte — not a size code of magnitude 0 with no
payload: `significant_bits 0 + 1 = 1` makes `num_bytes = 1`. -/
theorem C8_bigint_zero_amended (a : Aspect) :
    bigint_to_storage 0 a = .ok [aspect_byte a, 129, 0] := by
  cases a <;> decide

/-- Counterexample to C8 as stated: the encoding of zero under `Integer`
is `[4, 129, 0]`; its post-tag bytes are a size code of magnitude 1
followed by one payload byte, and in particular it is not the two-byte
record `[4, NEGATIVE_ZERO]` whose size code carries magnitude 0. -/
theorem C8_counterexample :
    bigint_to_storage 0 Aspect.Integer = .ok [4, 129, 0] ∧
    size_decode [129, 0] = (true, 1, 1) ∧
    bigint_to_storage 0 Aspect.Integer ≠ .ok [4, NEGATIVE_ZERO] := by
  refine ⟨by decide, by decide, by decide⟩

/-! ## Claims C5, C9 -/

/-- Recognised aspect bytes map back to their aspect. -/
theorem byte_aspect_aspect_byte (a : Aspect) :
    byte_aspect (aspect_byte a) = some a := by
  cases a <;> rfl

/-- Claim C5 (corrected).  Mismatches between a value variant and a
*supported* aspect are returned as `UnexpectedAspect` error values, but an
input buffer whose first byte is not a recognised aspect makes
`storage_to_value` panic (the `expect` in `byte_aspect`), modelled here as
`none` — no error value is returned. -/
theorem C5_errors_amended :
    (∀ (b : Nat) (rest : List Nat), byte_aspect b = none →
      storage_to_value (b :: rest) = none) ∧
    (∀ i : Int, value_to_storage (.Int32 i) .String =
      some (.error (.UnexpectedAspect
        "The aspect String did not match Int32 value type"))) := by
  constructor
  · intro b rest h
    simp [storage_to_value, h]
  · intro i
    rfl

/-- Witness for C5: the unassigned byte `0` panics, and an `Int32` encoded
under the `String` aspect yields the error value. -/
theorem C5_errors_witness :
    storage_to_value [0] = none ∧
    value_to_storage (.Int32 5) .String =
      some (.error (.UnexpectedAspect
        "The aspect String did not match Int32 value type")) :=
  ⟨C5_errors_amended.1 0 [] rfl, C5_errors_amended.2 5⟩

/-- Counterexample to C5 as stated: on buffers whose first byte is the
unassigned `0` or `49`, `storage_to_value` panics (modelled `none`) instead
of returning an `UnexpectedAspect` error value. -/
theorem C5_counterexample :
    storage_to_value [0] = none ∧ storage_to_value [49, 1, 2] = none := by
  refine ⟨by decide, by decide⟩

/-- Counting bytes before the first `0` is taking the longest
`(· != 0)`-prefix. -/
theorem string_length_eq_takeWhile (p : List Nat) :
    string_length p = (p.takeWhile (· != 0)).length := by
  induction p with
  | nil => rfl
  | cons b rest ih =>
    by_cases h : b = 0
    · subst h; simp [string_length, List.takeWhile]
    · have hb : (b != 0) = true := by simpa using h
      simp [string_length, List.takeWhile, hb, h, ih]
      omega

/-- Claim C9 (corrected).  For a String-storage record, `storage_size`
counts the aspect byte plus the payload bytes strictly *before* the first
`0` byte — the terminator itself is not included (and when no `0` is
present the count runs to the end of the slice). -/
theorem C9_string_size_amended (a : Aspect) (p : List Nat)
    (h : aspect_storage a = some .String) :
    storage_size (aspect_byte a :: p) =
      some (1 + (p.takeWhile (· != 0)).length) := by
  simp only [storage_size, byte_aspect_aspect_byte a, h,
    string_length_eq_takeWhile]

/-- Witness for C9: the record `[1, 97, 0, 98]` measures 2 bytes. -/
theorem C9_string_size_witness :
    storage_size [1, 97, 0, 98] = some 2 := by
  have h := C9_string_size_amended .String [97, 0, 98] rfl
  simpa using h

/-- Counterexample to C9 as stated: for the String record `[1, 97, 0, 98]`
the claim's count "up to and including the first 0 terminator" is 3, but
`storage_size` returns 2 (the terminator is excluded). -/
theorem C9_counterexample :
    storage_size [1, 97, 0, 98] = some 2 ∧
    storage_size [1, 97, 0, 98] ≠ some 3 := by
  refine ⟨by decide, by decide⟩

/-! ## Lemmas: big-endian serialisation -/

theorem be_bytes_length (w n : Nat) : (be_bytes w n).length = w := by
  induction w generalizing n with
  | zero => rfl
  | succ w ih => simp [be_bytes, ih]

theorem beVal_acc (l : List Nat) :
    ∀ acc, List.foldl (fun a b => a * 256 + b) acc l =
      acc * 256 ^ l.length + beVal l := by
  induction l with
  | nil => intro acc; simp [beVal]
  | cons b t ih =>
    intro acc
    show List.foldl _ (acc * 256 + b) t = _
    rw [ih (acc * 256 + b)]
    have hb : beVal (b :: t) = b * 256 ^ t.length + beVal t := by
      show List.foldl _ (0 * 256 + b) t = _
      rw [ih (0 * 256 + b)]
      ring
    rw [hb]
    simp only [List.length_cons]
    ring

theorem beVal_cons (b : Nat) (t : List Nat) :
    beVal (b :: t) = b * 256 ^ t.length + beVal t := by
  simp only [beVal, List.foldl_cons]
  rw [beVal_acc]
  simp [beVal]

theorem beVal_be_bytes_mod (w n : Nat) :
    beVal (be_bytes w n) = n % 2 ^ (8 * w) := by
  induction w generalizing n with
  | zero => simp [be_bytes, beVal, Nat.mod_one]
  | succ w ih =>
    show beVal ((n >>> (8 * w)) % 256 :: be_bytes w n) = _
    rw [beVal_cons, be_bytes_length, ih, Nat.shiftRight_eq_div_pow]
    have h2 : (2 : Nat) ^ (8 * (w + 1)) = 2 ^ (8 * w) * 256 := by
      rw [show 8 * (w + 1) = 8 * w + 8 by ring, Nat.pow_add]
    have h3 : (256 : Nat) ^ w = 2 ^ (8 * w) := by
      rw [show (256 : Nat) = 2 ^ 8 by norm_num, ← Nat.pow_mul]
    rw [h2, Nat.mod_mul, h3]
    ring

theorem beVal_be_bytes {w n : Nat} (h : n < 2 ^ (8 * w)) :
    beVal (be_bytes w n) = n := by
  rw [beVal_be_bytes_mod, Nat.mod_eq_of_lt h]

theorem be_bytes_take (w n k : Nat) (h : w ≤ k) :
    (be_bytes w n).take k = be_bytes w n :=
  List.take_of_length_le (by rw [be_bytes_length]; omega)

/-! ## Lemmas: the IEEE sign transforms -/

theorem xor_shiftRight (a b n : Nat) :
    (a ^^^ b) >>> n = (a >>> n) ^^^ (b >>> n) := by
  apply Nat.eq_of_testBit_eq
  intro i
  simp [Nat.testBit_shiftRight, Nat.testBit_xor]

theorem xor_ne_self {a k : Nat} (h : k ≠ 0) : a ^^^ k ≠ a := by
  intro hc
  have h2 : a ^^^ (a ^^^ k) = a ^^^ a := by rw [hc]
  rw [← Nat.xor_assoc, Nat.xor_self, Nat.zero_xor] at h2
  exact h h2

theorem sign_bit_cases (f : Nat) (i : Nat) :
    f &&& 2 ^ i = 0 ∨ f &&& 2 ^ i = 2 ^ i := by
  rw [Nat.and_two_pow]
  cases f.testBit i <;> simp

theorem f32_sign_eq_zero_or (f : Nat) :
    f &&& F32_SIGN_MASK = 0 ∨ f &&& F32_SIGN_MASK = F32_SIGN_MASK := by
  have h := sign_bit_cases f 31
  have e : (2 : Nat) ^ 31 = F32_SIGN_MASK := by norm_num [F32_SIGN_MASK]
  rw [e] at h
  exact h

theorem f64_sign_eq_zero_or (f : Nat) :
    f &&& F64_SIGN_MASK = 0 ∨ f &&& F64_SIGN_MASK = F64_SIGN_MASK := by
  have h := sign_bit_cases f 63
  have e : (2 : Nat) ^ 63 = F64_SIGN_MASK := by norm_num [F64_SIGN_MASK]
  rw [e] at h
  exact h

/-- The `f32` encode transform followed by the decode transform is the
identity on every bit pattern (both are pure bit tests). -/
theorem f32_transform_roundtrip (f : Nat) :
    (if (if f &&& F32_SIGN_MASK > 0 then f ^^^ F32_COMPLEMENT
         else f ^^^ F32_SIGN_MASK) &&& F32_SIGN_MASK > 0
     then (if f &&& F32_SIGN_MASK > 0 then f ^^^ F32_COMPLEMENT
           else f ^^^ F32_SIGN_MASK) ^^^ F32_SIGN_MASK
     else (if f &&& F32_SIGN_MASK > 0 then f ^^^ F32_COMPLEMENT
           else f ^^^ F32_SIGN_MASK) ^^^ F32_COMPLEMENT) = f := by
  have hCS : F32_COMPLEMENT &&& F32_SIGN_MASK = F32_SIGN_MASK := by decide
  have hSS : F32_SIGN_MASK &&& F32_SIGN_MASK = F32_SIGN_MASK := Nat.and_self _
  rcases f32_sign_eq_zero_or f with hz | hs
  · rw [if_neg (show ¬ f &&& F32_SIGN_MASK > 0 by omega)]
    have hg : (f ^^^ F32_SIGN_MASK) &&& F32_SIGN_MASK = F32_SIGN_MASK := by
      rw [Nat.and_xor_distrib_right, hz, hSS, Nat.zero_xor]
    rw [if_pos (show (f ^^^ F32_SIGN_MASK) &&& F32_SIGN_MASK > 0 by
        rw [hg]; norm_num [F32_SIGN_MASK]),
      Nat.xor_cancel_right]
  · rw [if_pos (show f &&& F32_SIGN_MASK > 0 by rw [hs]; norm_num [F32_SIGN_MASK])]
    have hg : (f ^^^ F32_COMPLEMENT) &&& F32_SIGN_MASK = 0 := by
      rw [Nat.and_xor_distrib_right, hs, hCS, Nat.xor_self]
    rw [if_neg (show ¬ (f ^^^ F32_COMPLEMENT) &&& F32_SIGN_MASK > 0 by omega),
      Nat.xor_cancel_right]

/-- Flipping only the sign bit leaves the `f64` NaN test unchanged. -/
theorem f64_isNaN_xor_sign (f : Nat) :
    f64_isNaN (f ^^^ F64_SIGN_MASK) = f64_isNaN f := by
  unfold f64_isNaN
  rw [xor_shiftRight,
    show F64_SIGN_MASK >>> 52 = 2048 from by decide,
    Nat.and_xor_distrib_right,
    show (2048 : Nat) &&& 0x7ff = 0 from by decide,
    Nat.and_xor_distrib_right,
    show F64_SIGN_MASK &&& 0xfffffffffffff = 0 from by decide,
    Nat.xor_zero, Nat.xor_zero]

/-- The `f64` encode transform followed by the decode transform is the
identity on every non-NaN bit pattern. -/
theorem f64_transform_roundtrip (f : Nat) (hnan : f64_isNaN f = false) :
    (bif f64_signum_is_neg_one
          (bif f64_signum_is_neg_one f then f ^^^ F64_COMPLEMENT
           else f ^^^ F64_SIGN_MASK)
     then (bif f64_signum_is_neg_one f then f ^^^ F64_COMPLEMENT
           else f ^^^ F64_SIGN_MASK) ^^^ F64_SIGN_MASK
     else (bif f64_signum_is_neg_one f then f ^^^ F64_COMPLEMENT
           else f ^^^ F64_SIGN_MASK) ^^^ F64_COMPLEMENT) = f := by
  have hCS : F64_COMPLEMENT &&& F64_SIGN_MASK = F64_SIGN_MASK := by decide
  have hSS : F64_SIGN_MASK &&& F64_SIGN_MASK = F64_SIGN_MASK := Nat.and_self _
  rcases f64_sign_eq_zero_or f with hz | hs
  · have henc : f64_signum_is_neg_one f = false := by
      simp [f64_signum_is_neg_one, hz]
    rw [henc]
    simp only [cond_false]
    have hgS : (f ^^^ F64_SIGN_MASK) &&& F64_SIGN_MASK = F64_SIGN_MASK := by
      rw [Nat.and_xor_distrib_right, hz, hSS, Nat.zero_xor]
    have hdec : f64_signum_is_neg_one (f ^^^ F64_SIGN_MASK) = true := by
      simp [f64_signum_is_neg_one, hgS, f64_isNaN_xor_sign, hnan]
      norm_num [F64_SIGN_MASK]
    rw [hdec]
    simp only [cond_true]
    rw [Nat.xor_cancel_right]
  · have henc : f64_signum_is_neg_one f = true := by
      simp [f64_signum_is_neg_one, hs, hnan]
      norm_num [F64_SIGN_MASK]
    rw [henc]
    simp only [cond_true]
    have hgS : (f ^^^ F64_COMPLEMENT) &&& F64_SIGN_MASK = 0 := by
      rw [Nat.and_xor_distrib_right, hs, hCS, Nat.xor_self]
    have hdec : f64_signum_is_neg_one (f ^^^ F64_COMPLEMENT) = false := by
      simp [f64_signum_is_neg_one, hgS]
    rw [hdec]
    simp only [cond_false]
    rw [Nat.xor_cancel_right]

/-- For an `f64` NaN pattern the decode transform undoes the sign flip with
the full complement, producing a different bit pattern. -/
theorem f64_transform_nan (f : Nat) (hnan : f64_isNaN f = true) :
    (bif f64_signum_is_neg_one
          (bif f64_signum_is_neg_one f then f ^^^ F64_COMPLEMENT
           else f ^^^ F64_SIGN_MASK)
     then (bif f64_signum_is_neg_one f then f ^^^ F64_COMPLEMENT
           else f ^^^ F64_SIGN_MASK) ^^^ F64_SIGN_MASK
     else (bif f64_signum_is_neg_one f then f ^^^ F64_COMPLEMENT
           else f ^^^ F64_SIGN_MASK) ^^^ F64_COMPLEMENT) =
      f ^^^ 0x7fffffffffffffff := by
  have henc : f64_signum_is_neg_one f = false := by
    simp [f64_signum_is_neg_one, hnan]
  rw [henc]
  simp only [cond_false]
  have hdec : f64_signum_is_neg_one (f ^^^ F64_SIGN_MASK) = false := by
    simp [f64_signum_is_neg_one, f64_isNaN_xor_sign, hnan]
  rw [hdec]
  simp only [cond_false]
  rw [Nat.xor_assoc,
    show F64_SIGN_MASK ^^^ F64_COMPLEMENT = 0x7fffffffffffffff from by decide]

/-! ## Lemmas: dispatch of `storage_to_value` by storage type -/

theorem aspect_ne_true {a : Aspect} {st : StorageType}
    (h : aspect_storage a = some st) : a ≠ .True := by
  intro e
  subst e
  simp [aspect_storage] at h

theorem aspect_ne_false {a : Aspect} {st : StorageType}
    (h : aspect_storage a = some st) : a ≠ .False := by
  intro e
  subst e
  simp [aspect_storage] at h

theorem s2v_string (a : Aspect) (rest : List Nat)
    (h : aspect_storage a = some .String) :
    storage_to_value (aspect_byte a :: rest) =
      some (.ok (string_from_bytes rest, a)) := by
  simp [storage_to_value, byte_aspect_aspect_byte, aspect_ne_true h,
    aspect_ne_false h, h]

theorem s2v_int32 (a : Aspect) (rest : List Nat)
    (h : aspect_storage a = some .Int32) :
    storage_to_value (aspect_byte a :: rest) =
      some ((storage_to_int32 rest).map (fun r => (r, a))) := by
  simp [storage_to_value, byte_aspect_aspect_byte, aspect_ne_true h,
    aspect_ne_false h, h]

theorem s2v_int64 (a : Aspect) (rest : List Nat)
    (h : aspect_storage a = some .Int64) :
    storage_to_value (aspect_byte a :: rest) =
      some ((storage_to_int64 rest).map (fun r => (r, a))) := by
  simp [storage_to_value, byte_aspect_aspect_byte, aspect_ne_true h,
    aspect_ne_false h, h]

theorem s2v_float32 (a : Aspect) (rest : List Nat)
    (h : aspect_storage a = some .Float32) :
    storage_to_value (aspect_byte a :: rest) =
      some ((storage_to_float32 rest).map (fun r => (r, a))) := by
  simp [storage_to_value, byte_aspect_aspect_byte, aspect_ne_true h,
    aspect_ne_false h, h]

theorem s2v_float64 (a : Aspect) (rest : List Nat)
    (h : aspect_storage a = some .Float64) :
    storage_to_value (aspect_byte a :: rest) =
      some ((storage_to_float64 rest).map (fun r => (r, a))) := by
  simp [storage_to_value, byte_aspect_aspect_byte, aspect_ne_true h,
    aspect_ne_false h, h]

theorem s2v_bigint (a : Aspect) (rest : List Nat)
    (h : aspect_storage a = some .BigInt) :
    storage_to_value (aspect_byte a :: rest) =
      (storage_to_bigint rest).map (fun r => r.map (fun v => (v, a))) := by
  simp [storage_to_value, byte_aspect_aspect_byte, aspect_ne_true h,
    aspect_ne_false h, h]

theorem s2v_bignum (a : Aspect) (rest : List Nat)
    (h : aspect_storage a = some .BigNum) :
    storage_to_value (aspect_byte a :: rest) =
      (storage_to_bignum rest).map (fun r => r.map (fun v => (v, a))) := by
  simp [storage_to_value, byte_aspect_aspect_byte, aspect_ne_true h,
    aspect_ne_false h, h]

theorem s2v_datetime (a : Aspect) (rest : List Nat)
    (h : aspect_storage a = some .DateTime) :
    storage_to_value (aspect_byte a :: rest) =
      (storage_to_date_time rest).map (fun r => r.map (fun v => (v, a))) := by
  simp [storage_to_value, byte_aspect_aspect_byte, aspect_ne_true h,
    aspect_ne_false h, h]

/-! ## Claim C10 -/

/-- Claim C10 (corrected).  Every `f32` NaN bit pattern round-trips
bit-exactly (the `f32` codec branches on the sign *bit*), but no `f64` NaN
does: both `f64` branches test `signum() == -1.0`, which is false for NaN,
so a NaN is encoded with a sign-bit flip and decoded with a full
complement, returning the bit pattern `f ^^^ 0x7fffffffffffffff ≠ f`. -/
theorem C10_nan_roundtrip_amended :
    (∀ f : Nat, f < 2 ^ 32 → f32_isNaN f = true →
      ∃ bs, value_to_storage (.Float32 f) .Float = some (.ok bs) ∧
        storage_to_value bs = some (.ok (.Float32 f, .Float))) ∧
    (∀ f : Nat, f < 2 ^ 64 → f64_isNaN f = true →
      ∃ bs, value_to_storage (.Float64 f) .Double = some (.ok bs) ∧
        storage_to_value bs =
          some (.ok (.Float64 (f ^^^ 0x7fffffffffffffff), .Double)) ∧
        f ^^^ 0x7fffffffffffffff ≠ f) := by
  constructor
  · intro f hf _
    refine ⟨aspect_byte Aspect.Float :: be_bytes 4
      (if f &&& F32_SIGN_MASK > 0 then f ^^^ F32_COMPLEMENT
       else f ^^^ F32_SIGN_MASK), rfl, ?_⟩
    rw [s2v_float32 Aspect.Float _ rfl]
    have hg : (if f &&& F32_SIGN_MASK > 0 then f ^^^ F32_COMPLEMENT
        else f ^^^ F32_SIGN_MASK) < 2 ^ 32 := by
      split
      · exact Nat.xor_lt_two_pow hf (by decide)
      · exact Nat.xor_lt_two_pow hf (by decide)
    unfold storage_to_float32
    rw [if_pos (by simp [be_bytes_length]),
      be_bytes_take 4 _ 4 le_rfl, beVal_be_bytes hg]
    dsimp only
    rw [f32_transform_roundtrip f]
    rfl
  · intro f hf hnan
    refine ⟨aspect_byte Aspect.Double :: be_bytes 8
      (bif f64_signum_is_neg_one f then f ^^^ F64_COMPLEMENT
       else f ^^^ F64_SIGN_MASK), rfl, ?_, xor_ne_self (by norm_num)⟩
    rw [s2v_float64 Aspect.Double _ rfl]
    have hg : (bif f64_signum_is_neg_one f then f ^^^ F64_COMPLEMENT
        else f ^^^ F64_SIGN_MASK) < 2 ^ 64 := by
      cases f64_signum_is_neg_one f with
      | true => exact Nat.xor_lt_two_pow hf (by decide)
      | false => exact Nat.xor_lt_two_pow hf (by decide)
    unfold storage_to_float64
    rw [if_pos (by simp [be_bytes_length]),
      be_bytes_take 8 _ 8 le_rfl, beVal_be_bytes hg]
    dsimp only
    rw [f64_transform_nan f hnan]
    rfl

/-- Witness for C10 at the quiet NaNs `0x7fc00000` (`f32`) and
`0x7ff8000000000000` (`f64`). -/
theorem C10_nan_roundtrip_witness :
    (∃ bs, value_to_storage (.Float32 0x7fc00000) .Float = some (.ok bs) ∧
      storage_to_value bs = some (.ok (.Float32 0x7fc00000, .Float))) ∧
    (∃ bs, value_to_storage (.Float64 0x7ff8000000000000) .Double =
        some (.ok bs) ∧
      storage_to_value bs =
        some (.ok (.Float64 (0x7ff8000000000000 ^^^ 0x7fffffffffffffff),
          .Double)) ∧
      0x7ff8000000000000 ^^^ 0x7fffffffffffffff ≠ 0x7ff8000000000000) :=
  ⟨C10_nan_roundtrip_amended.1 0x7fc00000 (by norm_num) (by decide),
   C10_nan_roundtrip_amended.2 0x7ff8000000000000 (by norm_num) (by decide)⟩

/-- Counterexample to C10 as stated: the `f64` quiet NaN
`0x7ff8000000000000` encodes to `[5, 0xff, 0xf8, 0, 0, 0, 0, 0, 0]` and
decodes to the non-NaN pattern `0x0007ffffffffffff`, not to the input. -/
theorem C10_counterexample :
    value_to_storage (.Float64 0x7ff8000000000000) .Double =
      some (.ok [5, 0xff, 0xf8, 0, 0, 0, 0, 0, 0]) ∧
    storage_to_value [5, 0xff, 0xf8, 0, 0, 0, 0, 0, 0] =
      some (.ok (.Float64 0x0007ffffffffffff, .Double)) ∧
    (0x0007ffffffffffff : Nat) ≠ 0x7ff8000000000000 := by
  refine ⟨by decide, by decide, by decide⟩

/-! ## Lemmas: `significant_bits` agrees with `Nat.size` -/

theorem size_div2_succ (n : Nat) (h : n ≠ 0) :
    Nat.size n = Nat.size (n / 2) + 1 := by
  apply le_antisymm
  · rw [Nat.size_le, pow_succ]
    have h1 := Nat.lt_size_self (n / 2)
    omega
  · rw [Nat.succ_le, Nat.lt_size]
    by_cases h2 : n / 2 = 0
    · rw [h2, Nat.size_zero, pow_zero]
      omega
    · have h3 : Nat.size (n / 2) - 1 < Nat.size (n / 2) := by
        have : Nat.size (n / 2) ≠ 0 := by
          rw [Ne, Nat.size_eq_zero]
          exact h2
        omega
      have h4 : 2 ^ (Nat.size (n / 2) - 1) ≤ n / 2 := Nat.lt_size.mp h3
      have h5 : 2 ^ Nat.size (n / 2) = 2 ^ (Nat.size (n / 2) - 1) * 2 := by
        rw [← pow_succ]
        congr 1
        omega
      omega

theorem significant_bits_go_eq :
    ∀ fuel n : Nat, n ≤ fuel → significant_bits_go fuel n = Nat.size n := by
  intro fuel
  induction fuel with
  | zero =>
    intro n h
    have : n = 0 := by omega
    subst this
    simp [significant_bits_go, Nat.size_zero]
  | succ f ih =>
    intro n h
    by_cases h0 : n = 0
    · subst h0
      simp [significant_bits_go, Nat.size_zero]
    · have hlt : n / 2 < n := Nat.div_lt_self (by omega) (by omega)
      rw [show significant_bits_go (f + 1) n =
          significant_bits_go f (n / 2) + 1 from by
            rw [significant_bits_go, if_neg h0],
        ih (n / 2) (by omega), ← size_div2_succ n h0]

theorem significant_bits_eq_size (n : Nat) :
    significant_bits n = Nat.size n :=
  significant_bits_go_eq n n le_rfl

/-! ## Lemmas: complemented (negative-carrier) decode steps -/

theorem neg_first_term_sign : ∀ v, v < 64 →
    ((128 + v) ^^^ 255) &&& 128 = 0 := by decide

theorem neg_first_cont_sign : ∀ v, v < 64 →
    ((192 + v) ^^^ 255) &&& 128 = 0 := by decide

theorem sd_first_term_neg {v : Nat} (h : v < 64) (t : List Nat) :
    size_decode (complByte (128 + v) :: t) = (false, v, 1) := by
  have h1 : (((128 + v) ^^^ 255) &&& FIRST_SIGN ≠ 0) = False := by
    simp [show FIRST_SIGN = 128 from rfl, neg_first_term_sign v h]
  have hxor : ((128 + v) ^^^ 255) ^^^ 255 = 128 + v :=
    Nat.xor_cancel_right 255 (128 + v)
  have h2 : (128 + v) &&& FIRST_CONTINUATION = 0 := and64_first_term v h
  have h3 : (128 + v) &&& FIRST_MASK = v := and63_first_term v h
  simp only [complByte, size_decode, h1, decide_False, cond_false, hxor, h3,
    if_pos h2]

theorem sd_first_cont_neg {v : Nat} (h : v < 64) (t : List Nat) :
    size_decode (complByte (192 + v) :: t) =
      size_decode_from false (v <<< 7) 1 t := by
  have h1 : (((192 + v) ^^^ 255) &&& FIRST_SIGN ≠ 0) = False := by
    simp [show FIRST_SIGN = 128 from rfl, neg_first_cont_sign v h]
  have hxor : ((192 + v) ^^^ 255) ^^^ 255 = 192 + v :=
    Nat.xor_cancel_right 255 (192 + v)
  have h2 : ¬ (192 + v) &&& FIRST_CONTINUATION = 0 := and64_first_cont v h
  have h3 : (192 + v) &&& FIRST_MASK = v := and63_first_cont v h
  simp only [complByte, size_decode, h1, decide_False, cond_false, hxor, h3,
    if_neg h2, Nat.zero_add]

theorem sd_from_term_neg {v : Nat} (h : v < 128) (acc i : Nat) (t : List Nat) :
    size_decode_from false acc i (complByte v :: t) = (false, acc + v, i + 1) := by
  have e := sd_from_term h false acc i t
  simpa only [cond_false, complByte] using e

theorem sd_from_cont_neg {v : Nat} (h : v < 128) (acc i : Nat) (t : List Nat) :
    size_decode_from false acc i (complByte (128 + v) :: t) =
      size_decode_from false ((acc + v) <<< 7) (i + 1) t := by
  have e := sd_from_cont h false acc i t
  simpa only [cond_false, complByte] using e

/-- Complemented continuation chunk lists decode with sign `false` into the
accumulator `r <<< 7`. -/
theorem size_decode_loop_cont_neg :
    ∀ r : Nat, 0 < r → ∀ tail : List Nat,
    size_decode ((size_encode_loop r false).reverse.map complByte ++ tail) =
      size_decode_from false (r <<< 7) (size_encode_loop r false).length tail := by
  intro r
  induction r using Nat.strong_induction_on with
  | _ r ih =>
    intro h0 tail
    by_cases hs : r < 64
    · rw [size_encode_loop_small_f (by omega) hs]
      simpa using sd_first_cont_neg hs tail
    by_cases hm : r < 128
    · rw [size_encode_loop_mid_f (by omega) hm]
      have e1 := sd_first_cont_neg (v := 0) (by omega)
        (complByte (128 + r) :: tail)
      have e2 := sd_from_cont_neg (v := r) hm (0 <<< 7) 1 tail
      simp only [Nat.add_zero] at e1
      simp only [Nat.zero_shiftLeft, Nat.zero_add] at e1 e2
      simp only [List.reverse_cons, List.reverse_nil, List.nil_append,
        List.map_cons, List.map_nil, List.cons_append, List.length_cons,
        List.length_nil]
      rw [e1, e2]
    · have hr : 128 ≤ r := by omega
      rw [size_encode_loop_big_f hr]
      have hd : 0 < r / 128 := Nat.div_pos hr (by omega)
      have hmod : r % 128 < 128 := Nat.mod_lt _ (by omega)
      simp only [List.reverse_cons, List.length_cons, List.map_append,
        List.map_cons, List.map_nil]
      rw [List.append_assoc]
      rw [ih (r / 128) (Nat.div_lt_self (by omega) (by omega)) hd
        (([complByte (128 + r % 128)] : List Nat) ++ tail)]
      have e2 := sd_from_cont_neg (v := r % 128) hmod ((r / 128) <<< 7)
        (size_encode_loop (r / 128) false).length tail
      simp only [List.singleton_append]
      rw [e2]
      congr 2
      simp only [Nat.shiftLeft_eq]
      omega

/-- A complemented encoded size decodes to `(false, r, len)`, ignoring
anything after it. -/
theorem size_decode_of_encode_neg :
    ∀ r : Nat, 0 < r → ∀ tail : List Nat,
    size_decode ((size_encode_loop r true).reverse.map complByte ++ tail) =
      (false, r, (size_encode_loop r true).length) := by
  intro r h0 tail
  by_cases hs : r < 64
  · rw [size_encode_loop_small_t (by omega) hs]
    simpa using sd_first_term_neg hs tail
  by_cases hm : r < 128
  · rw [size_encode_loop_mid_t (by omega) hm]
    have e1 := sd_first_cont_neg (v := 0) (by omega) (complByte r :: tail)
    have e2 := sd_from_term_neg (v := r) hm (0 <<< 7) 1 tail
    simp only [Nat.add_zero] at e1
    simp only [Nat.zero_shiftLeft, Nat.zero_add] at e1 e2
    simp only [List.reverse_cons, List.reverse_nil, List.nil_append,
      List.map_cons, List.map_nil, List.cons_append, List.length_cons,
      List.length_nil]
    rw [e1, e2]
  · have hr : 128 ≤ r := by omega
    rw [size_encode_loop_big_t hr]
    have hd : 0 < r / 128 := Nat.div_pos hr (by omega)
    have hmod : r % 128 < 128 := Nat.mod_lt _ (by omega)
    simp only [List.reverse_cons, List.length_cons, List.map_append,
      List.map_cons, List.map_nil]
    rw [List.append_assoc]
    rw [size_decode_loop_cont_neg (r / 128) hd
      (([complByte (r % 128)] : List Nat) ++ tail)]
    have e2 := sd_from_term_neg (v := r % 128) hmod ((r / 128) <<< 7)
      (size_encode_loop (r / 128) false).length tail
    simp only [List.singleton_append]
    rw [e2]
    congr 2
    simp only [Nat.shiftLeft_eq]
    omega

/-! ## Lemmas: BigInt codec structure -/

theorem num_bytes_of_pos (n : Nat) : 1 ≤ num_bytes_of n := by
  unfold num_bytes_of
  by_cases h : (significant_bits n + 1) % 8 ≠ 0
  · rw [if_pos h]
    omega
  · rw [if_neg h]
    omega

theorem num_bytes_of_le (n : Nat) (k : Nat) (h : significant_bits n ≤ 8 * k - 1)
    (hk : 1 ≤ k) : num_bytes_of n ≤ k := by
  unfold num_bytes_of
  by_cases h8 : (significant_bits n + 1) % 8 ≠ 0
  · rw [if_pos h8]
    omega
  · rw [if_neg h8]
    omega

theorem lt_two_pow_num_bytes (n : Nat) : n < 2 ^ (8 * num_bytes_of n) := by
  have h1 : n < 2 ^ significant_bits n := by
    rw [significant_bits_eq_size]
    exact Nat.lt_size_self n
  have h2 : significant_bits n ≤ 8 * num_bytes_of n := by
    unfold num_bytes_of
    by_cases h8 : (significant_bits n + 1) % 8 ≠ 0
    · rw [if_pos h8]
      omega
    · rw [if_neg h8]
      omega
  exact lt_of_lt_of_le h1 (Nat.pow_le_pow_right (by omega) h2)

/-- The little-endian payload loop reversed is the big-endian
serialisation. -/
theorem le_bytes_reverse (k : Nat) :
    ∀ n, (le_bytes k n).reverse = be_bytes k n := by
  induction k with
  | zero => intro n; rfl
  | succ k ih =>
    intro n
    have step : ∀ m, be_bytes (m + 1) n = be_bytes m (n >>> 8) ++ [n % 256] := by
      intro m
      induction m with
      | zero => simp [be_bytes]
      | succ m ihm =>
        show (n >>> (8 * (m + 1))) % 256 :: be_bytes (m + 1) n = _
        rw [ihm]
        show _ = ((n >>> 8) >>> (8 * m)) % 256 :: (be_bytes m (n >>> 8) ++ _)
        rw [← Nat.shiftRight_add]
        norm_num
        congr 2
        omega
    show (n % 256 :: le_bytes k (n >>> 8)).reverse = _
    rw [List.reverse_cons, ih (n >>> 8), ← step k]

/-- Shape of the BigInt encoder output. -/
theorem bigint_to_storage_shape (x : Int) (a : Aspect) :
    bigint_to_storage x a = .ok (aspect_byte a ::
      (if x < 0
       then ((size_encode (num_bytes_of x.natAbs)).reverse ++
         be_bytes (num_bytes_of x.natAbs) x.natAbs).map complByte
       else (size_encode (num_bytes_of x.natAbs)).reverse ++
         be_bytes (num_bytes_of x.natAbs) x.natAbs)) := by
  unfold bigint_to_storage
  rw [← le_bytes_reverse]
  by_cases h : x < 0
  · simp [h, num_bytes_of, List.reverse_append, List.map_reverse]
  · simp [h, num_bytes_of, List.reverse_append]

/-- The payload accumulation loop computes the big-endian value (positive
reading). -/
theorem bigint_acc_be :
    ∀ (l : List Nat) (size i : Nat) (int : Int), l ≠ [] →
      i + l.length = size →
      bigint_acc true size i int l =
        int * 256 ^ (l.length - 1) + (beVal l : Int) := by
  intro l
  induction l with
  | nil => intro size i int h; exact absurd rfl h
  | cons b t ih =>
    intro size i int _ hlen
    cases t with
    | nil =>
      have hi : ¬ i < size - 1 := by
        simp only [List.length_cons, List.length_nil] at hlen
        omega
      simp only [bigint_acc, cond_true, if_neg hi]
      have : beVal [b] = b := by simp [beVal]
      rw [this]
      simp
    | cons c t2 =>
      have hi : i < size - 1 := by
        simp only [List.length_cons] at hlen
        omega
      have step : bigint_acc true size i int (b :: c :: t2) =
          bigint_acc true size (i + 1)
            (if i < size - 1 then (int + (b : Int)) * 256 else int + (b : Int))
            (c :: t2) := rfl
      rw [step, if_pos hi]
      rw [ih size (i + 1) ((int + (b : Int)) * 256) (by simp)
        (by simp only [List.length_cons] at hlen ⊢; omega)]
      rw [beVal_cons b (c :: t2), beVal_cons c t2]
      simp only [List.length_cons, Nat.add_sub_cancel]
      push_cast
      ring

/-- Accumulating complemented bytes with the negative reading gives the
positive reading of the original bytes. -/
theorem bigint_acc_neg (l : List Nat) :
    ∀ (size i : Nat) (int : Int),
      bigint_acc false size i int (l.map complByte) =
        bigint_acc true size i int l := by
  induction l with
  | nil => intro size i int; rfl
  | cons b t ih =>
    intro size i int
    simp only [List.map_cons, bigint_acc, cond_false, cond_true]
    rw [show complByte (complByte b) = b from Nat.xor_cancel_right 255 b]
    exact ih size (i + 1) _

/-- Decoding the positive small-form BigInt body (single-byte size code)
recovers the magnitude, with arbitrary trailing bytes ignored. -/
theorem storage_to_bigint_small_pos (nb m : Nat) (h1 : 1 ≤ nb) (h63 : nb ≤ 63)
    (hlt : m < 2 ^ (8 * nb)) (tail : List Nat) :
    storage_to_bigint ((size_encode nb).reverse ++ (be_bytes nb m ++ tail)) =
      some (.ok (.BigInt (m : Int))) := by
  have hsc : size_encode nb = [128 + nb] := by
    unfold size_encode
    rw [if_neg (by omega), size_encode_loop_small_t (by omega) (by omega)]
  rw [hsc]
  simp only [List.reverse_cons, List.reverse_nil, List.nil_append,
    List.cons_append]
  have hlen : nb + 1 ≤ ((128 + nb) :: (be_bytes nb m ++ tail)).length := by
    simp [be_bytes_length]
  unfold storage_to_bigint
  rw [sd_first_term (by omega) (be_bytes nb m ++ tail)]
  dsimp only
  rw [if_neg (show ¬ nb = 0 by omega),
    if_pos (show 1 ≤ nb + 1 ∧
      nb + 1 ≤ ((128 + nb) :: (be_bytes nb m ++ tail)).length from
      ⟨by omega, hlen⟩)]
  have hdrop : List.drop 1 ((128 + nb) :: (be_bytes nb m ++ tail)) =
      be_bytes nb m ++ tail := rfl
  rw [hdrop]
  have htake : List.take (nb + 1 - 1) (be_bytes nb m ++ tail) =
      be_bytes nb m := by
    rw [Nat.add_sub_cancel]
    exact List.take_left' (be_bytes_length nb m)
  rw [htake]
  have hne : be_bytes nb m ≠ [] := by
    intro h
    have := be_bytes_length nb m
    rw [h] at this
    simp at this
    omega
  rw [bigint_acc_be (be_bytes nb m) nb 0 0 hne (by simp [be_bytes_length])]
  rw [beVal_be_bytes hlt]
  simp

/-- Decoding the complemented small-form BigInt body recovers the negated
magnitude, with arbitrary trailing bytes ignored. -/
theorem storage_to_bigint_small_neg (nb m : Nat) (h1 : 1 ≤ nb) (h63 : nb ≤ 63)
    (hlt : m < 2 ^ (8 * nb)) (tail : List Nat) :
    storage_to_bigint
        (((size_encode nb).reverse ++ be_bytes nb m).map complByte ++ tail) =
      some (.ok (.BigInt (-(m : Int)))) := by
  have hsc : size_encode nb = [128 + nb] := by
    unfold size_encode
    rw [if_neg (by omega), size_encode_loop_small_t (by omega) (by omega)]
  rw [hsc]
  simp only [List.reverse_cons, List.reverse_nil, List.nil_append,
    List.map_cons, List.map_append, List.cons_append]
  have hlen : nb + 1 ≤
      (complByte (128 + nb) ::
        (List.map complByte (be_bytes nb m) ++ tail)).length := by
    simp [be_bytes_length]
  unfold storage_to_bigint
  rw [sd_first_term_neg (by omega)
    (List.map complByte (be_bytes nb m) ++ tail)]
  dsimp only
  rw [if_neg (show ¬ nb = 0 by omega),
    if_pos (show 1 ≤ nb + 1 ∧
      nb + 1 ≤ (complByte (128 + nb) ::
        (List.map complByte (be_bytes nb m) ++ tail)).length from
      ⟨by omega, hlen⟩)]
  have hdrop : List.drop 1 (complByte (128 + nb) ::
      (List.map complByte (be_bytes nb m) ++ tail)) =
      List.map complByte (be_bytes nb m) ++ tail := rfl
  rw [hdrop]
  have htake : List.take (nb + 1 - 1)
      (List.map complByte (be_bytes nb m) ++ tail) =
      List.map complByte (be_bytes nb m) := by
    rw [Nat.add_sub_cancel]
    exact List.take_left' (by simp [be_bytes_length])
  rw [htake]
  have hne : be_bytes nb m ≠ [] := by
    intro h
    have := be_bytes_length nb m
    rw [h] at this
    simp at this
    omega
  rw [bigint_acc_neg (be_bytes nb m) nb 0 0]
  rw [bigint_acc_be (be_bytes nb m) nb 0 0 hne (by simp [be_bytes_length])]
  rw [beVal_be_bytes hlt]
  simp

/-! ## Lemmas: decoders of fixed-width storage ignore trailing bytes -/

theorem flipHead_length (l : List Nat) : (flipHead l).length = l.length := by
  cases l <;> rfl

theorem flipHead_take_append (l g : List Nat) (n : Nat) (h : l.length = n)
    (hn : 0 < n) : (flipHead (l ++ g)).take n = flipHead l := by
  cases l with
  | nil => simp at h; omega
  | cons b rest =>
    cases n with
    | zero => omega
    | succ m =>
      simp only [List.cons_append, flipHead, List.take_succ_cons]
      rw [List.take_left' (by simp at h; omega)]

theorem storage_to_int32_append (l g : List Nat) (h : l.length = 4) :
    storage_to_int32 (l ++ g) = storage_to_int32 l := by
  unfold storage_to_int32
  rw [if_pos (show (4 : Nat) ≤ (l ++ g).length by simp [h]),
    if_pos (le_of_eq h.symm),
    flipHead_take_append l g 4 h (by omega),
    List.take_of_length_le (by rw [flipHead_length, h])]

theorem storage_to_int64_append (l g : List Nat) (h : l.length = 8) :
    storage_to_int64 (l ++ g) = storage_to_int64 l := by
  unfold storage_to_int64
  rw [if_pos (show (8 : Nat) ≤ (l ++ g).length by simp [h]),
    if_pos (le_of_eq h.symm),
    flipHead_take_append l g 8 h (by omega),
    List.take_of_length_le (by rw [flipHead_length, h])]

theorem storage_to_float32_append (l g : List Nat) (h : l.length = 4) :
    storage_to_float32 (l ++ g) = storage_to_float32 l := by
  unfold storage_to_float32
  rw [if_pos (show (4 : Nat) ≤ (l ++ g).length by simp [h]),
    if_pos (le_of_eq h.symm), List.take_left' h,
    List.take_of_length_le (le_of_eq h)]

theorem storage_to_float64_append (l g : List Nat) (h : l.length = 8) :
    storage_to_float64 (l ++ g) = storage_to_float64 l := by
  unfold storage_to_float64
  rw [if_pos (show (8 : Nat) ≤ (l ++ g).length by simp [h]),
    if_pos (le_of_eq h.symm), List.take_left' h,
    List.take_of_length_le (le_of_eq h)]

theorem storage_to_date_time_append (l g : List Nat) (h : l.length = 8) :
    storage_to_date_time (l ++ g) = storage_to_date_time l := by
  unfold storage_to_date_time
  rw [storage_to_int64_append l g h]

/-! ## Lemmas: `storage_size` dispatch -/

theorem storage_size_int32 (a : Aspect) (rest : List Nat)
    (h : aspect_storage a = some .Int32) :
    storage_size (aspect_byte a :: rest) = some 5 := by
  simp [storage_size, byte_aspect_aspect_byte, h]

theorem storage_size_int64 (a : Aspect) (rest : List Nat)
    (h : aspect_storage a = some .Int64) :
    storage_size (aspect_byte a :: rest) = some 9 := by
  simp [storage_size, byte_aspect_aspect_byte, h]

theorem storage_size_float32 (a : Aspect) (rest : List Nat)
    (h : aspect_storage a = some .Float32) :
    storage_size (aspect_byte a :: rest) = some 5 := by
  simp [storage_size, byte_aspect_aspect_byte, h]

theorem storage_size_float64 (a : Aspect) (rest : List Nat)
    (h : aspect_storage a = some .Float64) :
    storage_size (aspect_byte a :: rest) = some 9 := by
  simp [storage_size, byte_aspect_aspect_byte, h]

theorem storage_size_datetime (a : Aspect) (rest : List Nat)
    (h : aspect_storage a = some .DateTime) :
    storage_size (aspect_byte a :: rest) = some 9 := by
  simp [storage_size, byte_aspect_aspect_byte, h]

theorem storage_size_string_arm (a : Aspect) (rest : List Nat)
    (h : aspect_storage a = some .String) :
    storage_size (aspect_byte a :: rest) = some (1 + string_length rest) := by
  simp [storage_size, byte_aspect_aspect_byte, h]

theorem storage_size_bigint (a : Aspect) (rest : List Nat)
    (sg : Bool) (sz idx : Nat)
    (h : aspect_storage a = some .BigInt)
    (hd : size_decode rest = (sg, sz, idx)) :
    storage_size (aspect_byte a :: rest) = some (sz + idx + 1) := by
  simp [storage_size, byte_aspect_aspect_byte, h, hd]

theorem storage_size_bignum (a : Aspect) (rest : List Nat)
    (sg : Bool) (sz idx : Nat)
    (h : aspect_storage a = some .BigNum)
    (hd : size_decode rest = (sg, sz, idx)) :
    storage_size (aspect_byte a :: rest) =
      some (bignum_tail_count ((aspect_byte a :: rest).drop (sz + idx + 1)) +
        (sz + idx + 1)) := by
  simp [storage_size, byte_aspect_aspect_byte, h, hd]

/-! ## Lemmas: inverting the encoders (what a produced record looks like) -/

theorem int32_to_storage_ok {i : Int} {a : Aspect} {r : List Nat}
    (h : int32_to_storage i a = some (.ok r)) :
    aspect_storage a = some .Int32 ∧
      r = aspect_byte a :: flipHead (be_bytes 4 (toUnsigned 32 i)) := by
  unfold int32_to_storage at h
  cases ha : aspect_storage a with
  | none => rw [ha] at h; cases h
  | some st =>
    rw [ha] at h
    dsimp only at h
    by_cases hst : st = StorageType.Int32
    · subst hst
      rw [if_pos rfl] at h
      simp only [Option.some.injEq, Except.ok.injEq] at h
      exact ⟨rfl, h.symm⟩
    · rw [if_neg hst] at h
      simp at h

theorem int64_to_storage_ok {i : Int} {a : Aspect} {r : List Nat}
    (h : int64_to_storage i a = some (.ok r)) :
    (aspect_storage a = some .Int64 ∨ aspect_storage a = some .DateTime) ∧
      r = aspect_byte a :: flipHead (be_bytes 8 (toUnsigned 64 i)) := by
  unfold int64_to_storage at h
  cases ha : aspect_storage a with
  | none => rw [ha] at h; cases h
  | some st =>
    rw [ha] at h
    dsimp only at h
    by_cases hst : st = StorageType.Int64 ∨ st = StorageType.DateTime
    · rw [if_pos hst] at h
      simp only [Option.some.injEq, Except.ok.injEq] at h
      refine ⟨?_, h.symm⟩
      rcases hst with hst | hst <;> [left; right] <;> rw [hst]
    · rw [if_neg hst] at h
      simp at h

theorem float32_to_storage_ok {f : Nat} {a : Aspect} {r : List Nat}
    (h : float32_to_storage f a = some (.ok r)) :
    aspect_storage a = some .Float32 ∧
      r = aspect_byte a ::
        be_bytes 4 (if f &&& F32_SIGN_MASK > 0 then f ^^^ F32_COMPLEMENT
          else f ^^^ F32_SIGN_MASK) := by
  unfold float32_to_storage at h
  cases ha : aspect_storage a with
  | none => rw [ha] at h; cases h
  | some st =>
    rw [ha] at h
    dsimp only at h
    by_cases hst : st = StorageType.Float32
    · subst hst
      rw [if_pos rfl] at h
      simp only [Option.some.injEq, Except.ok.injEq] at h
      exact ⟨rfl, h.symm⟩
    · rw [if_neg hst] at h
      simp at h

theorem float64_to_storage_ok {f : Nat} {a : Aspect} {r : List Nat}
    (h : float64_to_storage f a = some (.ok r)) :
    aspect_storage a = some .Float64 ∧
      r = aspect_byte a ::
        be_bytes 8 (bif f64_signum_is_neg_one f then f ^^^ F64_COMPLEMENT
          else f ^^^ F64_SIGN_MASK) := by
  unfold float64_to_storage at h
  cases ha : aspect_storage a with
  | none => rw [ha] at h; cases h
  | some st =>
    rw [ha] at h
    dsimp only at h
    by_cases hst : st = StorageType.Float64
    · subst hst
      rw [if_pos rfl] at h
      simp only [Option.some.injEq, Except.ok.injEq] at h
      exact ⟨rfl, h.symm⟩
    · rw [if_neg hst] at h
      simp at h

theorem string_to_storage_ok {s : List Nat} {a : Aspect} {r : List Nat}
    (h : string_to_storage s a = some (.ok r)) :
    aspect_storage a = some .String ∧ r = aspect_byte a :: s := by
  unfold string_to_storage at h
  cases ha : aspect_storage a with
  | none => rw [ha] at h; cases h
  | some st =>
    rw [ha] at h
    dsimp only at h
    by_cases hst : st = StorageType.String
    · subst hst
      rw [if_pos rfl] at h
      simp only [Option.some.injEq, Except.ok.injEq] at h
      exact ⟨rfl, h.symm⟩
    · rw [if_neg hst] at h
      simp at h

theorem date_time_to_storage_ok {s : List Nat} {a : Aspect} {r : List Nat}
    (h : date_time_to_storage s a = some (.ok r)) :
    ∃ ts, parse_rfc3339 s = some ts ∧ int64_to_storage ts a = some (.ok r) := by
  unfold date_time_to_storage at h
  cases hp : parse_rfc3339 s with
  | none => rw [hp] at h; simp at h
  | some ts => rw [hp] at h; exact ⟨ts, rfl, h⟩

theorem boolean_to_storage_ok {b : Bool} {a : Aspect} {r : List Nat}
    (h : value_to_storage (.Boolean b) a = some (.ok r)) :
    a = .Boolean ∧
      r = [aspect_byte (if b then Aspect.True else Aspect.False)] := by
  unfold value_to_storage at h
  dsimp only at h
  by_cases ha : a = Aspect.Boolean
  · rw [if_pos ha] at h
    simp only [Option.some.injEq, Except.ok.injEq] at h
    exact ⟨ha, h.symm⟩
  · rw [if_neg ha] at h
    simp at h

/-! ## Lemmas: which aspects carry which storage type -/

theorem aspect_of_bignum_st (a : Aspect)
    (h : aspect_storage a = some .BigNum) : a = .Decimal := by
  revert h; cases a <;> decide

theorem aspect_of_datetime_st (a : Aspect)
    (h : aspect_storage a = some .DateTime) : a = .DateTime := by
  revert h; cases a <;> decide

theorem aspect_of_string_st (a : Aspect)
    (h : aspect_storage a = some .String) :
    a ≠ .DateTime ∧ a ≠ .Decimal := by
  revert h; cases a <;> decide

/-! ## Lemmas: decode of the boolean records ignores trailing bytes -/

theorem s2v_true (g : List Nat) :
    storage_to_value (aspect_byte Aspect.True :: g) =
      some (.ok (.Boolean true, .Boolean)) := by
  simp [storage_to_value, byte_aspect_aspect_byte]

theorem s2v_false (g : List Nat) :
    storage_to_value (aspect_byte Aspect.False :: g) =
      some (.ok (.Boolean false, .Boolean)) := by
  simp [storage_to_value, byte_aspect_aspect_byte]

/-! ## Lemmas: the centimal fraction codec -/

theorem centary_single_rt : ∀ d < 58, 48 ≤ d →
    centary_decimal_encode [d] = some (centary1 d) ∧ 0 < centary1 d ∧
    centary1 d ≤ 110 ∧ centary_decimal_decode (centary1 d) = some [d] := by
  decide

theorem centary_pair_rt_aux : ∀ d1 < 58, ∀ d2 < 58,
    centaryPairOK d1 d2 = true := by
  decide

theorem centary_pair_rt : ∀ d1 < 58, ∀ d2 < 58, 48 ≤ d1 → 48 ≤ d2 →
    centary_decimal_encode [d1, d2] = some (centary2 d1 d2) ∧
    1 < centary2 d1 d2 ∧ centary2 d1 d2 ≤ 110 ∧
    centary_decimal_decode (centary2 d1 d2) = some [d1, d2] := by
  intro d1 h1 d2 h2
  have h := centary_pair_rt_aux d1 h1 d2 h2
  unfold centaryPairOK at h
  exact of_decide_eq_true h

theorem chunk_shift_facts : ∀ e < 256,
    (e <<< 1) >>> 1 = e ∧ (e <<< 1) &&& 1 = 0 ∧
    ((e <<< 1) ||| 1) >>> 1 = e ∧ ((e <<< 1) ||| 1) &&& 1 = 1 ∧
    e ≤ e <<< 1 := by
  decide

theorem allDigits_cons {d : Nat} {t : List Nat}
    (h : allDigits (d :: t) = true) :
    (48 ≤ d ∧ d ≤ 57) ∧ allDigits t = true := by
  simp [allDigits] at h ⊢
  exact ⟨⟨h.1.1, h.1.2⟩, fun b hb => h.2 b hb⟩

/-- Full specification of the fraction chunk encoder on a non-empty digit
string: it succeeds, its output starts with a byte that is at least `2`,
decoding the output recovers the digits while ignoring any trailing bytes,
and the `storage_size` scanning loop counts exactly the output's bytes. -/
theorem encode_fraction_go_spec :
    ∀ (n : Nat) (f : List Nat), f.length ≤ n → allDigits f = true → f ≠ [] →
    ∃ out, encode_fraction_go f = some out ∧ out ≠ [] ∧ 2 ≤ out.headD 0 ∧
      (∀ g, decode_fraction_go (out ++ g) = some f) ∧
      (∀ g, bignum_tail_count (out ++ g) = out.length) := by
  intro n
  induction n with
  | zero =>
    intro f hlen _ hne
    cases f with
    | nil => exact absurd rfl hne
    | cons a t => simp at hlen
  | succ n ih =>
    intro f hlen hdig hne
    cases f with
    | nil => exact absurd rfl hne
    | cons d1 t1 =>
      obtain ⟨⟨hd1l, hd1h⟩, hdig1⟩ := allDigits_cons hdig
      cases t1 with
      | nil =>
        obtain ⟨he, hpos, hle, hdec⟩ :=
          centary_single_rt d1 (by omega) hd1l
        have sf := chunk_shift_facts (centary1 d1) (by omega)
        refine ⟨[centary1 d1 <<< 1], by simp [encode_fraction_go, he],
          by simp, ?_, ?_, ?_⟩
        · simp only [List.headD_cons]
          rw [Nat.shiftLeft_eq]
          omega
        · intro g
          simp [decode_fraction_go, sf.1, hdec]
        · intro g
          simp [bignum_tail_count, sf.2.1]
      | cons d2 t2 =>
        obtain ⟨⟨hd2l, hd2h⟩, hdig2⟩ := allDigits_cons hdig1
        cases t2 with
        | nil =>
          obtain ⟨he, hpos, hle, hdec⟩ :=
            centary_pair_rt d1 (by omega) d2 (by omega) hd1l hd2l
          have sf := chunk_shift_facts (centary2 d1 d2) (by omega)
          refine ⟨[centary2 d1 d2 <<< 1], by simp [encode_fraction_go, he],
            by simp, ?_, ?_, ?_⟩
          · simp only [List.headD_cons]
            rw [Nat.shiftLeft_eq]
            omega
          · intro g
            simp [decode_fraction_go, sf.1, hdec, sf.2.1]
          · intro g
            simp [bignum_tail_count, sf.2.1]
        | cons d3 t3 =>
          obtain ⟨he, hpos, hle, hdecp⟩ :=
            centary_pair_rt d1 (by omega) d2 (by omega) hd1l hd2l
          have sf := chunk_shift_facts (centary2 d1 d2) (by omega)
          obtain ⟨out, ho, hone, hohd, hodec, hocnt⟩ :=
            ih (d3 :: t3) (by simp at hlen ⊢; omega) hdig2 (by simp)
          refine ⟨(centary2 d1 d2 <<< 1 ||| 1) :: out,
            by simp [encode_fraction_go, he, ho], by simp, ?_, ?_, ?_⟩
          · simp only [List.headD_cons]
            have h2 : (centary2 d1 d2 <<< 1 ||| 1) >>> 1 = centary2 d1 d2 :=
              sf.2.2.1
            rw [Nat.shiftRight_eq_div_pow] at h2
            omega
          · intro g
            have hb1 : (centary2 d1 d2 <<< 1 ||| 1) &&& 1 = 1 := sf.2.2.2.1
            simp [decode_fraction_go, sf.2.2.1, hdecp, hb1, hodec g]
          · intro g
            have hb1 : (centary2 d1 d2 <<< 1 ||| 1) &&& 1 = 1 := sf.2.2.2.1
            simp [bignum_tail_count, hb1, hocnt g, Nat.add_comm]

/-! ## Lemmas: decoding BigNum records -/

theorem size_encode_small {nb : Nat} (h1 : 1 ≤ nb) (h63 : nb ≤ 63) :
    size_encode nb = [128 + nb] := by
  unfold size_encode
  rw [if_neg (by omega), size_encode_loop_small_t (by omega) (by omega)]

theorem map_compl_compl (l : List Nat) :
    (l.map complByte).map complByte = l := by
  induction l with
  | nil => rfl
  | cons b t ih => simp [complByte, Nat.xor_cancel_right, ih]

theorem frac_head_ne {fb : List Nat} (hhd : 2 ≤ fb.headD 0) (g : List Nat) :
    fb ≠ [] ∧ fb ++ g ≠ [0] := by
  cases fb with
  | nil => simp at hhd
  | cons b t =>
    refine ⟨by simp, ?_⟩
    intro h
    simp only [List.cons_append, List.cons.injEq] at h
    simp [h.1] at hhd

/-- Decoding a positive BigNum record body (single-byte size code, non-empty
fraction) recovers the decimal string, ignoring trailing bytes. -/
theorem storage_to_bignum_pos (nb m : Nat) (fb frac g : List Nat)
    (h1 : 1 ≤ nb) (h63 : nb ≤ 63) (hlt : m < 2 ^ (8 * nb))
    (hhd : 2 ≤ fb.headD 0)
    (hdec : decode_fraction_go (fb ++ g) = some frac)
    (hfrac : frac ≠ []) :
    storage_to_bignum
        ((size_encode nb).reverse ++ (be_bytes nb m ++ (fb ++ g))) =
      some (.ok (.String (intDecBytes (m : Int) ++ [46] ++ frac))) := by
  obtain ⟨hfbne, hne0⟩ := frac_head_ne hhd g
  have hdf : decode_fraction (fb ++ g) = some frac := by
    unfold decode_fraction
    rw [if_neg hne0]
    exact hdec
  have hbi := storage_to_bigint_small_pos nb m h1 h63 hlt (fb ++ g)
  rw [size_encode_small h1 h63] at hbi ⊢
  simp only [List.reverse_cons, List.reverse_nil, List.nil_append,
    List.cons_append] at hbi ⊢
  unfold storage_to_bignum
  rw [hbi]
  dsimp only
  rw [sd_first_term (by omega) (be_bytes nb m ++ (fb ++ g))]
  dsimp only
  rw [if_pos (by
    simp only [List.length_cons, List.length_append, be_bytes_length]
    omega)]
  have hdrop : List.drop (nb + 1)
      ((128 + nb) :: (be_bytes nb m ++ (fb ++ g))) = fb ++ g := by
    rw [List.drop_succ_cons, List.drop_left' (be_bytes_length nb m)]
  rw [hdrop, hdf]
  simp [hfrac]

/-- Decoding a negative BigNum record body with non-zero integer part
recovers the decimal string, ignoring trailing bytes. -/
theorem storage_to_bignum_neg (nb m : Nat) (fb frac g : List Nat)
    (h1 : 1 ≤ nb) (h63 : nb ≤ 63) (hm : 0 < m) (hlt : m < 2 ^ (8 * nb))
    (hhd : 2 ≤ fb.headD 0)
    (hdec : decode_fraction_go (fb ++ g.map complByte) = some frac)
    (hfrac : frac ≠ []) :
    storage_to_bignum
        (((size_encode nb).reverse ++ be_bytes nb m).map complByte ++
          (fb.map complByte ++ g)) =
      some (.ok (.String (intDecBytes (-(m : Int)) ++ [46] ++ frac))) := by
  obtain ⟨hfbne, hne0⟩ := frac_head_ne hhd (g.map complByte)
  have hdf : decode_fraction
      ((List.map complByte fb ++ g).map complByte) = some frac := by
    rw [List.map_append, map_compl_compl]
    unfold decode_fraction
    rw [if_neg hne0]
    exact hdec
  have hbi := storage_to_bigint_small_neg nb m h1 h63 hlt
    (fb.map complByte ++ g)
  rw [size_encode_small h1 h63] at hbi ⊢
  simp only [List.reverse_cons, List.reverse_nil, List.nil_append,
    List.cons_append, List.map_cons, List.map_append] at hbi ⊢
  unfold storage_to_bignum
  rw [hbi]
  dsimp only
  rw [sd_first_term_neg (by omega)
    (List.map complByte (be_bytes nb m) ++ (List.map complByte fb ++ g))]
  dsimp only
  rw [if_pos (by
    simp only [List.length_cons, List.length_append, List.length_map,
      be_bytes_length]
    omega)]
  have hdrop : List.drop (nb + 1)
      (complByte (128 + nb) ::
        (List.map complByte (be_bytes nb m) ++ (List.map complByte fb ++ g)))
      = List.map complByte fb ++ g := by
    rw [List.drop_succ_cons, List.drop_left' (by simp [be_bytes_length])]
  rw [hdrop, hdf]
  have hmz : ¬(-(m : Int) = 0) := by omega
  simp [hfrac, hmz]

/-- Decoding a negative-zero BigNum record body (the `{aspect, 0x7F}`
prefix) recovers the `-0.`‑prefixed decimal string, ignoring trailing
bytes. -/
theorem storage_to_bignum_negzero (fb frac g : List Nat)
    (hhd : 2 ≤ fb.headD 0)
    (hdec : decode_fraction_go (fb ++ g.map complByte) = some frac)
    (hfrac : frac ≠ []) :
    storage_to_bignum (NEGATIVE_ZERO :: (fb.map complByte ++ g)) =
      some (.ok (.String ([45] ++ intDecBytes 0 ++ [46] ++ frac))) := by
  obtain ⟨hfbne, hne0⟩ := frac_head_ne hhd (g.map complByte)
  have hdf : decode_fraction
      ((List.map complByte fb ++ g).map complByte) = some frac := by
    rw [List.map_append, map_compl_compl]
    unfold decode_fraction
    rw [if_neg hne0]
    exact hdec
  have hsd : size_decode (NEGATIVE_ZERO :: (fb.map complByte ++ g)) =
      (false, 0, 1) := by
    show size_decode (complByte (128 + 0) :: (fb.map complByte ++ g)) = _
    exact sd_first_term_neg (by omega) _
  have hbi : storage_to_bigint (NEGATIVE_ZERO :: (fb.map complByte ++ g)) =
      some (.ok (.BigInt 0)) := by
    unfold storage_to_bigint
    rw [hsd]
    rfl
  unfold storage_to_bignum
  rw [hbi]
  dsimp only
  rw [hsd]
  dsimp only
  rw [if_pos (by simp)]
  have hdrop : List.drop (0 + 1) (NEGATIVE_ZERO :: (fb.map complByte ++ g)) =
      fb.map complByte ++ g := by
    rw [List.drop_succ_cons, List.drop_zero]
  rw [hdrop, hdf]
  simp [hfrac]

/-! ## Lemmas: parsing the decimal input string -/

theorem findIdx_dot (ds : List Nat) (hds : allDigits ds = true) :
    ∀ (i : Nat) (frac : List Nat),
      (ds ++ 46 :: frac).findIdx? (· = 46) i = some (ds.length + i) := by
  induction ds with
  | nil => intro i frac; simp
  | cons d t ih =>
    intro i frac
    obtain ⟨⟨hdl, hdh⟩, hdt⟩ := allDigits_cons hds
    simp only [List.cons_append, List.findIdx?_cons]
    rw [if_neg (by simp; omega), ih hdt (i + 1) frac]
    simp only [List.length_cons, Option.some.injEq]
    omega

theorem splitDot_digits (ds frac : List Nat) (hds : allDigits ds = true)
    (hfr : allDigits frac = true) :
    splitDot (ds ++ 46 :: frac) = (ds, some frac) := by
  unfold splitDot
  rw [findIdx_dot ds hds 0 frac]
  dsimp only
  have h1 : (ds ++ 46 :: frac).take (ds.length + 0) = ds := by
    rw [Nat.add_zero, List.take_left]
  have h2 : (ds ++ 46 :: frac).drop (ds.length + 0 + 1) = frac := by
    rw [Nat.add_zero, ← List.drop_drop, List.drop_left]
    rfl
  rw [h1, h2, List.takeWhile_eq_self_iff.mpr]
  intro x hx
  simp only [allDigits, List.all_eq_true] at hfr
  have := hfr x hx
  simp at this ⊢
  omega

theorem parseInteger_digits (ds : List Nat) (hds : allDigits ds = true)
    (hne : ds ≠ []) : parseInteger ds = some ((digitsVal ds : Nat) : Int) := by
  cases ds with
  | nil => exact absurd rfl hne
  | cons d t =>
    obtain ⟨⟨hdl, hdh⟩, hdt⟩ := allDigits_cons hds
    unfold parseInteger
    split
    · rename_i rest heq
      rw [List.cons.injEq] at heq
      omega
    · rename_i rest heq
      rw [List.cons.injEq] at heq
      omega
    · rw [if_pos ⟨by simp, hds⟩]

theorem head_ne_45 {ds : List Nat} (hds : allDigits ds = true)
    (hne : ds ≠ []) (frac : List Nat) :
    ¬((ds ++ 46 :: frac).head? = some 45) := by
  cases ds with
  | nil => exact absurd rfl hne
  | cons d t =>
    obtain ⟨⟨hdl, hdh⟩, _⟩ := allDigits_cons hds
    simp
    omega

theorem encode_fraction_go_to_full {frac out : List Nat} (hfrne : frac ≠ [])
    (ho : encode_fraction_go frac = some out) :
    encode_fraction (some frac) = some out := by
  unfold encode_fraction
  dsimp only
  rw [if_neg hfrne]
  exact ho

/-- What `bignum_to_storage` produces on a canonical non-negative decimal. -/
theorem bignum_to_storage_pos_eq (ds frac out : List Nat)
    (hds : allDigits ds = true) (hdsne : ds ≠ [])
    (hfr : allDigits frac = true)
    (ho : encode_fraction (some frac) = some out) :
    bignum_to_storage (ds ++ 46 :: frac) .Decimal =
      some (.ok ((aspect_byte .Decimal ::
        ((size_encode (num_bytes_of (digitsVal ds))).reverse ++
          be_bytes (num_bytes_of (digitsVal ds)) (digitsVal ds))) ++ out)) := by
  have hsh := bigint_to_storage_shape ((digitsVal ds : Nat) : Int) .Decimal
  rw [if_neg (by omega)] at hsh
  simp only [Int.natAbs_ofNat] at hsh
  have h45 := head_ne_45 hds hdsne frac
  unfold bignum_to_storage
  rw [show aspect_storage Aspect.Decimal = some StorageType.BigNum from rfl]
  dsimp only
  rw [if_pos rfl, splitDot_digits ds frac hds hfr]
  dsimp only
  rw [parseInteger_digits ds hds hdsne]
  dsimp only
  rw [hsh]
  dsimp only
  rw [if_neg (by intro hc; exact h45 hc.2)]
  rw [ho]
  dsimp only
  rw [if_neg h45]

/-! ## Lemmas: self-delimitation of the individual record families -/

theorem bool_self_delim (b : Bool) (a : Aspect) (r g : List Nat)
    (h : value_to_storage (.Boolean b) a = some (.ok r)) :
    storage_to_value (r ++ g) = storage_to_value r := by
  obtain ⟨ha, hr⟩ := boolean_to_storage_ok h
  subst hr
  cases b <;> simp [s2v_true, s2v_false]

theorem int32_self_delim (i : Int) (a : Aspect) (r g : List Nat)
    (h : value_to_storage (.Int32 i) a = some (.ok r)) :
    storage_to_value (r ++ g) = storage_to_value r ∧
      storage_size (r ++ g) = some r.length := by
  obtain ⟨ha, hr⟩ := int32_to_storage_ok h
  subst hr
  have hl : (flipHead (be_bytes 4 (toUnsigned 32 i))).length = 4 := by
    rw [flipHead_length, be_bytes_length]
  constructor
  · rw [List.cons_append, s2v_int32 a _ ha, s2v_int32 a _ ha,
      storage_to_int32_append _ g hl]
  · rw [List.cons_append, storage_size_int32 a _ ha]
    simp [hl]

theorem int64_self_delim (i : Int) (a : Aspect) (r g : List Nat)
    (ha : aspect_storage a = some .Int64)
    (h : value_to_storage (.Int64 i) a = some (.ok r)) :
    storage_to_value (r ++ g) = storage_to_value r ∧
      storage_size (r ++ g) = some r.length := by
  obtain ⟨_, hr⟩ := int64_to_storage_ok h
  subst hr
  have hl : (flipHead (be_bytes 8 (toUnsigned 64 i))).length = 8 := by
    rw [flipHead_length, be_bytes_length]
  constructor
  · rw [List.cons_append, s2v_int64 a _ ha, s2v_int64 a _ ha,
      storage_to_int64_append _ g hl]
  · rw [List.cons_append, storage_size_int64 a _ ha]
    simp [hl]

theorem datetime_self_delim (s : List Nat) (r g : List Nat)
    (h : value_to_storage (.String s) .DateTime = some (.ok r)) :
    storage_to_value (r ++ g) = storage_to_value r ∧
      storage_size (r ++ g) = some r.length := by
  have h' : date_time_to_storage s .DateTime = some (.ok r) := h
  obtain ⟨ts, hp, hi⟩ := date_time_to_storage_ok h'
  obtain ⟨_, hr⟩ := int64_to_storage_ok hi
  subst hr
  have hl : (flipHead (be_bytes 8 (toUnsigned 64 ts))).length = 8 := by
    rw [flipHead_length, be_bytes_length]
  have ha : aspect_storage Aspect.DateTime = some .DateTime := rfl
  constructor
  · rw [List.cons_append, s2v_datetime _ _ ha, s2v_datetime _ _ ha,
      storage_to_date_time_append _ g hl]
  · rw [List.cons_append, storage_size_datetime _ _ ha]
    simp [hl]

theorem float32_self_delim (f : Nat) (a : Aspect) (r g : List Nat)
    (h : value_to_storage (.Float32 f) a = some (.ok r)) :
    storage_to_value (r ++ g) = storage_to_value r ∧
      storage_size (r ++ g) = some r.length := by
  obtain ⟨ha, hr⟩ := float32_to_storage_ok h
  subst hr
  have hl : (be_bytes 4 (if f &&& F32_SIGN_MASK > 0 then f ^^^ F32_COMPLEMENT
      else f ^^^ F32_SIGN_MASK)).length = 4 := be_bytes_length 4 _
  constructor
  · rw [List.cons_append, s2v_float32 a _ ha, s2v_float32 a _ ha,
      storage_to_float32_append _ g hl]
  · rw [List.cons_append, storage_size_float32 a _ ha]
    simp [hl]

theorem float64_self_delim (f : Nat) (a : Aspect) (r g : List Nat)
    (h : value_to_storage (.Float64 f) a = some (.ok r)) :
    storage_to_value (r ++ g) = storage_to_value r ∧
      storage_size (r ++ g) = some r.length := by
  obtain ⟨ha, hr⟩ := float64_to_storage_ok h
  subst hr
  have hl : (be_bytes 8 (bif f64_signum_is_neg_one f then f ^^^ F64_COMPLEMENT
      else f ^^^ F64_SIGN_MASK)).length = 8 := be_bytes_length 8 _
  constructor
  · rw [List.cons_append, s2v_float64 a _ ha, s2v_float64 a _ ha,
      storage_to_float64_append _ g hl]
  · rw [List.cons_append, storage_size_float64 a _ ha]
    simp [hl]

theorem bigint_self_delim (x : Int) (a : Aspect) (r g : List Nat)
    (ha : aspect_storage a = some .BigInt) (hx : x.natAbs < 2 ^ 503)
    (h : value_to_storage (.BigInt x) a = some (.ok r)) :
    storage_to_value (r ++ g) = storage_to_value r ∧
      storage_size (r ++ g) = some r.length := by
  have hok : bigint_to_storage x a = .ok r := Option.some.inj h
  rw [bigint_to_storage_shape] at hok
  have hr := (Except.ok.inj hok).symm
  subst hr
  have hsb : significant_bits x.natAbs ≤ 503 := by
    rw [significant_bits_eq_size]
    exact Nat.size_le.mpr hx
  have h63 : num_bytes_of x.natAbs ≤ 63 :=
    num_bytes_of_le x.natAbs 63 (by omega) (by omega)
  have h1 : 1 ≤ num_bytes_of x.natAbs := num_bytes_of_pos x.natAbs
  have hm : x.natAbs < 2 ^ (8 * num_bytes_of x.natAbs) :=
    lt_two_pow_num_bytes x.natAbs
  by_cases hneg : x < 0
  · simp only [if_pos hneg]
    constructor
    · rw [List.cons_append, s2v_bigint a _ ha, s2v_bigint a _ ha]
      have e2 : ((size_encode (num_bytes_of x.natAbs)).reverse ++
            be_bytes (num_bytes_of x.natAbs) x.natAbs).map complByte =
          ((size_encode (num_bytes_of x.natAbs)).reverse ++
            be_bytes (num_bytes_of x.natAbs) x.natAbs).map complByte ++
            ([] : List Nat) := by simp
      rw [storage_to_bigint_small_neg _ _ h1 h63 hm g, e2,
        storage_to_bigint_small_neg _ _ h1 h63 hm []]
    · rw [List.cons_append]
      have hsd : size_decode
          ((((size_encode (num_bytes_of x.natAbs)).reverse ++
            be_bytes (num_bytes_of x.natAbs) x.natAbs).map complByte) ++ g) =
          (false, num_bytes_of x.natAbs, 1) := by
        rw [size_encode_small h1 h63]
        simp only [List.reverse_cons, List.reverse_nil, List.nil_append,
          List.map_cons, List.map_append, List.cons_append]
        exact sd_first_term_neg (by omega) _
      rw [storage_size_bigint a _ false (num_bytes_of x.natAbs) 1 ha hsd,
        size_encode_small h1 h63]
      simp only [List.length_cons, List.length_append, List.length_map,
        List.length_reverse, List.length_nil, be_bytes_length,
        Option.some.injEq]
      omega
  · simp only [if_neg hneg]
    constructor
    · rw [List.cons_append, s2v_bigint a _ ha, s2v_bigint a _ ha,
        List.append_assoc]
      have e2 : (size_encode (num_bytes_of x.natAbs)).reverse ++
            be_bytes (num_bytes_of x.natAbs) x.natAbs =
          (size_encode (num_bytes_of x.natAbs)).reverse ++
            (be_bytes (num_bytes_of x.natAbs) x.natAbs ++ ([] : List Nat)) := by
        simp
      rw [storage_to_bigint_small_pos _ _ h1 h63 hm g, e2,
        storage_to_bigint_small_pos _ _ h1 h63 hm []]
    · rw [List.cons_append]
      have hsd : size_decode
          (((size_encode (num_bytes_of x.natAbs)).reverse ++
            be_bytes (num_bytes_of x.natAbs) x.natAbs) ++ g) =
          (true, num_bytes_of x.natAbs, 1) := by
        rw [size_encode_small h1 h63]
        simp only [List.reverse_cons, List.reverse_nil, List.nil_append,
          List.cons_append, List.append_assoc]
        exact sd_first_term (by omega) _
      rw [storage_size_bigint a _ true (num_bytes_of x.natAbs) 1 ha hsd,
        size_encode_small h1 h63]
      simp only [List.length_cons, List.length_append, List.length_reverse,
        List.length_nil, be_bytes_length, Option.some.injEq]
      omega

theorem bignum_self_delim (ds frac : List Nat) (a : Aspect) (r g : List Nat)
    (ha : aspect_storage a = some .BigNum)
    (hds : allDigits ds = true) (hdsne : ds ≠ [])
    (hval : digitsVal ds < 2 ^ 503)
    (hfr : allDigits frac = true) (hfrne : frac ≠ [])
    (h : value_to_storage (.String (ds ++ 46 :: frac)) a = some (.ok r)) :
    storage_to_value (r ++ g) = storage_to_value r ∧
      storage_size (r ++ g) = some r.length := by
  have haD : a = .Decimal := aspect_of_bignum_st a ha
  subst haD
  obtain ⟨out, ho, hone, hohd, hodec, hocnt⟩ :=
    encode_fraction_go_spec frac.length frac le_rfl hfr hfrne
  have h' : bignum_to_storage (ds ++ 46 :: frac) .Decimal = some (.ok r) := h
  rw [bignum_to_storage_pos_eq ds frac out hds hdsne hfr
    (encode_fraction_go_to_full hfrne ho)] at h'
  have hr := (Except.ok.inj (Option.some.inj h')).symm
  subst hr
  have hsb : significant_bits (digitsVal ds) ≤ 503 := by
    rw [significant_bits_eq_size]
    exact Nat.size_le.mpr hval
  have h63 : num_bytes_of (digitsVal ds) ≤ 63 :=
    num_bytes_of_le (digitsVal ds) 63 (by omega) (by omega)
  have h1 : 1 ≤ num_bytes_of (digitsVal ds) := num_bytes_of_pos (digitsVal ds)
  have hm : digitsVal ds < 2 ^ (8 * num_bytes_of (digitsVal ds)) :=
    lt_two_pow_num_bytes (digitsVal ds)
  have hadec : aspect_storage Aspect.Decimal = some .BigNum := rfl
  constructor
  · rw [List.cons_append, List.cons_append,
      s2v_bignum _ _ hadec, s2v_bignum _ _ hadec]
    have e1 : ((size_encode (num_bytes_of (digitsVal ds))).reverse ++
          be_bytes (num_bytes_of (digitsVal ds)) (digitsVal ds)) ++ out ++ g =
        (size_encode (num_bytes_of (digitsVal ds))).reverse ++
          (be_bytes (num_bytes_of (digitsVal ds)) (digitsVal ds) ++
            (out ++ g)) := by
      simp [List.append_assoc]
    have e2 : ((size_encode (num_bytes_of (digitsVal ds))).reverse ++
          be_bytes (num_bytes_of (digitsVal ds)) (digitsVal ds)) ++ out =
        (size_encode (num_bytes_of (digitsVal ds))).reverse ++
          (be_bytes (num_bytes_of (digitsVal ds)) (digitsVal ds) ++
            (out ++ ([] : List Nat))) := by
      simp [List.append_assoc]
    rw [e1, storage_to_bignum_pos _ _ _ _ _ h1 h63 hm hohd (hodec g) hfrne,
      e2, storage_to_bignum_pos _ _ _ _ _ h1 h63 hm hohd (hodec []) hfrne]
  · rw [List.cons_append, List.cons_append]
    have hsd : size_decode
        (((size_encode (num_bytes_of (digitsVal ds))).reverse ++
          be_bytes (num_bytes_of (digitsVal ds)) (digitsVal ds)) ++
          (out ++ g)) = (true, num_bytes_of (digitsVal ds), 1) := by
      rw [size_encode_small h1 h63]
      simp only [List.reverse_cons, List.reverse_nil, List.nil_append,
        List.cons_append, List.append_assoc]
      exact sd_first_term (by omega) _
    rw [List.append_assoc, storage_size_bignum _ _ true
      (num_bytes_of (digitsVal ds)) 1 hadec hsd]
    have hdrop : (aspect_byte Aspect.Decimal ::
        (((size_encode (num_bytes_of (digitsVal ds))).reverse ++
          be_bytes (num_bytes_of (digitsVal ds)) (digitsVal ds)) ++
          (out ++ g))).drop (num_bytes_of (digitsVal ds) + 1 + 1) =
        out ++ g := by
      rw [size_encode_small h1 h63]
      simp only [List.reverse_cons, List.reverse_nil, List.nil_append,
        List.cons_append, List.append_assoc]
      rw [List.drop_succ_cons, List.drop_succ_cons,
        List.drop_left' (be_bytes_length _ _)]
    rw [hdrop, hocnt g, size_encode_small h1 h63]
    simp only [List.length_cons, List.length_append, List.length_reverse,
      List.length_nil, be_bytes_length, Option.some.injEq]
    omega

/-! ## Claim C4 -/

/-- Claim C4 (corrected).  Self-delimitation holds for the fixed-width
record families (Int32, Int64, Float32, Float64, DateTime: decode and
`storage_size` both ignore trailing bytes, and `storage_size` returns the
record length), for Boolean records (decode only — `storage_size` panics on
them because the True/False aspects have no storage mapping), for BigInt
records of magnitude below `2^503`, and for non-negative Decimal records
with a non-empty fraction; it fails for String storage and for
empty-fraction Decimal records (see the counterexample). -/
theorem C4_self_delim_amended :
    (∀ (b : Bool) (a : Aspect) (r g : List Nat),
      value_to_storage (.Boolean b) a = some (.ok r) →
      storage_to_value (r ++ g) = storage_to_value r) ∧
    (∀ (i : Int) (a : Aspect) (r g : List Nat),
      value_to_storage (.Int32 i) a = some (.ok r) →
      storage_to_value (r ++ g) = storage_to_value r ∧
      storage_size (r ++ g) = some r.length) ∧
    (∀ (i : Int) (a : Aspect) (r g : List Nat),
      aspect_storage a = some .Int64 →
      value_to_storage (.Int64 i) a = some (.ok r) →
      storage_to_value (r ++ g) = storage_to_value r ∧
      storage_size (r ++ g) = some r.length) ∧
    (∀ (s r g : List Nat),
      value_to_storage (.String s) .DateTime = some (.ok r) →
      storage_to_value (r ++ g) = storage_to_value r ∧
      storage_size (r ++ g) = some r.length) ∧
    (∀ (f : Nat) (a : Aspect) (r g : List Nat),
      value_to_storage (.Float32 f) a = some (.ok r) →
      storage_to_value (r ++ g) = storage_to_value r ∧
      storage_size (r ++ g) = some r.length) ∧
    (∀ (f : Nat) (a : Aspect) (r g : List Nat),
      value_to_storage (.Float64 f) a = some (.ok r) →
      storage_to_value (r ++ g) = storage_to_value r ∧
      storage_size (r ++ g) = some r.length) ∧
    (∀ (x : Int) (a : Aspect) (r g : List Nat),
      aspect_storage a = some .BigInt →
      x.natAbs < 2 ^ 503 →
      value_to_storage (.BigInt x) a = some (.ok r) →
      storage_to_value (r ++ g) = storage_to_value r ∧
      storage_size (r ++ g) = some r.length) ∧
    (∀ (ds frac : List Nat) (a : Aspect) (r g : List Nat),
      aspect_storage a = some .BigNum →
      allDigits ds = true → ds ≠ [] → digitsVal ds < 2 ^ 503 →
      allDigits frac = true → frac ≠ [] →
      value_to_storage (.String (ds ++ 46 :: frac)) a = some (.ok r) →
      storage_to_value (r ++ g) = storage_to_value r ∧
      storage_size (r ++ g) = some r.length) :=
  ⟨bool_self_delim, int32_self_delim, int64_self_delim, datetime_self_delim,
   float32_self_delim, float64_self_delim, bigint_self_delim,
   bignum_self_delim⟩

/-- Claim C4's witness: the amended statement applied to concrete Boolean,
Int32, BigInt, and Decimal records followed by a garbage byte. -/
theorem C4_self_delim_witness :
    (storage_to_value ([21, 128, 0, 0, 0] ++ [99]) =
        storage_to_value [21, 128, 0, 0, 0] ∧
      storage_size ([21, 128, 0, 0, 0] ++ [99]) =
        some [21, 128, 0, 0, 0].length) ∧
    storage_to_value ([48] ++ [99]) = storage_to_value [48] ∧
    (storage_to_value ([4, 129, 5] ++ [99]) = storage_to_value [4, 129, 5] ∧
      storage_size ([4, 129, 5] ++ [99]) = some [4, 129, 5].length) ∧
    (storage_to_value ([3, 129, 1, 112] ++ [99]) =
        storage_to_value [3, 129, 1, 112] ∧
      storage_size ([3, 129, 1, 112] ++ [99]) =
        some [3, 129, 1, 112].length) :=
  ⟨C4_self_delim_amended.2.1 0 .Int [21, 128, 0, 0, 0] [99] (by decide),
   C4_self_delim_amended.1 true .Boolean [48] [99] (by decide),
   C4_self_delim_amended.2.2.2.2.2.2.1 5 .Integer [4, 129, 5] [99]
     (by decide) (by decide) (by decide),
   C4_self_delim_amended.2.2.2.2.2.2.2 [49] [53] .Decimal [3, 129, 1, 112]
     [99] (by decide) (by decide) (by decide) (by decide) (by decide)
     (by decide) (by decide)⟩

/-- Claim C4's counterexample: a String record absorbs trailing garbage into
the decoded string and into `storage_size`, and an empty-fraction Decimal
record followed by garbage panics during fraction decoding. -/
theorem C4_counterexample :
    value_to_storage (.String [97]) .String = some (.ok [1, 97]) ∧
    storage_to_value ([1, 97] ++ [98]) ≠ storage_to_value [1, 97] ∧
    storage_size ([1, 97] ++ [98]) = some 3 ∧
    [1, 97].length = 2 ∧
    value_to_storage (.String [48]) .Decimal = some (.ok [3, 129, 0, 0]) ∧
    storage_to_value ([3, 129, 0, 0] ++ [98]) = none ∧
    storage_to_value [3, 129, 0, 0] =
      some (.ok (.String [48], .Decimal)) := by
  decide

/-! ## Lemmas: decimal rendering of integers (`format!`) -/

theorem digitChar_toNat : ∀ m < 10, (Nat.digitChar m).toNat = 48 + m := by
  decide

/-- Specification of `Nat.toDigitsCore` at base 10: it prepends a non-empty
block of ASCII digits whose value is the input. -/
theorem toDigitsCore_spec :
    ∀ (fuel n : Nat) (ds : List Char), n < fuel →
    ∃ pre : List Char, Nat.toDigitsCore 10 fuel n ds = pre ++ ds ∧ pre ≠ [] ∧
      allDigits (pre.map Char.toNat) = true ∧
      ∀ acc : Nat,
        (pre.map Char.toNat).foldl (fun a b => a * 10 + (b - 48)) acc =
          acc * 10 ^ pre.length + n := by
  intro fuel
  induction fuel with
  | zero => intro n ds h; omega
  | succ fuel ih =>
    intro n ds h
    rw [show Nat.toDigitsCore 10 (fuel + 1) n ds =
        (if n / 10 = 0 then Nat.digitChar (n % 10) :: ds
         else Nat.toDigitsCore 10 fuel (n / 10) (Nat.digitChar (n % 10) :: ds))
      from rfl]
    have hd := digitChar_toNat (n % 10) (by omega)
    by_cases hz : n / 10 = 0
    · rw [if_pos hz]
      refine ⟨[Nat.digitChar (n % 10)], rfl, by simp, ?_, ?_⟩
      · simp [allDigits, hd]
        omega
      · intro acc
        simp only [List.map_cons, List.map_nil, List.foldl_cons,
          List.foldl_nil, hd, List.length_cons, List.length_nil, pow_one]
        omega
    · rw [if_neg hz]
      obtain ⟨pre, hpre, hne, hdig, hfold⟩ :=
        ih (n / 10) (Nat.digitChar (n % 10) :: ds) (by omega)
      refine ⟨pre ++ [Nat.digitChar (n % 10)], ?_, by simp, ?_, ?_⟩
      · rw [hpre, List.append_assoc]
        rfl
      · rw [List.map_append]
        simp only [allDigits, List.all_append, Bool.and_eq_true] at hdig ⊢
        refine ⟨hdig, ?_⟩
        simp only [List.map_cons, List.map_nil, List.all_cons, List.all_nil,
          hd, Bool.and_true, decide_eq_true_eq]
        omega
      · intro acc
        simp only [List.map_append, List.foldl_append, hfold acc,
          List.map_cons, List.map_nil, List.foldl_cons, List.foldl_nil, hd,
          List.length_append, List.length_cons, List.length_nil]
        rw [show pre.length + (0 + 1) = pre.length + 1 from by omega,
          pow_succ, ← mul_assoc]
        set p := acc * 10 ^ pre.length
        omega

theorem decDigits_spec (n : Nat) :
    digitsVal (decDigits n) = n ∧ allDigits (decDigits n) = true ∧
      decDigits n ≠ [] := by
  obtain ⟨pre, hpre, hne, hdig, hfold⟩ := toDigitsCore_spec (n + 1) n [] (by omega)
  unfold decDigits
  rw [show Nat.toDigits 10 n = Nat.toDigitsCore 10 (n + 1) n [] from rfl,
    hpre, List.append_nil]
  refine ⟨?_, hdig, by simpa using hne⟩
  have := hfold 0
  simpa [digitsVal] using this

/-! ## Lemmas: fixed-width value round trips -/

theorem flipHead_flipHead (l : List Nat) : flipHead (flipHead l) = l := by
  cases l with
  | nil => rfl
  | cons b t => simp [flipHead, Nat.xor_cancel_right]

theorem toUnsigned_lt_32 (i : Int) : toUnsigned 32 i < 2 ^ 32 := by
  unfold toUnsigned
  have h1 : 0 ≤ i % 2 ^ 32 := Int.emod_nonneg i (by norm_num)
  have h2 : i % 2 ^ 32 < 2 ^ 32 := Int.emod_lt_of_pos i (by norm_num)
  rw [show (2 : Int) ^ 32 = 4294967296 from by norm_num] at h1 h2
  rw [show (2 : Int) ^ 32 = 4294967296 from by norm_num]
  omega

theorem toUnsigned_lt_64 (i : Int) : toUnsigned 64 i < 2 ^ 64 := by
  unfold toUnsigned
  have h1 : 0 ≤ i % 2 ^ 64 := Int.emod_nonneg i (by norm_num)
  have h2 : i % 2 ^ 64 < 2 ^ 64 := Int.emod_lt_of_pos i (by norm_num)
  rw [show (2 : Int) ^ 64 = 18446744073709551616 from by norm_num] at h1 h2
  rw [show (2 : Int) ^ 64 = 18446744073709551616 from by norm_num]
  omega

theorem fromUnsigned_toUnsigned_32 (i : Int) (h1 : -(2 ^ 31) ≤ i)
    (h2 : i < 2 ^ 31) : fromUnsigned 32 (toUnsigned 32 i) = i := by
  unfold fromUnsigned toUnsigned
  rw [show (2 : Int) ^ 32 = 4294967296 from by norm_num,
    show (32 : Nat) - 1 = 31 from rfl,
    show (2 : Nat) ^ 31 = 2147483648 from by norm_num]
  rw [show (2 : Int) ^ 31 = 2147483648 from by norm_num] at h1 h2
  split <;> omega

theorem fromUnsigned_toUnsigned_64 (i : Int) (h1 : -(2 ^ 63) ≤ i)
    (h2 : i < 2 ^ 63) : fromUnsigned 64 (toUnsigned 64 i) = i := by
  unfold fromUnsigned toUnsigned
  rw [show (2 : Int) ^ 64 = 18446744073709551616 from by norm_num,
    show (64 : Nat) - 1 = 63 from rfl,
    show (2 : Nat) ^ 63 = 9223372036854775808 from by norm_num]
  rw [show (2 : Int) ^ 63 = 9223372036854775808 from by norm_num] at h1 h2
  split <;> omega

theorem storage_to_int32_record (i : Int) (h1 : -(2 ^ 31) ≤ i)
    (h2 : i < 2 ^ 31) :
    storage_to_int32 (flipHead (be_bytes 4 (toUnsigned 32 i))) =
      .ok (.Int32 i) := by
  unfold storage_to_int32
  rw [if_pos (by simp [flipHead_length, be_bytes_length]),
    flipHead_flipHead,
    List.take_of_length_le (by simp [be_bytes_length]),
    beVal_be_bytes (toUnsigned_lt_32 i),
    fromUnsigned_toUnsigned_32 i h1 h2]

theorem storage_to_int64_record (i : Int) (h1 : -(2 ^ 63) ≤ i)
    (h2 : i < 2 ^ 63) :
    storage_to_int64 (flipHead (be_bytes 8 (toUnsigned 64 i))) =
      .ok (.Int64 i) := by
  unfold storage_to_int64
  rw [if_pos (by simp [flipHead_length, be_bytes_length]),
    flipHead_flipHead,
    List.take_of_length_le (by simp [be_bytes_length]),
    beVal_be_bytes (toUnsigned_lt_64 i),
    fromUnsigned_toUnsigned_64 i h1 h2]

theorem storage_to_float32_record (f : Nat) (hf : f < 2 ^ 32) :
    storage_to_float32 (be_bytes 4
      (if f &&& F32_SIGN_MASK > 0 then f ^^^ F32_COMPLEMENT
       else f ^^^ F32_SIGN_MASK)) = .ok (.Float32 f) := by
  have hg : (if f &&& F32_SIGN_MASK > 0 then f ^^^ F32_COMPLEMENT
      else f ^^^ F32_SIGN_MASK) < 2 ^ 32 := by
    split
    · exact Nat.xor_lt_two_pow hf (by decide)
    · exact Nat.xor_lt_two_pow hf (by decide)
  unfold storage_to_float32
  rw [if_pos (by simp [be_bytes_length]),
    be_bytes_take 4 _ 4 le_rfl, beVal_be_bytes hg]
  dsimp only
  rw [f32_transform_roundtrip f]

theorem storage_to_float64_record (f : Nat) (hf : f < 2 ^ 64)
    (hnan : f64_isNaN f = false) :
    storage_to_float64 (be_bytes 8
      (bif f64_signum_is_neg_one f then f ^^^ F64_COMPLEMENT
       else f ^^^ F64_SIGN_MASK)) = .ok (.Float64 f) := by
  have hg : (bif f64_signum_is_neg_one f then f ^^^ F64_COMPLEMENT
      else f ^^^ F64_SIGN_MASK) < 2 ^ 64 := by
    cases f64_signum_is_neg_one f with
    | true => exact Nat.xor_lt_two_pow hf (by decide)
    | false => exact Nat.xor_lt_two_pow hf (by decide)
  unfold storage_to_float64
  rw [if_pos (by simp [be_bytes_length]),
    be_bytes_take 8 _ 8 le_rfl, beVal_be_bytes hg]
  dsimp only
  rw [f64_transform_roundtrip f hnan]

/-! ## Lemmas: bounds on the chrono-formattable timestamp range -/

theorem format_timestamp_bound {ts : Int} {s : List Nat}
    (h : format_timestamp ts = some s) : -(2 ^ 63) ≤ ts ∧ ts < 2 ^ 63 := by
  unfold format_timestamp at h
  dsimp only at h
  by_cases hc : ts / 86400 < days_from_civil (-262144) 1 1 ∨
      ts / 86400 > days_from_civil 262143 12 31
  · rw [if_pos hc] at h
    cases h
  · push_neg at hc
    obtain ⟨hA, hB⟩ := hc
    rw [show days_from_civil (-262144) 1 1 = -96465658 from by decide] at hA
    rw [show days_from_civil 262143 12 31 = 95026601 from by decide] at hB
    have h0 : 0 ≤ ts % 86400 := Int.emod_nonneg ts (by norm_num)
    have h1 : ts % 86400 < 86400 := Int.emod_lt_of_pos ts (by norm_num)
    have hdm := Int.ediv_add_emod ts 86400
    rw [show (2 : Int) ^ 63 = 9223372036854775808 from by norm_num]
    omega

/-! ## Lemmas: parsing the signed decimal input string -/

theorem findIdx_no46 (ds : List Nat) (h46 : ∀ x ∈ ds, x ≠ 46) :
    ∀ (i : Nat) (frac : List Nat),
      (ds ++ 46 :: frac).findIdx? (· = 46) i = some (ds.length + i) := by
  induction ds with
  | nil => intro i frac; simp
  | cons d t ih =>
    intro i frac
    have hd : d ≠ 46 := h46 d (by simp)
    simp only [List.cons_append, List.findIdx?_cons]
    rw [if_neg (by simp [hd]),
      ih (fun x hx => h46 x (by simp [hx])) (i + 1) frac]
    simp only [List.length_cons, Option.some.injEq]
    omega

theorem splitDot_signed (ds frac : List Nat) (hds : allDigits ds = true)
    (hfr : allDigits frac = true) :
    splitDot ((45 :: ds) ++ 46 :: frac) = (45 :: ds, some frac) := by
  have h46 : ∀ x ∈ (45 :: ds), x ≠ 46 := by
    intro x hx
    rcases List.mem_cons.mp hx with h | h
    · omega
    · simp only [allDigits, List.all_eq_true] at hds
      have := hds x h
      simp at this
      omega
  unfold splitDot
  rw [findIdx_no46 (45 :: ds) h46 0 frac]
  dsimp only
  have h1 : ((45 :: ds) ++ 46 :: frac).take ((45 :: ds).length + 0) =
      45 :: ds := by
    rw [Nat.add_zero, List.take_left]
  have h2 : ((45 :: ds) ++ 46 :: frac).drop ((45 :: ds).length + 0 + 1) =
      frac := by
    rw [Nat.add_zero, ← List.drop_drop, List.drop_left]
    rfl
  rw [h1, h2, List.takeWhile_eq_self_iff.mpr]
  intro x hx
  simp only [allDigits, List.all_eq_true] at hfr
  have := hfr x hx
  simp at this ⊢
  omega

theorem parseInteger_neg (ds : List Nat) (hds : allDigits ds = true)
    (hne : ds ≠ []) :
    parseInteger (45 :: ds) = some (-((digitsVal ds : Nat) : Int)) := by
  unfold parseInteger
  split
  · rename_i rest heq
    rw [List.cons.injEq] at heq
    rw [← heq.2, if_pos ⟨hne, hds⟩]
  · rename_i rest heq
    rw [List.cons.injEq] at heq
    omega
  · rename_i h1 h2
    exact absurd rfl (h1 ds)

/-- What `bignum_to_storage` produces on a canonical negative decimal with
non-zero integer part and a non-empty fraction. -/
theorem bignum_to_storage_neg_eq (ds frac out : List Nat)
    (hds : allDigits ds = true) (hdsne : ds ≠ [])
    (hm : 0 < digitsVal ds)
    (hfr : allDigits frac = true)
    (ho : encode_fraction (some frac) = some out) :
    bignum_to_storage ((45 :: ds) ++ 46 :: frac) .Decimal =
      some (.ok ((aspect_byte .Decimal ::
        ((size_encode (num_bytes_of (digitsVal ds))).reverse ++
          be_bytes (num_bytes_of (digitsVal ds)) (digitsVal ds)).map
            complByte) ++ out.map complByte)) := by
  have hsh := bigint_to_storage_shape (-((digitsVal ds : Nat) : Int)) .Decimal
  rw [if_pos (by omega)] at hsh
  simp only [Int.natAbs_neg, Int.natAbs_ofNat] at hsh
  unfold bignum_to_storage
  rw [show aspect_storage Aspect.Decimal = some StorageType.BigNum from rfl]
  dsimp only
  rw [if_pos rfl, splitDot_signed ds frac hds hfr]
  dsimp only
  rw [parseInteger_neg ds hds hdsne]
  dsimp only
  rw [hsh]
  dsimp only
  rw [if_neg (by
    intro hc
    have := hc.1
    omega)]
  rw [ho]
  dsimp only
  rw [if_pos (show ((45 :: ds) ++ 46 :: frac).head? = some 45 from rfl)]

/-- What `bignum_to_storage` produces on a canonical negative-zero decimal
with a non-empty fraction. -/
theorem bignum_to_storage_negzero_eq (ds frac out : List Nat)
    (hds : allDigits ds = true) (hdsne : ds ≠ [])
    (hm : digitsVal ds = 0)
    (hfr : allDigits frac = true)
    (ho : encode_fraction (some frac) = some out) :
    bignum_to_storage ((45 :: ds) ++ 46 :: frac) .Decimal =
      some (.ok ([aspect_byte .Decimal, NEGATIVE_ZERO] ++
        out.map complByte)) := by
  have hsh := bigint_to_storage_shape (-((digitsVal ds : Nat) : Int)) .Decimal
  rw [if_neg (by omega)] at hsh
  simp only [Int.natAbs_neg, Int.natAbs_ofNat] at hsh
  unfold bignum_to_storage
  rw [show aspect_storage Aspect.Decimal = some StorageType.BigNum from rfl]
  dsimp only
  rw [if_pos rfl, splitDot_signed ds frac hds hfr]
  dsimp only
  rw [parseInteger_neg ds hds hdsne]
  dsimp only
  rw [hsh]
  dsimp only
  rw [if_pos ⟨by omega, show ((45 :: ds) ++ 46 :: frac).head? = some 45
    from rfl⟩]
  rw [ho]
  dsimp only
  rw [if_pos (show ((45 :: ds) ++ 46 :: frac).head? = some 45 from rfl)]

/-! ## Lemmas: encode-decode round trips of the record families -/

theorem intDecBytes_ofNat (m : Nat) :
    intDecBytes ((m : Nat) : Int) = decDigits m := by
  unfold intDecBytes
  rw [if_neg (by omega)]
  simp [Int.natAbs_ofNat]

theorem intDecBytes_negOfNat (m : Nat) (hm : 0 < m) :
    intDecBytes (-((m : Nat) : Int)) = 45 :: decDigits m := by
  unfold intDecBytes
  rw [if_pos (by omega)]
  simp [Int.natAbs_neg, Int.natAbs_ofNat]

theorem boolean_roundtrip (b : Bool) (a : Aspect) (r : List Nat)
    (h : value_to_storage (.Boolean b) a = some (.ok r)) :
    storage_to_value r = some (.ok (.Boolean b, .Boolean)) := by
  obtain ⟨ha, hr⟩ := boolean_to_storage_ok h
  subst hr
  cases b <;> simp [s2v_true, s2v_false]

theorem string_roundtrip (s : List Nat) (a : Aspect) (r : List Nat)
    (ha : aspect_storage a = some .String)
    (h : value_to_storage (.String s) a = some (.ok r)) :
    storage_to_value r = some (.ok (.String s, a)) := by
  obtain ⟨hnd, hnc⟩ := aspect_of_string_st a ha
  have h' : string_to_storage s a = some (.ok r) := by
    unfold value_to_storage at h
    dsimp only at h
    rw [if_neg hnd, if_neg hnc] at h
    exact h
  obtain ⟨_, hr⟩ := string_to_storage_ok h'
  subst hr
  rw [s2v_string a s ha]
  rfl

theorem int32_roundtrip (i : Int) (a : Aspect) (r : List Nat)
    (h1 : -(2 ^ 31) ≤ i) (h2 : i < 2 ^ 31)
    (h : value_to_storage (.Int32 i) a = some (.ok r)) :
    storage_to_value r = some (.ok (.Int32 i, a)) := by
  obtain ⟨ha, hr⟩ := int32_to_storage_ok h
  subst hr
  rw [s2v_int32 a _ ha, storage_to_int32_record i h1 h2]
  rfl

theorem int64_roundtrip (i : Int) (a : Aspect) (r : List Nat)
    (ha : aspect_storage a = some .Int64)
    (h1 : -(2 ^ 63) ≤ i) (h2 : i < 2 ^ 63)
    (h : value_to_storage (.Int64 i) a = some (.ok r)) :
    storage_to_value r = some (.ok (.Int64 i, a)) := by
  obtain ⟨_, hr⟩ := int64_to_storage_ok h
  subst hr
  rw [s2v_int64 a _ ha, storage_to_int64_record i h1 h2]
  rfl

theorem datetime_roundtrip (s : List Nat) (ts : Int) (r : List Nat)
    (hp : parse_rfc3339 s = some ts) (hf : format_timestamp ts = some s)
    (h : value_to_storage (.String s) .DateTime = some (.ok r)) :
    storage_to_value r = some (.ok (.String s, .DateTime)) := by
  have h' : date_time_to_storage s .DateTime = some (.ok r) := h
  unfold date_time_to_storage at h'
  rw [hp] at h'
  obtain ⟨_, hr⟩ := int64_to_storage_ok h'
  subst hr
  obtain ⟨hb1, hb2⟩ := format_timestamp_bound hf
  rw [s2v_datetime Aspect.DateTime _ rfl]
  unfold storage_to_date_time
  rw [storage_to_int64_record ts hb1 hb2]
  dsimp only
  rw [hf]
  rfl

theorem float32_roundtrip (f : Nat) (a : Aspect) (r : List Nat)
    (hf : f < 2 ^ 32)
    (h : value_to_storage (.Float32 f) a = some (.ok r)) :
    storage_to_value r = some (.ok (.Float32 f, a)) := by
  obtain ⟨ha, hr⟩ := float32_to_storage_ok h
  subst hr
  rw [s2v_float32 a _ ha, storage_to_float32_record f hf]
  rfl

theorem float64_roundtrip (f : Nat) (a : Aspect) (r : List Nat)
    (hf : f < 2 ^ 64) (hnan : f64_isNaN f = false)
    (h : value_to_storage (.Float64 f) a = some (.ok r)) :
    storage_to_value r = some (.ok (.Float64 f, a)) := by
  obtain ⟨ha, hr⟩ := float64_to_storage_ok h
  subst hr
  rw [s2v_float64 a _ ha, storage_to_float64_record f hf hnan]
  rfl

theorem bigint_roundtrip (x : Int) (a : Aspect) (r : List Nat)
    (ha : aspect_storage a = some .BigInt) (hx : x.natAbs < 2 ^ 503)
    (h : value_to_storage (.BigInt x) a = some (.ok r)) :
    storage_to_value r = some (.ok (.BigInt x, a)) := by
  have hok : bigint_to_storage x a = .ok r := Option.some.inj h
  rw [bigint_to_storage_shape] at hok
  have hr := (Except.ok.inj hok).symm
  subst hr
  have hsb : significant_bits x.natAbs ≤ 503 := by
    rw [significant_bits_eq_size]
    exact Nat.size_le.mpr hx
  have h63 : num_bytes_of x.natAbs ≤ 63 :=
    num_bytes_of_le x.natAbs 63 (by omega) (by omega)
  have h1 : 1 ≤ num_bytes_of x.natAbs := num_bytes_of_pos x.natAbs
  have hm : x.natAbs < 2 ^ (8 * num_bytes_of x.natAbs) :=
    lt_two_pow_num_bytes x.natAbs
  by_cases hneg : x < 0
  · simp only [if_pos hneg]
    rw [s2v_bigint a _ ha]
    have e2 : ((size_encode (num_bytes_of x.natAbs)).reverse ++
          be_bytes (num_bytes_of x.natAbs) x.natAbs).map complByte =
        ((size_encode (num_bytes_of x.natAbs)).reverse ++
          be_bytes (num_bytes_of x.natAbs) x.natAbs).map complByte ++
          ([] : List Nat) := by simp
    rw [e2, storage_to_bigint_small_neg _ _ h1 h63 hm []]
    have hval : -((x.natAbs : Nat) : Int) = x := by omega
    rw [hval]
    rfl
  · simp only [if_neg hneg]
    rw [s2v_bigint a _ ha]
    have e2 : (size_encode (num_bytes_of x.natAbs)).reverse ++
          be_bytes (num_bytes_of x.natAbs) x.natAbs =
        (size_encode (num_bytes_of x.natAbs)).reverse ++
          (be_bytes (num_bytes_of x.natAbs) x.natAbs ++ ([] : List Nat)) := by
      simp
    rw [e2, storage_to_bigint_small_pos _ _ h1 h63 hm []]
    have hval : ((x.natAbs : Nat) : Int) = x := by omega
    rw [hval]
    rfl

theorem bignum_roundtrip (neg : Bool) (m : Nat) (frac : List Nat)
    (a : Aspect) (r : List Nat)
    (ha : aspect_storage a = some .BigNum) (hm503 : m < 2 ^ 503)
    (hfr : allDigits frac = true) (hfrne : frac ≠ [])
    (h : value_to_storage
        (.String ((bif neg then [45] else []) ++ decDigits m ++ 46 :: frac))
        a = some (.ok r)) :
    storage_to_value r = some (.ok
      (.String ((bif neg then [45] else []) ++ decDigits m ++ 46 :: frac),
        a)) := by
  have haD : a = .Decimal := aspect_of_bignum_st a ha
  subst haD
  obtain ⟨hval, hdig, hne⟩ := decDigits_spec m
  obtain ⟨out, ho, hone, hohd, hodec, hocnt⟩ :=
    encode_fraction_go_spec frac.length frac le_rfl hfr hfrne
  have hsb : significant_bits m ≤ 503 := by
    rw [significant_bits_eq_size]
    exact Nat.size_le.mpr hm503
  have h63 : num_bytes_of m ≤ 63 := num_bytes_of_le m 63 (by omega) (by omega)
  have hnb1 : 1 ≤ num_bytes_of m := num_bytes_of_pos m
  have hmlt : m < 2 ^ (8 * num_bytes_of m) := lt_two_pow_num_bytes m
  have hdecnil : decode_fraction_go (out ++ ([] : List Nat).map complByte) =
      some frac := by simpa using hodec []
  cases neg with
  | false =>
    simp only [cond_false, List.nil_append] at h ⊢
    have h' : bignum_to_storage (decDigits m ++ 46 :: frac) .Decimal =
        some (.ok r) := h
    have heq := bignum_to_storage_pos_eq (decDigits m) frac out hdig hne
      hfr (encode_fraction_go_to_full hfrne ho)
    rw [hval] at heq
    rw [heq] at h'
    have hr := (Except.ok.inj (Option.some.inj h')).symm
    subst hr
    rw [List.cons_append, s2v_bignum Aspect.Decimal _ rfl]
    have e1 : ((size_encode (num_bytes_of m)).reverse ++
          be_bytes (num_bytes_of m) m) ++ out =
        (size_encode (num_bytes_of m)).reverse ++
          (be_bytes (num_bytes_of m) m ++ (out ++ ([] : List Nat))) := by
      simp [List.append_assoc]
    rw [e1, storage_to_bignum_pos _ _ _ _ _ hnb1 h63 hmlt hohd (hodec [])
      hfrne, intDecBytes_ofNat m]
    simp [Except.map]
  | true =>
    simp only [cond_true] at h ⊢
    by_cases hm0 : m = 0
    · subst hm0
      have h' : bignum_to_storage (([45] ++ decDigits 0) ++ 46 :: frac)
          .Decimal = some (.ok r) := by
        rw [show ([45] ++ decDigits 0) ++ 46 :: frac =
          [45] ++ decDigits 0 ++ 46 :: frac from by simp]
        exact h
      have heq := bignum_to_storage_negzero_eq (decDigits 0) frac out hdig
        hne (by rw [hval]) hfr (encode_fraction_go_to_full hfrne ho)
      rw [show (45 :: decDigits 0) ++ 46 :: frac =
        ([45] ++ decDigits 0) ++ 46 :: frac from by simp] at heq
      rw [heq] at h'
      have hr := (Except.ok.inj (Option.some.inj h')).symm
      subst hr
      rw [show [aspect_byte Aspect.Decimal, NEGATIVE_ZERO] ++
          out.map complByte =
        aspect_byte Aspect.Decimal ::
          (NEGATIVE_ZERO :: (out.map complByte ++ ([] : List Nat)))
        from by simp]
      rw [s2v_bignum Aspect.Decimal _ rfl,
        storage_to_bignum_negzero out frac [] hohd hdecnil hfrne,
        show intDecBytes 0 = decDigits 0 from intDecBytes_ofNat 0]
      simp [Except.map]
    · have h' : bignum_to_storage ((45 :: decDigits m) ++ 46 :: frac)
          .Decimal = some (.ok r) := by
        rw [show (45 :: decDigits m) ++ 46 :: frac =
          [45] ++ decDigits m ++ 46 :: frac from by simp]
        exact h
      have heq := bignum_to_storage_neg_eq (decDigits m) frac out hdig hne
        (by rw [hval]; omega) hfr (encode_fraction_go_to_full hfrne ho)
      rw [hval] at heq
      rw [heq] at h'
      have hr := (Except.ok.inj (Option.some.inj h')).symm
      subst hr
      rw [List.cons_append, s2v_bignum Aspect.Decimal _ rfl]
      have e1 : ((size_encode (num_bytes_of m)).reverse ++
            be_bytes (num_bytes_of m) m).map complByte ++ out.map complByte =
          ((size_encode (num_bytes_of m)).reverse ++
            be_bytes (num_bytes_of m) m).map complByte ++
            (out.map complByte ++ ([] : List Nat)) := by
        simp
      rw [e1, storage_to_bignum_neg _ _ _ _ _ hnb1 h63 (by omega) hmlt hohd
        hdecnil hfrne, intDecBytes_negOfNat m (by omega)]
      simp [Except.map]

/-! ## Claim C1 -/

/-- Claim C1 (corrected).  The round trip `storage_to_value ∘
value_to_storage` returns the original value-aspect pair for: Boolean;
String-storage aspects; Int32 values in `i32` range; Int64 values in `i64`
range under Int64-storage aspects; canonical in-range RFC-3339 strings under
the DateTime aspect; every `f32` bit pattern; every non-NaN `f64` bit
pattern; BigInt values of magnitude below `2^503` under BigInt-storage
aspects; and canonical decimal strings with integer part below `2^503` and a
non-empty digit fraction.  As stated, the claim fails for Int64 values
encoded under the DateTime aspect (accepted, but decoded as an RFC-3339
String), for BigInt values of magnitude `2^503` or more (a slice-arithmetic
bug drops the last magnitude byte), and for `f64` NaN (see the
counterexample). -/
theorem C1_roundtrip_amended :
    (∀ (b : Bool) (a : Aspect) (r : List Nat),
      value_to_storage (.Boolean b) a = some (.ok r) →
      storage_to_value r = some (.ok (.Boolean b, .Boolean))) ∧
    (∀ (s : List Nat) (a : Aspect) (r : List Nat),
      aspect_storage a = some .String →
      value_to_storage (.String s) a = some (.ok r) →
      storage_to_value r = some (.ok (.String s, a))) ∧
    (∀ (i : Int) (a : Aspect) (r : List Nat),
      -(2 ^ 31) ≤ i → i < 2 ^ 31 →
      value_to_storage (.Int32 i) a = some (.ok r) →
      storage_to_value r = some (.ok (.Int32 i, a))) ∧
    (∀ (i : Int) (a : Aspect) (r : List Nat),
      aspect_storage a = some .Int64 →
      -(2 ^ 63) ≤ i → i < 2 ^ 63 →
      value_to_storage (.Int64 i) a = some (.ok r) →
      storage_to_value r = some (.ok (.Int64 i, a))) ∧
    (∀ (s : List Nat) (ts : Int) (r : List Nat),
      parse_rfc3339 s = some ts → format_timestamp ts = some s →
      value_to_storage (.String s) .DateTime = some (.ok r) →
      storage_to_value r = some (.ok (.String s, .DateTime))) ∧
    (∀ (f : Nat) (a : Aspect) (r : List Nat),
      f < 2 ^ 32 →
      value_to_storage (.Float32 f) a = some (.ok r) →
      storage_to_value r = some (.ok (.Float32 f, a))) ∧
    (∀ (f : Nat) (a : Aspect) (r : List Nat),
      f < 2 ^ 64 → f64_isNaN f = false →
      value_to_storage (.Float64 f) a = some (.ok r) →
      storage_to_value r = some (.ok (.Float64 f, a))) ∧
    (∀ (x : Int) (a : Aspect) (r : List Nat),
      aspect_storage a = some .BigInt → x.natAbs < 2 ^ 503 →
      value_to_storage (.BigInt x) a = some (.ok r) →
      storage_to_value r = some (.ok (.BigInt x, a))) ∧
    (∀ (neg : Bool) (m : Nat) (frac : List Nat) (a : Aspect) (r : List Nat),
      aspect_storage a = some .BigNum → m < 2 ^ 503 →
      allDigits frac = true → frac ≠ [] →
      value_to_storage
        (.String ((bif neg then [45] else []) ++ decDigits m ++ 46 :: frac))
        a = some (.ok r) →
      storage_to_value r = some (.ok
        (.String ((bif neg then [45] else []) ++ decDigits m ++ 46 :: frac),
          a))) :=
  ⟨boolean_roundtrip, string_roundtrip, int32_roundtrip, int64_roundtrip,
   datetime_roundtrip, float32_roundtrip, float64_roundtrip,
   bigint_roundtrip, bignum_roundtrip⟩

/-- Claim C1's witness: the amended round trip applied to one concrete
record of every family. -/
theorem C1_roundtrip_witness :
    storage_to_value [48] = some (.ok (.Boolean true, .Boolean)) ∧
    storage_to_value [1, 97] = some (.ok (.String [97], .String)) ∧
    storage_to_value [21, 127, 255, 255, 251] =
      some (.ok (.Int32 (-5), .Int)) ∧
    storage_to_value [22, 128, 0, 0, 0, 0, 0, 0, 3] =
      some (.ok (.Int64 3, .Long)) ∧
    storage_to_value [9, 128, 0, 0, 0, 0, 0, 0, 0] =
      some (.ok (.String [49, 57, 55, 48, 45, 48, 49, 45, 48, 49, 84, 48,
        48, 58, 48, 48, 58, 48, 48, 90], .DateTime)) ∧
    storage_to_value [6, 191, 128, 0, 0] =
      some (.ok (.Float32 0x3f800000, .Float)) ∧
    storage_to_value [5, 128, 0, 0, 0, 0, 0, 0, 0] =
      some (.ok (.Float64 0, .Double)) ∧
    storage_to_value [4, 126, 248] = some (.ok (.BigInt (-7), .Integer)) ∧
    storage_to_value [3, 126, 254, 143] = some (.ok
      (.String ((bif true then [45] else []) ++ decDigits 1 ++ 46 :: [53]),
        .Decimal)) :=
  ⟨C1_roundtrip_amended.1 true .Boolean [48] (by decide),
   C1_roundtrip_amended.2.1 [97] .String [1, 97] (by decide) (by decide),
   C1_roundtrip_amended.2.2.1 (-5) .Int [21, 127, 255, 255, 251]
     (by decide) (by decide) (by decide),
   C1_roundtrip_amended.2.2.2.1 3 .Long [22, 128, 0, 0, 0, 0, 0, 0, 3]
     (by decide) (by decide) (by decide) (by decide),
   C1_roundtrip_amended.2.2.2.2.1 [49, 57, 55, 48, 45, 48, 49, 45, 48, 49,
       84, 48, 48, 58, 48, 48, 58, 48, 48, 90] 0 [9, 128, 0, 0, 0, 0, 0, 0, 0]
     (by decide) (by decide) (by decide),
   C1_roundtrip_amended.2.2.2.2.2.1 0x3f800000 .Float [6, 191, 128, 0, 0]
     (by decide) (by decide),
   C1_roundtrip_amended.2.2.2.2.2.2.1 0 .Double [5, 128, 0, 0, 0, 0, 0, 0, 0]
     (by decide) (by decide) (by decide),
   C1_roundtrip_amended.2.2.2.2.2.2.2.1 (-7) .Integer [4, 126, 248]
     (by decide) (by decide) (by decide),
   C1_roundtrip_amended.2.2.2.2.2.2.2.2 true 1 [53] .Decimal [3, 126, 254, 143]
     (by decide) (by decide) (by decide) (by decide) (by decide)⟩

/-- Claim C1's counterexample: an Int64 value encoded under the DateTime
aspect decodes as a String; the BigInt `2^503 + 1` decodes as `2^503`; and
the `f64` quiet NaN decodes to a different bit pattern. -/
theorem C1_counterexample :
    value_to_storage (.Int64 0) .DateTime =
      some (.ok [9, 128, 0, 0, 0, 0, 0, 0, 0]) ∧
    storage_to_value [9, 128, 0, 0, 0, 0, 0, 0, 0] =
      some (.ok (.String [49, 57, 55, 48, 45, 48, 49, 45, 48, 49, 84, 48,
        48, 58, 48, 48, 58, 48, 48, 90], .DateTime)) ∧
    (∀ i : Int, Value.String [49, 57, 55, 48, 45, 48, 49, 45, 48, 49, 84,
      48, 48, 58, 48, 48, 58, 48, 48, 90] ≠ .Int64 i) ∧
    (value_to_storage (.BigInt (2 ^ 503 + 1)) .Integer).map
        (fun e => e.map storage_to_value) =
      some (.ok (some (.ok (.BigInt (2 ^ 503), .Integer)))) ∧
    ((2 ^ 503 : Int) : Int) ≠ 2 ^ 503 + 1 ∧
    value_to_storage (.Float64 0x7ff8000000000000) .Double =
      some (.ok [5, 0xff, 0xf8, 0, 0, 0, 0, 0, 0]) ∧
    storage_to_value [5, 0xff, 0xf8, 0, 0, 0, 0, 0, 0] =
      some (.ok (.Float64 0x0007ffffffffffff, .Double)) ∧
    (0x0007ffffffffffff : Nat) ≠ 0x7ff8000000000000 := by
  refine ⟨by decide, by decide, fun i h => Value.noConfusion h, by decide,
    by decide, by decide, by decide, by decide⟩

/-! ## Lemmas: the strict lexicographic order on byte strings -/

theorem lexLt_head {x y : Nat} (xs ys : List Nat) (h : x < y) :
    lexLt (x :: xs) (y :: ys) = true := by
  unfold lexLt
  rw [if_pos h]

theorem lexLt_cons (x : Nat) (xs ys : List Nat) :
    lexLt (x :: xs) (x :: ys) = lexLt xs ys := by
  show (if x < x then true else if x < x then false else lexLt xs ys) =
    lexLt xs ys
  rw [if_neg (lt_irrefl x), if_neg (lt_irrefl x)]

theorem lexLt_nil_right (l : List Nat) : lexLt l [] = false := by
  cases l <;> rfl

theorem lex_cons_elim {a b : Nat} {as bs : List Nat}
    (h : lexLt (a :: as) (b :: bs) = true) :
    a < b ∨ (a = b ∧ lexLt as bs = true) := by
  unfold lexLt at h
  by_cases h1 : a < b
  · exact Or.inl h1
  · rw [if_neg h1] at h
    by_cases h2 : b < a
    · rw [if_pos h2] at h
      cases h
    · rw [if_neg h2] at h
      exact Or.inr ⟨by omega, h⟩

theorem lex_append_left (p t1 t2 : List Nat) (h : lexLt t1 t2 = true) :
    lexLt (p ++ t1) (p ++ t2) = true := by
  induction p with
  | nil => exact h
  | cons x xs ih => simpa [lexLt_cons] using ih

theorem lex_append_eqlen :
    ∀ (xs ys t1 t2 : List Nat), xs.length = ys.length →
      lexLt xs ys = true → lexLt (xs ++ t1) (ys ++ t2) = true := by
  intro xs
  induction xs with
  | nil =>
    intro ys t1 t2 hlen h
    cases ys with
    | nil => cases h
    | cons y ys => simp at hlen
  | cons x xs ih =>
    intro ys t1 t2 hlen h
    cases ys with
    | nil => simp at hlen
    | cons y ys =>
      rcases lex_cons_elim h with hxy | ⟨hxy, htail⟩
      · exact lexLt_head _ _ hxy
      · subst hxy
        simp only [List.cons_append, lexLt_cons]
        exact ih ys t1 t2 (by simpa using hlen) htail

theorem compl_eq_sub : ∀ b < 256, b ^^^ 255 = 255 - b := by
  decide

/-- A strict head-byte mismatch orders two byte strings in both the plain
and the complemented reading. -/
theorem head_lex_both {b1 b2 : Nat} (t1 t2 : List Nat) (h : b1 < b2)
    (hb : b2 < 256) :
    lexLt (b1 :: t1) (b2 :: t2) = true ∧
      lexLt ((b2 :: t2).map complByte) ((b1 :: t1).map complByte) = true := by
  refine ⟨lexLt_head _ _ h, ?_⟩
  simp only [List.map_cons]
  apply lexLt_head
  unfold complByte
  rw [compl_eq_sub b1 (by omega), compl_eq_sub b2 (by omega)]
  omega

/-! ## Lemmas: numeric order of fixed-width big-endian strings -/

theorem xor_two_pow_of_lt : ∀ (k x : Nat), x < 2 ^ k → x ^^^ 2 ^ k = x + 2 ^ k := by
  intro k
  induction k with
  | zero =>
    intro x h
    interval_cases x
    decide
  | succ k ih =>
    intro x h
    have hb2 : (2 : Nat) ^ (k + 1) = 2 * 2 ^ k := by
      rw [pow_succ]
      omega
    have hdiv : (x ^^^ 2 ^ (k + 1)) / 2 = x / 2 ^^^ 2 ^ k := by
      rw [Nat.xor_div_two]
      congr 1
      omega
    have hpar : (x ^^^ 2 ^ (k + 1)) % 2 = x % 2 := by
      have hb : 2 ^ (k + 1) % 2 = 0 := by omega
      rcases Nat.mod_two_eq_zero_or_one x with hx | hx
      · have : ¬((x ^^^ 2 ^ (k + 1)) % 2 = 1) := by
          rw [Nat.xor_mod_two_eq_one]
          simp [hx, hb]
        omega
      · have : (x ^^^ 2 ^ (k + 1)) % 2 = 1 := by
          rw [Nat.xor_mod_two_eq_one]
          simp [hx, hb]
        omega
    have hx2 : x / 2 < 2 ^ k := by omega
    have hih := ih (x / 2) hx2
    have hdm := Nat.div_add_mod (x ^^^ 2 ^ (k + 1)) 2
    rw [hdiv, hpar, hih] at hdm
    omega

theorem be_bytes_mod (w : Nat) : ∀ n, be_bytes w (n % 2 ^ (8 * w)) = be_bytes w n := by
  induction w with
  | zero => intro n; rfl
  | succ w ih =>
    intro n
    show ((n % 2 ^ (8 * (w + 1))) >>> (8 * w)) % 256 ::
        be_bytes w (n % 2 ^ (8 * (w + 1))) = (n >>> (8 * w)) % 256 :: be_bytes w n
    have hsplit : (2 : Nat) ^ (8 * (w + 1)) = 2 ^ (8 * w) * 2 ^ 8 := by
      rw [← pow_add]
      congr 1
    congr 1
    · rw [Nat.shiftRight_eq_div_pow, Nat.shiftRight_eq_div_pow, hsplit,
        Nat.mod_mul_right_div_self]
      omega
    · have h1 : n % 2 ^ (8 * (w + 1)) % 2 ^ (8 * w) = n % 2 ^ (8 * w) := by
        apply Nat.mod_mod_of_dvd
        rw [hsplit]
        exact Dvd.intro _ rfl
      rw [← ih (n % 2 ^ (8 * (w + 1))), h1, ih n]

theorem shiftRight_top_lt {w a : Nat} (h : a < 2 ^ (8 * (w + 1))) :
    a >>> (8 * w) < 256 := by
  rw [Nat.shiftRight_eq_div_pow]
  have hsplit : (2 : Nat) ^ (8 * (w + 1)) = 2 ^ (8 * w) * 256 := by
    rw [show 8 * (w + 1) = 8 * w + 8 from by omega, pow_add]
    norm_num
  rw [Nat.div_lt_iff_lt_mul (Nat.pos_pow_of_pos _ (by norm_num))]
  omega

/-- Strict numeric order of equal-width values yields strict lexicographic
order of their big-endian serialisations, in both the plain and the
complemented reading. -/
theorem be_mono_pair :
    ∀ (w a b : Nat), a < b → b < 2 ^ (8 * w) →
      lexLt (be_bytes w a) (be_bytes w b) = true ∧
        lexLt ((be_bytes w b).map complByte)
          ((be_bytes w a).map complByte) = true := by
  intro w
  induction w with
  | zero =>
    intro a b hab hb
    have h1 : (2 : Nat) ^ (8 * 0) = 1 := by norm_num
    omega
  | succ w ih =>
    intro a b hab hb
    have hbtop : b >>> (8 * w) < 256 := shiftRight_top_lt hb
    have hatop : a >>> (8 * w) < 256 := shiftRight_top_lt (by omega)
    have hmoda : (a >>> (8 * w)) % 256 = a >>> (8 * w) := Nat.mod_eq_of_lt hatop
    have hmodb : (b >>> (8 * w)) % 256 = b >>> (8 * w) := Nat.mod_eq_of_lt hbtop
    show lexLt ((a >>> (8 * w)) % 256 :: be_bytes w a)
        ((b >>> (8 * w)) % 256 :: be_bytes w b) = true ∧
      lexLt (((b >>> (8 * w)) % 256 :: be_bytes w b).map complByte)
        (((a >>> (8 * w)) % 256 :: be_bytes w a).map complByte) = true
    rcases Nat.lt_trichotomy (a >>> (8 * w)) (b >>> (8 * w)) with hlt | heq | hgt
    · exact head_lex_both _ _ (by omega) (by omega)
    · rw [hmoda, hmodb, heq, lexLt_cons]
      constructor
      · rw [← be_bytes_mod w a, ← be_bytes_mod w b]
        refine (ih (a % 2 ^ (8 * w)) (b % 2 ^ (8 * w)) ?_ ?_).1
        · have hda := Nat.div_add_mod a (2 ^ (8 * w))
          have hdb := Nat.div_add_mod b (2 ^ (8 * w))
          rw [Nat.shiftRight_eq_div_pow, Nat.shiftRight_eq_div_pow] at heq
          rw [heq] at hda
          omega
        · exact Nat.mod_lt _ (Nat.pos_pow_of_pos _ (by norm_num))
      · simp only [List.map_cons]
        rw [lexLt_cons, ← be_bytes_mod w a, ← be_bytes_mod w b]
        refine (ih (a % 2 ^ (8 * w)) (b % 2 ^ (8 * w)) ?_ ?_).2
        · have hda := Nat.div_add_mod a (2 ^ (8 * w))
          have hdb := Nat.div_add_mod b (2 ^ (8 * w))
          rw [Nat.shiftRight_eq_div_pow, Nat.shiftRight_eq_div_pow] at heq
          rw [heq] at hda
          omega
        · exact Nat.mod_lt _ (Nat.pos_pow_of_pos _ (by norm_num))
    · exfalso
      rw [Nat.shiftRight_eq_div_pow, Nat.shiftRight_eq_div_pow] at hgt
      have := Nat.div_le_div_right (le_of_lt hab) (c := 2 ^ (8 * w))
      omega

/-! ## Lemmas: the sign-bit and complement transforms at the byte level -/

theorem mod256_and (x : Nat) : x % 256 = x &&& 255 := by
  have h := Nat.and_pow_two_sub_one_eq_mod x 8
  norm_num at h
  exact h.symm

theorem be_bytes_xor (w : Nat) :
    ∀ a m, be_bytes w (a ^^^ m) =
      List.zipWith (· ^^^ ·) (be_bytes w a) (be_bytes w m) := by
  induction w with
  | zero => intro a m; rfl
  | succ w ih =>
    intro a m
    show ((a ^^^ m) >>> (8 * w)) % 256 :: be_bytes w (a ^^^ m) = _
    rw [ih a m]
    show _ = ((a >>> (8 * w)) % 256 ^^^ (m >>> (8 * w)) % 256) ::
      List.zipWith (· ^^^ ·) (be_bytes w a) (be_bytes w m)
    congr 1
    rw [xor_shiftRight]
    simp only [mod256_and]
    rw [Nat.and_xor_distrib_right]

theorem zip_xor_zeros :
    ∀ (l : List Nat) (n : Nat), l.length ≤ n →
      List.zipWith (· ^^^ ·) l (List.replicate n 0) = l := by
  intro l
  induction l with
  | nil => intro n h; simp
  | cons b t ih =>
    intro n h
    cases n with
    | zero => simp at h
    | succ n =>
      simp only [List.replicate, List.zipWith_cons_cons, Nat.xor_zero]
      rw [ih n (by simpa using h)]

theorem zip_xor_ones :
    ∀ (l : List Nat) (n : Nat), l.length = n →
      List.zipWith (· ^^^ ·) l (List.replicate n 255) = l.map complByte := by
  intro l
  induction l with
  | nil => intro n h; simp
  | cons b t ih =>
    intro n h
    cases n with
    | zero => simp at h
    | succ n =>
      simp only [List.replicate, List.zipWith_cons_cons, List.map_cons]
      rw [ih n (by simpa using h)]
      rfl

theorem flipHead_as_xor32 (u : Nat) :
    flipHead (be_bytes 4 u) = be_bytes 4 (u ^^^ 0x80000000) := by
  rw [be_bytes_xor,
    show be_bytes 4 0x80000000 = 128 :: List.replicate 3 0 from by decide]
  show flipHead ((u >>> (8 * 3)) % 256 :: be_bytes 3 u) =
    List.zipWith (· ^^^ ·) ((u >>> (8 * 3)) % 256 :: be_bytes 3 u)
      (128 :: List.replicate 3 0)
  rw [List.zipWith_cons_cons, zip_xor_zeros (be_bytes 3 u) 3
    (by rw [be_bytes_length])]
  rfl

theorem flipHead_as_xor64 (u : Nat) :
    flipHead (be_bytes 8 u) = be_bytes 8 (u ^^^ 0x8000000000000000) := by
  rw [be_bytes_xor,
    show be_bytes 8 0x8000000000000000 = 128 :: List.replicate 7 0 from by
      decide]
  show flipHead ((u >>> (8 * 7)) % 256 :: be_bytes 7 u) =
    List.zipWith (· ^^^ ·) ((u >>> (8 * 7)) % 256 :: be_bytes 7 u)
      (128 :: List.replicate 7 0)
  rw [List.zipWith_cons_cons, zip_xor_zeros (be_bytes 7 u) 7
    (by rw [be_bytes_length])]
  rfl

theorem comp_map32 (f : Nat) :
    be_bytes 4 (f ^^^ 0xffffffff) = (be_bytes 4 f).map complByte := by
  rw [be_bytes_xor,
    show be_bytes 4 0xffffffff = List.replicate 4 255 from by decide]
  exact zip_xor_ones (be_bytes 4 f) 4 (be_bytes_length 4 f)

theorem comp_map64 (f : Nat) :
    be_bytes 8 (f ^^^ 0xffffffffffffffff) = (be_bytes 8 f).map complByte := by
  rw [be_bytes_xor,
    show be_bytes 8 0xffffffffffffffff = List.replicate 8 255 from by decide]
  exact zip_xor_ones (be_bytes 8 f) 8 (be_bytes_length 8 f)

/-! ## Lemmas: the biased (order-preserving) value of a signed integer -/

theorem toUnsigned_biased_32 (i : Int) (h1 : -(2 ^ 31) ≤ i) (h2 : i < 2 ^ 31) :
    toUnsigned 32 i ^^^ 0x80000000 = (i + 2 ^ 31).toNat := by
  unfold toUnsigned
  have hm0 : 0 ≤ i % 2 ^ 32 := Int.emod_nonneg i (by norm_num)
  have hmlt : i % 2 ^ 32 < 2 ^ 32 := Int.emod_lt_of_pos i (by norm_num)
  rw [show (2 : Int) ^ 32 = 4294967296 from by norm_num] at hm0 hmlt ⊢
  rw [show (2 : Int) ^ 31 = 2147483648 from by norm_num] at h1 h2 ⊢
  set u : Nat := (i % 4294967296).toNat with hu
  by_cases hc : u < 2147483648
  · have hx := xor_two_pow_of_lt 31 u (by norm_num; omega)
    rw [show (2 : Nat) ^ 31 = 2147483648 from by norm_num] at hx
    rw [show (0x80000000 : Nat) = 2147483648 from by norm_num, hx]
    omega
  · have hx := xor_two_pow_of_lt 31 (u - 2147483648) (by norm_num; omega)
    rw [show (2 : Nat) ^ 31 = 2147483648 from by norm_num] at hx
    have hxx : u ^^^ 2147483648 = u - 2147483648 := by
      have h3 := Nat.xor_cancel_right 2147483648 (u - 2147483648)
      rw [hx, show u - 2147483648 + 2147483648 = u from by omega] at h3
      exact h3
    rw [show (0x80000000 : Nat) = 2147483648 from by norm_num, hxx]
    omega

theorem toUnsigned_biased_64 (i : Int) (h1 : -(2 ^ 63) ≤ i) (h2 : i < 2 ^ 63) :
    toUnsigned 64 i ^^^ 0x8000000000000000 = (i + 2 ^ 63).toNat := by
  unfold toUnsigned
  have hm0 : 0 ≤ i % 2 ^ 64 := Int.emod_nonneg i (by norm_num)
  have hmlt : i % 2 ^ 64 < 2 ^ 64 := Int.emod_lt_of_pos i (by norm_num)
  rw [show (2 : Int) ^ 64 = 18446744073709551616 from by norm_num]
    at hm0 hmlt ⊢
  rw [show (2 : Int) ^ 63 = 9223372036854775808 from by norm_num] at h1 h2 ⊢
  set u : Nat := (i % 18446744073709551616).toNat with hu
  by_cases hc : u < 9223372036854775808
  · have hx := xor_two_pow_of_lt 63 u (by norm_num; omega)
    rw [show (2 : Nat) ^ 63 = 9223372036854775808 from by norm_num] at hx
    rw [show (0x8000000000000000 : Nat) = 9223372036854775808 from by
      norm_num, hx]
    omega
  · have hx := xor_two_pow_of_lt 63 (u - 9223372036854775808)
      (by norm_num; omega)
    rw [show (2 : Nat) ^ 63 = 9223372036854775808 from by norm_num] at hx
    have hxx : u ^^^ 9223372036854775808 = u - 9223372036854775808 := by
      have h3 := Nat.xor_cancel_right 9223372036854775808
        (u - 9223372036854775808)
      rw [hx, show u - 9223372036854775808 + 9223372036854775808 = u from by
        omega] at h3
      exact h3
    rw [show (0x8000000000000000 : Nat) = 9223372036854775808 from by
      norm_num, hxx]
    omega

/-! ## Lemmas: order preservation of the fixed-width integer bodies -/

theorem int32_body_mono (i1 i2 : Int) (hl : -(2 ^ 31) ≤ i1) (h12 : i1 < i2)
    (hr : i2 < 2 ^ 31) :
    lexLt (flipHead (be_bytes 4 (toUnsigned 32 i1)))
      (flipHead (be_bytes 4 (toUnsigned 32 i2))) = true := by
  rw [flipHead_as_xor32, flipHead_as_xor32,
    toUnsigned_biased_32 i1 hl (by omega),
    toUnsigned_biased_32 i2 (by omega) hr]
  refine (be_mono_pair 4 _ _ ?_ ?_).1
  · rw [show (2 : Int) ^ 31 = 2147483648 from by norm_num] at hl hr ⊢
    omega
  · rw [show (2 : Int) ^ 31 = 2147483648 from by norm_num] at hl hr ⊢
    norm_num
    omega

theorem int64_body_mono (i1 i2 : Int) (hl : -(2 ^ 63) ≤ i1) (h12 : i1 < i2)
    (hr : i2 < 2 ^ 63) :
    lexLt (flipHead (be_bytes 8 (toUnsigned 64 i1)))
      (flipHead (be_bytes 8 (toUnsigned 64 i2))) = true := by
  rw [flipHead_as_xor64, flipHead_as_xor64,
    toUnsigned_biased_64 i1 hl (by omega),
    toUnsigned_biased_64 i2 (by omega) hr]
  refine (be_mono_pair 8 _ _ ?_ ?_).1
  · rw [show (2 : Int) ^ 63 = 9223372036854775808 from by norm_num]
      at hl hr ⊢
    omega
  · rw [show (2 : Int) ^ 63 = 9223372036854775808 from by norm_num]
      at hl hr ⊢
    norm_num
    omega

/-! ## Lemmas: order preservation of the float bodies -/

theorem f32_sign_lt (f : Nat) (h : f < 2 ^ 32) :
    f &&& F32_SIGN_MASK = 0 ↔ f < 2 ^ 31 := by
  rw [show F32_SIGN_MASK = 2 ^ 31 from by decide, Nat.and_two_pow,
    Nat.testBit_to_div_mod]
  rw [show (2 : Nat) ^ 32 = 4294967296 from by norm_num] at h
  rw [show (2 : Nat) ^ 31 = 2147483648 from by norm_num]
  by_cases hd : f / 2147483648 % 2 = 1
  · simp only [hd, decide_True]
    norm_num
    omega
  · simp only [hd, decide_False]
    norm_num
    omega

theorem f64_sign_lt (f : Nat) (h : f < 2 ^ 64) :
    f &&& F64_SIGN_MASK = 0 ↔ f < 2 ^ 63 := by
  rw [show F64_SIGN_MASK = 2 ^ 63 from by decide, Nat.and_two_pow,
    Nat.testBit_to_div_mod]
  rw [show (2 : Nat) ^ 64 = 18446744073709551616 from by norm_num] at h
  rw [show (2 : Nat) ^ 63 = 9223372036854775808 from by norm_num]
  by_cases hd : f / 9223372036854775808 % 2 = 1
  · simp only [hd, decide_True]
    norm_num
    omega
  · simp only [hd, decide_False]
    norm_num
    omega

theorem f32_mag_eq (f : Nat) : f &&& 0x7fffffff = f % 2147483648 := by
  have h := Nat.and_pow_two_sub_one_eq_mod f 31
  norm_num at h
  exact h

theorem f64_mag_eq (f : Nat) :
    f &&& 0x7fffffffffffffff = f % 9223372036854775808 := by
  have h := Nat.and_pow_two_sub_one_eq_mod f 63
  norm_num at h
  exact h

theorem float32_body_mono (f1 f2 : Nat) (hf1 : f1 < 2 ^ 32) (hf2 : f2 < 2 ^ 32)
    (hk : f32_key f1 < f32_key f2) :
    lexLt
      (be_bytes 4 (if f1 &&& F32_SIGN_MASK > 0 then f1 ^^^ F32_COMPLEMENT
        else f1 ^^^ F32_SIGN_MASK))
      (be_bytes 4 (if f2 &&& F32_SIGN_MASK > 0 then f2 ^^^ F32_COMPLEMENT
        else f2 ^^^ F32_SIGN_MASK)) = true := by
  have hB : F32_SIGN_MASK = 2147483648 := by decide
  unfold f32_key at hk
  rcases f32_sign_eq_zero_or f1 with hz1 | hs1 <;>
    rcases f32_sign_eq_zero_or f2 with hz2 | hs2
  · -- both sign bits clear
    have hlt1 : f1 < 2 ^ 31 := (f32_sign_lt f1 hf1).mp hz1
    have hlt2 : f2 < 2 ^ 31 := (f32_sign_lt f2 hf2).mp hz2
    rw [if_neg (by omega), if_neg (by omega)]
    rw [if_neg (by omega), if_neg (by omega)] at hk
    rw [f32_mag_eq, f32_mag_eq] at hk
    rw [show F32_SIGN_MASK = 2 ^ 31 from by decide,
      xor_two_pow_of_lt 31 f1 hlt1, xor_two_pow_of_lt 31 f2 hlt2]
    rw [show (2 : Nat) ^ 31 = 2147483648 from by norm_num] at hlt1 hlt2 ⊢
    refine (be_mono_pair 4 _ _ ?_ ?_).1
    · omega
    · norm_num
      omega
  · -- f1 non-negative, f2 negative: impossible under strict key order
    exfalso
    rw [if_neg (by omega), if_pos (by omega)] at hk
    have m1 : (0 : Int) ≤ ((f1 &&& 0x7fffffff : Nat) : Int) := by positivity
    have m2 : (0 : Int) ≤ ((f2 &&& 0x7fffffff : Nat) : Int) := by positivity
    omega
  · -- f1 negative, f2 non-negative: head bytes decide it
    have hlt2 : f2 < 2 ^ 31 := (f32_sign_lt f2 hf2).mp hz2
    have hge1 : ¬(f1 < 2 ^ 31) := by
      have hiff := f32_sign_lt f1 hf1
      omega
    rw [if_pos (by omega), if_neg (by omega)]
    rw [show F32_COMPLEMENT = 0xffffffff from by decide, comp_map32,
      show F32_SIGN_MASK = 2 ^ 31 from by decide,
      xor_two_pow_of_lt 31 f2 hlt2]
    show lexLt (List.map complByte
        ((f1 >>> (8 * 3)) % 256 :: be_bytes 3 f1))
      (((f2 + 2 ^ 31) >>> (8 * 3)) % 256 ::
        be_bytes 3 (f2 + 2 ^ 31)) = true
    rw [List.map_cons]
    apply lexLt_head
    have e1 : f1 >>> (8 * 3) = f1 / 16777216 := by
      rw [Nat.shiftRight_eq_div_pow]
    have e2 : (f2 + 2 ^ 31) >>> (8 * 3) = (f2 + 2147483648) / 16777216 := by
      rw [Nat.shiftRight_eq_div_pow]
      norm_num
    rw [show (2 : Nat) ^ 32 = 4294967296 from by norm_num] at hf1 hf2
    rw [show (2 : Nat) ^ 31 = 2147483648 from by norm_num] at hge1 hlt2 e2 ⊢
    have ht1 : f1 / 16777216 < 256 := by omega
    have ht1b : 128 ≤ f1 / 16777216 := by omega
    have ht2 : (f2 + 2147483648) / 16777216 < 256 := by omega
    have ht2b : 128 ≤ (f2 + 2147483648) / 16777216 := by omega
    rw [e1, e2, Nat.mod_eq_of_lt ht1, Nat.mod_eq_of_lt ht2]
    unfold complByte
    rw [compl_eq_sub _ ht1]
    omega
  · -- both negative
    have hge1 : ¬(f1 < 2 ^ 31) := by
      have hiff := f32_sign_lt f1 hf1
      omega
    have hge2 : ¬(f2 < 2 ^ 31) := by
      have hiff := f32_sign_lt f2 hf2
      omega
    rw [if_pos (by omega), if_pos (by omega)]
    rw [if_pos (by omega), if_pos (by omega)] at hk
    rw [f32_mag_eq, f32_mag_eq] at hk
    rw [show F32_COMPLEMENT = 0xffffffff from by decide, comp_map32,
      comp_map32]
    refine (be_mono_pair 4 f2 f1 ?_ hf1).2
    rw [show (2 : Nat) ^ 31 = 2147483648 from by norm_num] at hge1 hge2
    rw [show (2 : Nat) ^ 32 = 4294967296 from by norm_num] at hf1 hf2
    omega

theorem float64_body_mono (f1 f2 : Nat) (hf1 : f1 < 2 ^ 64) (hf2 : f2 < 2 ^ 64)
    (hn1 : f64_isNaN f1 = false) (hn2 : f64_isNaN f2 = false)
    (hk : f64_key f1 < f64_key f2) :
    lexLt
      (be_bytes 8 (bif f64_signum_is_neg_one f1 then f1 ^^^ F64_COMPLEMENT
        else f1 ^^^ F64_SIGN_MASK))
      (be_bytes 8 (bif f64_signum_is_neg_one f2 then f2 ^^^ F64_COMPLEMENT
        else f2 ^^^ F64_SIGN_MASK)) = true := by
  have hB : F64_SIGN_MASK = 9223372036854775808 := by decide
  unfold f64_key at hk
  rcases f64_sign_eq_zero_or f1 with hz1 | hs1 <;>
    rcases f64_sign_eq_zero_or f2 with hz2 | hs2
  · have hlt1 : f1 < 2 ^ 63 := (f64_sign_lt f1 hf1).mp hz1
    have hlt2 : f2 < 2 ^ 63 := (f64_sign_lt f2 hf2).mp hz2
    have hc1 : f64_signum_is_neg_one f1 = false := by
      simp [f64_signum_is_neg_one, hz1]
    have hc2 : f64_signum_is_neg_one f2 = false := by
      simp [f64_signum_is_neg_one, hz2]
    rw [hc1, hc2]
    simp only [cond_false]
    rw [if_neg (by omega), if_neg (by omega)] at hk
    rw [f64_mag_eq, f64_mag_eq] at hk
    rw [show F64_SIGN_MASK = 2 ^ 63 from by decide,
      xor_two_pow_of_lt 63 f1 hlt1, xor_two_pow_of_lt 63 f2 hlt2]
    rw [show (2 : Nat) ^ 63 = 9223372036854775808 from by norm_num]
      at hlt1 hlt2 ⊢
    refine (be_mono_pair 8 _ _ ?_ ?_).1
    · omega
    · norm_num
      omega
  · exfalso
    rw [if_neg (by omega), if_pos (by omega)] at hk
    have m1 : (0 : Int) ≤ ((f1 &&& 0x7fffffffffffffff : Nat) : Int) := by
      positivity
    have m2 : (0 : Int) ≤ ((f2 &&& 0x7fffffffffffffff : Nat) : Int) := by
      positivity
    omega
  · have hlt2 : f2 < 2 ^ 63 := (f64_sign_lt f2 hf2).mp hz2
    have hge1 : ¬(f1 < 2 ^ 63) := by
      have hiff := f64_sign_lt f1 hf1
      omega
    have hc1 : f64_signum_is_neg_one f1 = true := by
      simp [f64_signum_is_neg_one, hn1, hs1]
      norm_num [F64_SIGN_MASK]
    have hc2 : f64_signum_is_neg_one f2 = false := by
      simp [f64_signum_is_neg_one, hz2]
    rw [hc1, hc2]
    simp only [cond_true, cond_false]
    rw [show F64_COMPLEMENT = 0xffffffffffffffff from by decide, comp_map64,
      show F64_SIGN_MASK = 2 ^ 63 from by decide,
      xor_two_pow_of_lt 63 f2 hlt2]
    show lexLt (List.map complByte
        ((f1 >>> (8 * 7)) % 256 :: be_bytes 7 f1))
      (((f2 + 2 ^ 63) >>> (8 * 7)) % 256 ::
        be_bytes 7 (f2 + 2 ^ 63)) = true
    rw [List.map_cons]
    apply lexLt_head
    have e1 : f1 >>> (8 * 7) = f1 / 72057594037927936 := by
      rw [Nat.shiftRight_eq_div_pow]
    have e2 : (f2 + 2 ^ 63) >>> (8 * 7) =
        (f2 + 9223372036854775808) / 72057594037927936 := by
      rw [Nat.shiftRight_eq_div_pow]
      norm_num
    rw [show (2 : Nat) ^ 64 = 18446744073709551616 from by norm_num]
      at hf1 hf2
    rw [show (2 : Nat) ^ 63 = 9223372036854775808 from by norm_num]
      at hge1 hlt2 e2 ⊢
    have ht1 : f1 / 72057594037927936 < 256 := by omega
    have ht1b : 128 ≤ f1 / 72057594037927936 := by omega
    have ht2 : (f2 + 9223372036854775808) / 72057594037927936 < 256 := by
      omega
    have ht2b : 128 ≤ (f2 + 9223372036854775808) / 72057594037927936 := by
      omega
    rw [e1, e2, Nat.mod_eq_of_lt ht1, Nat.mod_eq_of_lt ht2]
    unfold complByte
    rw [compl_eq_sub _ ht1]
    omega
  · have hge1 : ¬(f1 < 2 ^ 63) := by
      have hiff := f64_sign_lt f1 hf1
      omega
    have hge2 : ¬(f2 < 2 ^ 63) := by
      have hiff := f64_sign_lt f2 hf2
      omega
    have hc1 : f64_signum_is_neg_one f1 = true := by
      simp [f64_signum_is_neg_one, hn1, hs1]
      norm_num [F64_SIGN_MASK]
    have hc2 : f64_signum_is_neg_one f2 = true := by
      simp [f64_signum_is_neg_one, hn2, hs2]
      norm_num [F64_SIGN_MASK]
    rw [hc1, hc2]
    simp only [cond_true]
    rw [if_pos (by omega), if_pos (by omega)] at hk
    rw [f64_mag_eq, f64_mag_eq] at hk
    rw [show F64_COMPLEMENT = 0xffffffffffffffff from by decide, comp_map64,
      comp_map64]
    refine (be_mono_pair 8 f2 f1 ?_ hf1).2
    rw [show (2 : Nat) ^ 63 = 9223372036854775808 from by norm_num]
      at hge1 hge2
    rw [show (2 : Nat) ^ 64 = 18446744073709551616 from by norm_num]
      at hf1 hf2
    omega

/-! ## Lemmas: order preservation of the BigInt bodies -/

theorem num_bytes_mono {m m' : Nat} (h : m ≤ m') :
    num_bytes_of m ≤ num_bytes_of m' := by
  have hs : significant_bits m ≤ significant_bits m' := by
    rw [significant_bits_eq_size, significant_bits_eq_size]
    exact Nat.size_le_size h
  unfold num_bytes_of
  split_ifs <;> omega

theorem bigint_bounds {x : Int} (hb : x.natAbs < 2 ^ 503) :
    1 ≤ num_bytes_of x.natAbs ∧ num_bytes_of x.natAbs ≤ 63 ∧
      x.natAbs < 2 ^ (8 * num_bytes_of x.natAbs) := by
  have hsb : significant_bits x.natAbs ≤ 503 := by
    rw [significant_bits_eq_size]
    exact Nat.size_le.mpr hb
  exact ⟨num_bytes_of_pos _, num_bytes_of_le _ 63 (by omega) (by omega),
    lt_two_pow_num_bytes _⟩

theorem bigint_body_mono (x1 x2 : Int) (h12 : x1 < x2)
    (hb1 : x1.natAbs < 2 ^ 503) (hb2 : x2.natAbs < 2 ^ 503) :
    lexLt
      (if x1 < 0
       then ((size_encode (num_bytes_of x1.natAbs)).reverse ++
         be_bytes (num_bytes_of x1.natAbs) x1.natAbs).map complByte
       else (size_encode (num_bytes_of x1.natAbs)).reverse ++
         be_bytes (num_bytes_of x1.natAbs) x1.natAbs)
      (if x2 < 0
       then ((size_encode (num_bytes_of x2.natAbs)).reverse ++
         be_bytes (num_bytes_of x2.natAbs) x2.natAbs).map complByte
       else (size_encode (num_bytes_of x2.natAbs)).reverse ++
         be_bytes (num_bytes_of x2.natAbs) x2.natAbs) = true := by
  obtain ⟨hn1a, hn1b, hm1⟩ := bigint_bounds hb1
  obtain ⟨hn2a, hn2b, hm2⟩ := bigint_bounds hb2
  rw [size_encode_small hn1a hn1b, size_encode_small hn2a hn2b]
  simp only [List.reverse_cons, List.reverse_nil, List.nil_append,
    List.cons_append, List.map_cons, List.map_append]
  by_cases hx1 : x1 < 0 <;> by_cases hx2 : x2 < 0
  · rw [if_pos hx1, if_pos hx2]
    have hmm : x2.natAbs ≤ x1.natAbs := by omega
    have hnb : num_bytes_of x2.natAbs ≤ num_bytes_of x1.natAbs :=
      num_bytes_mono hmm
    rcases Nat.lt_or_ge (num_bytes_of x2.natAbs)
        (num_bytes_of x1.natAbs) with hlt | hge
    · apply lexLt_head
      unfold complByte
      rw [compl_eq_sub _ (by omega), compl_eq_sub _ (by omega)]
      omega
    · have heq : num_bytes_of x1.natAbs = num_bytes_of x2.natAbs := by omega
      rw [heq, lexLt_cons]
      have hmm2 : x2.natAbs < x1.natAbs := by omega
      exact (be_mono_pair (num_bytes_of x2.natAbs) x2.natAbs x1.natAbs hmm2
        (heq ▸ hm1)).2
  · rw [if_pos hx1, if_neg hx2]
    apply lexLt_head
    unfold complByte
    rw [compl_eq_sub _ (by omega)]
    omega
  · omega
  · rw [if_neg hx1, if_neg hx2]
    have hmm : x1.natAbs < x2.natAbs := by omega
    have hnb : num_bytes_of x1.natAbs ≤ num_bytes_of x2.natAbs :=
      num_bytes_mono (by omega)
    rcases Nat.lt_or_ge (num_bytes_of x1.natAbs)
        (num_bytes_of x2.natAbs) with hlt | hge
    · apply lexLt_head
      omega
    · have heq : num_bytes_of x1.natAbs = num_bytes_of x2.natAbs := by omega
      rw [heq, lexLt_cons]
      exact (be_mono_pair (num_bytes_of x2.natAbs) x1.natAbs x2.natAbs hmm
        hm2).1

/-! ## Lemmas: order preservation of the centimal fraction bytes -/

theorem centary1_closed (d : Nat) : centary1 d = (d - 48) * 11 + 1 := rfl

theorem centary2_closed (d1 d2 : Nat) (h1 : 48 ≤ d1) (h1b : d1 ≤ 57)
    (h2 : 48 ≤ d2) (h2b : d2 ≤ 57) :
    centary2 d1 d2 = 11 * (d1 - 48) + (d2 - 48) + 2 := by
  show ((d1 - 48) * 10 + (d2 - 48)) + ((d1 - 48) * 10 + (d2 - 48)) / 10 + 2 =
    11 * (d1 - 48) + (d2 - 48) + 2
  omega

theorem shl1 (c : Nat) : c <<< 1 = 2 * c := by
  rw [Nat.shiftLeft_eq]
  ring

theorem or_one_even : ∀ c < 256, 2 * c ||| 1 = 2 * c + 1 := by
  decide

theorem encode_fraction_go_bytes :
    ∀ (n : Nat) (f out : List Nat), f.length ≤ n → allDigits f = true →
      encode_fraction_go f = some out → ∀ b ∈ out, 2 ≤ b ∧ b ≤ 221 := by
  intro n
  induction n with
  | zero =>
    intro f out hlen hdig ho
    cases f with
    | nil =>
      obtain rfl : [] = out := Option.some.inj ho
      intro b hb
      simp at hb
    | cons a t => simp at hlen
  | succ n ih =>
    intro f out hlen hdig ho
    cases f with
    | nil =>
      obtain rfl : [] = out := Option.some.inj ho
      intro b hb
      simp at hb
    | cons d1 t1 =>
      obtain ⟨⟨hd1l, hd1h⟩, hdig1⟩ := allDigits_cons hdig
      cases t1 with
      | nil =>
        obtain ⟨he, hpos, hle, _⟩ := centary_single_rt d1 (by omega) hd1l
        rw [show encode_fraction_go [d1] = some [centary1 d1 <<< 1] from by
          simp [encode_fraction_go, he]] at ho
        obtain rfl := Option.some.inj ho
        intro b hb
        simp only [List.mem_singleton] at hb
        subst hb
        rw [shl1]
        omega
      | cons d2 t2 =>
        obtain ⟨⟨hd2l, hd2h⟩, hdig2⟩ := allDigits_cons hdig1
        obtain ⟨he, hpos, hle, _⟩ :=
          centary_pair_rt d1 (by omega) d2 (by omega) hd1l hd2l
        cases t2 with
        | nil =>
          rw [show encode_fraction_go [d1, d2] =
              some [centary2 d1 d2 <<< 1] from by
            simp [encode_fraction_go, he]] at ho
          obtain rfl := Option.some.inj ho
          intro b hb
          simp only [List.mem_singleton] at hb
          subst hb
          rw [shl1]
          omega
        | cons d3 t3 =>
          cases hgo : encode_fraction_go (d3 :: t3) with
          | none =>
            rw [show encode_fraction_go (d1 :: d2 :: d3 :: t3) = none from by
              simp [encode_fraction_go, he, hgo]] at ho
            cases ho
          | some tail =>
            rw [show encode_fraction_go (d1 :: d2 :: d3 :: t3) =
                some ((centary2 d1 d2 <<< 1 ||| 1) :: tail) from by
              simp [encode_fraction_go, he, hgo]] at ho
            obtain rfl := Option.some.inj ho
            intro b hb
            rcases List.mem_cons.mp hb with hb | hb
            · subst hb
              rw [shl1, or_one_even _ (by omega)]
              omega
            · exact ih (d3 :: t3) tail (by simp at hlen ⊢; omega) hdig2
                hgo b hb

/-- Strict lexicographic order of fraction digit strings yields strict
order of their centimal chunk encodings, in both the plain and the
complemented reading. -/
theorem frac_enc_mono :
    ∀ (n : Nat) (f1 f2 out1 out2 : List Nat), f1.length ≤ n →
      allDigits f1 = true → allDigits f2 = true → lexLt f1 f2 = true →
      encode_fraction_go f1 = some out1 → encode_fraction_go f2 = some out2 →
      f1 ≠ [] →
      lexLt out1 out2 = true ∧
        lexLt (out2.map complByte) (out1.map complByte) = true := by
  intro n
  induction n with
  | zero =>
    intro f1 f2 out1 out2 hlen _ _ _ _ _ hne
    cases f1 with
    | nil => exact absurd rfl hne
    | cons a t => simp at hlen
  | succ n ih =>
    intro f1 f2 out1 out2 hlen hd1 hd2 hlex ho1 ho2 hne
    have hne2 : f2 ≠ [] := by
      intro h
      subst h
      rw [lexLt_nil_right] at hlex
      cases hlex
    cases f1 with
    | nil => exact absurd rfl hne
    | cons d1 t1 =>
    cases f2 with
    | nil => exact absurd rfl hne2
    | cons e1 s1 =>
    obtain ⟨⟨hd1l, hd1h⟩, hdig1⟩ := allDigits_cons hd1
    obtain ⟨⟨he1l, he1h⟩, hdig2⟩ := allDigits_cons hd2
    cases t1 with
    | nil =>
      obtain ⟨hs1, _, hs1le, _⟩ := centary_single_rt d1 (by omega) hd1l
      rw [show encode_fraction_go [d1] = some [centary1 d1 <<< 1] from by
        simp [encode_fraction_go, hs1]] at ho1
      obtain rfl := Option.some.inj ho1
      cases s1 with
      | nil =>
        obtain ⟨hs2, _, hs2le, _⟩ := centary_single_rt e1 (by omega) he1l
        rw [show encode_fraction_go [e1] = some [centary1 e1 <<< 1] from by
          simp [encode_fraction_go, hs2]] at ho2
        obtain rfl := Option.some.inj ho2
        have hde : d1 < e1 := by
          rcases lex_cons_elim hlex with h | ⟨h, htl⟩
          · exact h
          · rw [lexLt_nil_right] at htl
            cases htl
        simp only [shl1]
        exact head_lex_both [] []
          (by rw [centary1_closed, centary1_closed]; omega)
          (by rw [centary1_closed]; omega)
      | cons e2 s2 =>
        obtain ⟨⟨he2l, he2h⟩, hdig2b⟩ := allDigits_cons hdig2
        have hp2 := centary_pair_rt e1 (by omega) e2 (by omega) he1l he2l
        have hc2' := centary2_closed e1 e2 he1l he1h he2l he2h
        have hde : d1 ≤ e1 := by
          rcases lex_cons_elim hlex with h | ⟨h, _⟩ <;> omega
        cases s2 with
        | nil =>
          rw [show encode_fraction_go [e1, e2] =
              some [centary2 e1 e2 <<< 1] from by
            simp [encode_fraction_go, hp2.1]] at ho2
          obtain rfl := Option.some.inj ho2
          simp only [shl1]
          exact head_lex_both [] []
            (by rw [centary1_closed, hc2']; omega)
            (by rw [hc2']; omega)
        | cons e3 s3 =>
          cases hgo2 : encode_fraction_go (e3 :: s3) with
          | none =>
            rw [show encode_fraction_go (e1 :: e2 :: e3 :: s3) = none from by
              simp [encode_fraction_go, hp2.1, hgo2]] at ho2
            cases ho2
          | some tail2 =>
            rw [show encode_fraction_go (e1 :: e2 :: e3 :: s3) =
                some ((centary2 e1 e2 <<< 1 ||| 1) :: tail2) from by
              simp [encode_fraction_go, hp2.1, hgo2]] at ho2
            obtain rfl := Option.some.inj ho2
            simp only [shl1, or_one_even (centary2 e1 e2)
              (by have := hp2.2.2.1; omega)]
            exact head_lex_both [] tail2
              (by rw [centary1_closed, hc2']; omega)
              (by rw [hc2']; omega)
    | cons d2 t2 =>
      obtain ⟨⟨hd2l, hd2h⟩, hdig1b⟩ := allDigits_cons hdig1
      have hp1 := centary_pair_rt d1 (by omega) d2 (by omega) hd1l hd2l
      have hc1' := centary2_closed d1 d2 hd1l hd1h hd2l hd2h
      cases t2 with
      | nil =>
        rw [show encode_fraction_go [d1, d2] =
            some [centary2 d1 d2 <<< 1] from by
          simp [encode_fraction_go, hp1.1]] at ho1
        obtain rfl := Option.some.inj ho1
        cases s1 with
        | nil =>
          obtain ⟨hs2, _, hs2le, _⟩ := centary_single_rt e1 (by omega) he1l
          rw [show encode_fraction_go [e1] = some [centary1 e1 <<< 1] from by
            simp [encode_fraction_go, hs2]] at ho2
          obtain rfl := Option.some.inj ho2
          have hde : d1 < e1 := by
            rcases lex_cons_elim hlex with h | ⟨h, htl⟩
            · exact h
            · rw [lexLt_nil_right] at htl
              cases htl
          simp only [shl1]
          exact head_lex_both [] []
            (by rw [centary1_closed, hc1']; omega)
            (by rw [centary1_closed]; omega)
        | cons e2 s2 =>
          obtain ⟨⟨he2l, he2h⟩, hdig2b⟩ := allDigits_cons hdig2
          have hp2 := centary_pair_rt e1 (by omega) e2 (by omega) he1l he2l
          have hc2' := centary2_closed e1 e2 he1l he1h he2l he2h
          cases s2 with
          | nil =>
            rw [show encode_fraction_go [e1, e2] =
                some [centary2 e1 e2 <<< 1] from by
              simp [encode_fraction_go, hp2.1]] at ho2
            obtain rfl := Option.some.inj ho2
            have hstrict : d1 < e1 ∨ (d1 = e1 ∧ d2 < e2) := by
              rcases lex_cons_elim hlex with h | ⟨h, htl⟩
              · exact Or.inl h
              · rcases lex_cons_elim htl with h2 | ⟨h2, htl2⟩
                · exact Or.inr ⟨h, h2⟩
                · rw [lexLt_nil_right] at htl2
                  cases htl2
            simp only [shl1]
            exact head_lex_both [] []
              (by rw [hc1', hc2']; omega)
              (by rw [hc2']; omega)
          | cons e3 s3 =>
            cases hgo2 : encode_fraction_go (e3 :: s3) with
            | none =>
              rw [show encode_fraction_go (e1 :: e2 :: e3 :: s3) = none
                from by simp [encode_fraction_go, hp2.1, hgo2]] at ho2
              cases ho2
            | some tail2 =>
              rw [show encode_fraction_go (e1 :: e2 :: e3 :: s3) =
                  some ((centary2 e1 e2 <<< 1 ||| 1) :: tail2) from by
                simp [encode_fraction_go, hp2.1, hgo2]] at ho2
              obtain rfl := Option.some.inj ho2
              have hple : d1 < e1 ∨ (d1 = e1 ∧ d2 ≤ e2) := by
                rcases lex_cons_elim hlex with h | ⟨h, htl⟩
                · exact Or.inl h
                · rcases lex_cons_elim htl with h2 | ⟨h2, _⟩
                  · exact Or.inr ⟨h, by omega⟩
                  · exact Or.inr ⟨h, by omega⟩
              simp only [shl1, or_one_even (centary2 e1 e2)
                (by have := hp2.2.2.1; omega)]
              exact head_lex_both [] tail2
                (by rw [hc1', hc2']; omega)
                (by rw [hc2']; omega)
      | cons d3 t3 =>
        cases hgo1 : encode_fraction_go (d3 :: t3) with
        | none =>
          rw [show encode_fraction_go (d1 :: d2 :: d3 :: t3) = none from by
            simp [encode_fraction_go, hp1.1, hgo1]] at ho1
          cases ho1
        | some tail1 =>
        rw [show encode_fraction_go (d1 :: d2 :: d3 :: t3) =
            some ((centary2 d1 d2 <<< 1 ||| 1) :: tail1) from by
          simp [encode_fraction_go, hp1.1, hgo1]] at ho1
        obtain rfl := Option.some.inj ho1
        cases s1 with
        | nil =>
          obtain ⟨hs2, _, hs2le, _⟩ := centary_single_rt e1 (by omega) he1l
          rw [show encode_fraction_go [e1] = some [centary1 e1 <<< 1] from by
            simp [encode_fraction_go, hs2]] at ho2
          obtain rfl := Option.some.inj ho2
          have hde : d1 < e1 := by
            rcases lex_cons_elim hlex with h | ⟨h, htl⟩
            · exact h
            · rw [lexLt_nil_right] at htl
              cases htl
          simp only [shl1, or_one_even (centary2 d1 d2)
            (by have := hp1.2.2.1; omega)]
          exact head_lex_both tail1 []
            (by rw [centary1_closed, hc1']; omega)
            (by rw [centary1_closed]; omega)
        | cons e2 s2 =>
          obtain ⟨⟨he2l, he2h⟩, hdig2b⟩ := allDigits_cons hdig2
          have hp2 := centary_pair_rt e1 (by omega) e2 (by omega) he1l he2l
          have hc2' := centary2_closed e1 e2 he1l he1h he2l he2h
          cases s2 with
          | nil =>
            rw [show encode_fraction_go [e1, e2] =
                some [centary2 e1 e2 <<< 1] from by
              simp [encode_fraction_go, hp2.1]] at ho2
            obtain rfl := Option.some.inj ho2
            have hstrict : d1 < e1 ∨ (d1 = e1 ∧ d2 < e2) := by
              rcases lex_cons_elim hlex with h | ⟨h, htl⟩
              · exact Or.inl h
              · rcases lex_cons_elim htl with h2 | ⟨h2, htl2⟩
                · exact Or.inr ⟨h, h2⟩
                · rw [lexLt_nil_right] at htl2
                  cases htl2
            simp only [shl1, or_one_even (centary2 d1 d2)
              (by have := hp1.2.2.1; omega)]
            exact head_lex_both tail1 []
              (by rw [hc1', hc2']; omega)
              (by rw [hc2']; omega)
          | cons e3 s3 =>
            cases hgo2 : encode_fraction_go (e3 :: s3) with
            | none =>
              rw [show encode_fraction_go (e1 :: e2 :: e3 :: s3) = none
                from by simp [encode_fraction_go, hp2.1, hgo2]] at ho2
              cases ho2
            | some tail2 =>
            rw [show encode_fraction_go (e1 :: e2 :: e3 :: s3) =
                some ((centary2 e1 e2 <<< 1 ||| 1) :: tail2) from by
              simp [encode_fraction_go, hp2.1, hgo2]] at ho2
            obtain rfl := Option.some.inj ho2
            rcases lex_cons_elim hlex with h | ⟨h, htl⟩
            · simp only [shl1, or_one_even (centary2 d1 d2)
                (by have := hp1.2.2.1; omega), or_one_even (centary2 e1 e2)
                (by have := hp2.2.2.1; omega)]
              exact head_lex_both tail1 tail2
                (by rw [hc1', hc2']; omega)
                (by rw [hc2']; omega)
            · rcases lex_cons_elim htl with h2 | ⟨h2, htl2⟩
              · simp only [shl1, or_one_even (centary2 d1 d2)
                  (by have := hp1.2.2.1; omega), or_one_even (centary2 e1 e2)
                  (by have := hp2.2.2.1; omega)]
                exact head_lex_both tail1 tail2
                  (by rw [hc1', hc2']; omega)
                  (by rw [hc2']; omega)
              · subst h
                subst h2
                obtain ⟨⟨hd3l, hd3h⟩, _⟩ := allDigits_cons hdig1b
                have hih := ih (d3 :: t3) (e3 :: s3) tail1 tail2
                  (by simp at hlen ⊢; omega) hdig1b
                  (by
                    obtain ⟨_, hdig2c⟩ := allDigits_cons hdig2
                    exact hdig2c)
                  htl2 hgo1 hgo2 (by simp)
                constructor
                · rw [lexLt_cons]
                  exact hih.1
                · simp only [List.map_cons]
                  rw [lexLt_cons]
                  exact hih.2

/-- Fraction order preservation at the `encode_fraction` level, including
the empty fraction (encoded as the single byte `0x00`). -/
theorem frac_bytes_mono (f1 f2 out1 out2 : List Nat)
    (hd1 : allDigits f1 = true) (hd2 : allDigits f2 = true)
    (hlex : lexLt f1 f2 = true)
    (ho1 : encode_fraction (some f1) = some out1)
    (ho2 : encode_fraction (some f2) = some out2) :
    lexLt out1 out2 = true ∧
      lexLt (out2.map complByte) (out1.map complByte) = true := by
  have hne2 : f2 ≠ [] := by
    intro h
    subst h
    rw [lexLt_nil_right] at hlex
    cases hlex
  have hgo2 : encode_fraction_go f2 = some out2 := by
    unfold encode_fraction at ho2
    dsimp only at ho2
    rw [if_neg hne2] at ho2
    exact ho2
  by_cases hne1 : f1 = []
  · subst hne1
    unfold encode_fraction at ho1
    dsimp only at ho1
    rw [if_pos rfl] at ho1
    obtain rfl := Option.some.inj ho1
    obtain ⟨out2', hgo2', hone, hohd, _, _⟩ :=
      encode_fraction_go_spec f2.length f2 le_rfl hd2 hne2
    rw [hgo2'] at hgo2
    obtain rfl := Option.some.inj hgo2
    cases out2' with
    | nil => exact absurd rfl hone
    | cons b t =>
      simp only [List.headD_cons] at hohd
      have hbb : b ≤ 221 :=
        (encode_fraction_go_bytes f2.length f2 (b :: t) le_rfl hd2 hgo2' b
          (by simp)).2
      exact head_lex_both [] t (by omega) (by omega)
  · have hgo1 : encode_fraction_go f1 = some out1 := by
      unfold encode_fraction at ho1
      dsimp only at ho1
      rw [if_neg hne1] at ho1
      exact ho1
    exact frac_enc_mono f1.length f1 f2 out1 out2 le_rfl hd1 hd2 hlex
      hgo1 hgo2 hne1

/-! ## Lemmas: order preservation of the Decimal records -/

theorem encode_fraction_total (f : List Nat) (hd : allDigits f = true) :
    ∃ out, encode_fraction (some f) = some out := by
  by_cases hne : f = []
  · subst hne
    exact ⟨[0], by simp [encode_fraction]⟩
  · obtain ⟨out, hgo, _, _, _, _⟩ :=
      encode_fraction_go_spec f.length f le_rfl hd hne
    exact ⟨out, encode_fraction_go_to_full hne hgo⟩

theorem nb_bounds {m : Nat} (hm : m < 2 ^ 503) :
    1 ≤ num_bytes_of m ∧ num_bytes_of m ≤ 63 ∧
      m < 2 ^ (8 * num_bytes_of m) := by
  have hsb : significant_bits m ≤ 503 := by
    rw [significant_bits_eq_size]
    exact Nat.size_le.mpr hm
  exact ⟨num_bytes_of_pos _, num_bytes_of_le _ 63 (by omega) (by omega),
    lt_two_pow_num_bytes _⟩

/-- Structure of every record `bignum_to_storage` produces on a canonical
decimal string: it is the aspect byte, the (possibly complemented or
negative-zero) single-byte size code and magnitude bytes, then the fraction
bytes (complemented for negatives). -/
theorem bignum_record_shape (neg : Bool) (m : Nat) (f r : List Nat)
    (hm : m < 2 ^ 503) (hfd : allDigits f = true)
    (h : value_to_storage
        (.String ((bif neg then [45] else []) ++ decDigits m ++ 46 :: f))
        .Decimal = some (.ok r)) :
    ∃ out, encode_fraction (some f) = some out ∧
      ((neg = false ∧
          r = aspect_byte .Decimal :: (128 + num_bytes_of m) ::
            (be_bytes (num_bytes_of m) m ++ out)) ∨
        (neg = true ∧ 0 < m ∧
          r = aspect_byte .Decimal :: complByte (128 + num_bytes_of m) ::
            ((be_bytes (num_bytes_of m) m).map complByte ++
              out.map complByte)) ∨
        (neg = true ∧ m = 0 ∧
          r = aspect_byte .Decimal :: NEGATIVE_ZERO ::
            out.map complByte)) := by
  obtain ⟨hval, hdig, hne⟩ := decDigits_spec m
  obtain ⟨out, ho⟩ := encode_fraction_total f hfd
  obtain ⟨hnb1, h63, _⟩ := nb_bounds hm
  refine ⟨out, ho, ?_⟩
  cases neg with
  | false =>
    simp only [cond_false, List.nil_append] at h
    have h' : bignum_to_storage (decDigits m ++ 46 :: f) .Decimal =
        some (.ok r) := h
    have heq := bignum_to_storage_pos_eq (decDigits m) f out hdig hne hfd ho
    rw [hval] at heq
    rw [heq] at h'
    have hr := (Except.ok.inj (Option.some.inj h')).symm
    subst hr
    refine Or.inl ⟨rfl, ?_⟩
    rw [size_encode_small hnb1 h63]
    simp
  | true =>
    simp only [cond_true] at h
    by_cases hm0 : m = 0
    · subst hm0
      have h' : bignum_to_storage ((45 :: decDigits 0) ++ 46 :: f)
          .Decimal = some (.ok r) := by
        rw [show (45 :: decDigits 0) ++ 46 :: f =
          [45] ++ decDigits 0 ++ 46 :: f from by simp]
        exact h
      have heq := bignum_to_storage_negzero_eq (decDigits 0) f out hdig hne
        (by rw [hval]) hfd ho
      rw [heq] at h'
      have hr := (Except.ok.inj (Option.some.inj h')).symm
      subst hr
      exact Or.inr (Or.inr ⟨rfl, rfl, by simp⟩)
    · have h' : bignum_to_storage ((45 :: decDigits m) ++ 46 :: f)
          .Decimal = some (.ok r) := by
        rw [show (45 :: decDigits m) ++ 46 :: f =
          [45] ++ decDigits m ++ 46 :: f from by simp]
        exact h
      have heq := bignum_to_storage_neg_eq (decDigits m) f out hdig hne
        (by rw [hval]; omega) hfd ho
      rw [hval] at heq
      rw [heq] at h'
      have hr := (Except.ok.inj (Option.some.inj h')).symm
      subst hr
      refine Or.inr (Or.inl ⟨rfl, by omega, ?_⟩)
      rw [size_encode_small hnb1 h63]
      simp

/-- Strict semantic order of canonical decimals yields strict lexicographic
order of their encoded records. -/
theorem bignum_record_mono (neg1 : Bool) (m1 : Nat) (f1 : List Nat)
    (neg2 : Bool) (m2 : Nat) (f2 : List Nat) (r1 r2 : List Nat)
    (hm1 : m1 < 2 ^ 503) (hm2 : m2 < 2 ^ 503)
    (hfd1 : allDigits f1 = true) (hfd2 : allDigits f2 = true)
    (hsem : decSemLt neg1 m1 f1 neg2 m2 f2 = true)
    (h1 : value_to_storage
        (.String ((bif neg1 then [45] else []) ++ decDigits m1 ++ 46 :: f1))
        .Decimal = some (.ok r1))
    (h2 : value_to_storage
        (.String ((bif neg2 then [45] else []) ++ decDigits m2 ++ 46 :: f2))
        .Decimal = some (.ok r2)) :
    lexLt r1 r2 = true := by
  obtain ⟨out1, ho1, hsh1⟩ := bignum_record_shape neg1 m1 f1 r1 hm1 hfd1 h1
  obtain ⟨out2, ho2, hsh2⟩ := bignum_record_shape neg2 m2 f2 r2 hm2 hfd2 h2
  obtain ⟨h1a, h1b, h1c⟩ := nb_bounds hm1
  obtain ⟨h2a, h2b, h2c⟩ := nb_bounds hm2
  rcases hsh1 with ⟨hne1, hr1⟩ | ⟨hne1, hmpos1, hr1⟩ | ⟨hne1, hm01, hr1⟩ <;>
    rcases hsh2 with ⟨hne2, hr2⟩ | ⟨hne2, hmpos2, hr2⟩ | ⟨hne2, hm02, hr2⟩ <;>
      subst hne1 <;> subst hne2 <;> subst hr1 <;> subst hr2
  -- positive vs positive
  · simp only [decSemLt, Bool.or_eq_true, decide_eq_true_eq,
      Bool.and_eq_true, beq_iff_eq] at hsem
    rw [lexLt_cons]
    rcases hsem with hlt | ⟨heq, hfr⟩
    · have hnb : num_bytes_of m1 ≤ num_bytes_of m2 :=
        num_bytes_mono (le_of_lt hlt)
      rcases Nat.lt_or_ge (num_bytes_of m1) (num_bytes_of m2) with hl | hg
      · exact lexLt_head _ _ (by omega)
      · have heq : num_bytes_of m1 = num_bytes_of m2 := by omega
        rw [heq, lexLt_cons]
        exact lex_append_eqlen _ _ _ _
          (by rw [be_bytes_length, be_bytes_length])
          (be_mono_pair (num_bytes_of m2) m1 m2 hlt h2c).1
    · subst heq
      rw [lexLt_cons]
      exact lex_append_left _ _ _
        (frac_bytes_mono f1 f2 out1 out2 hfd1 hfd2 hfr ho1 ho2).1
  -- positive vs negative: semantically impossible
  · simp [decSemLt] at hsem
  · simp [decSemLt] at hsem
  -- negative vs positive: complemented head below 128, positive head above
  · rw [lexLt_cons]
    apply lexLt_head
    unfold complByte
    rw [compl_eq_sub _ (by omega)]
    omega
  -- negative vs negative, both with non-zero integer part
  · simp only [decSemLt, Bool.or_eq_true, decide_eq_true_eq,
      Bool.and_eq_true, beq_iff_eq] at hsem
    rw [lexLt_cons]
    rcases hsem with hlt | ⟨heq, hfr⟩
    · have hnb : num_bytes_of m2 ≤ num_bytes_of m1 :=
        num_bytes_mono (le_of_lt hlt)
      rcases Nat.lt_or_ge (num_bytes_of m2) (num_bytes_of m1) with hl | hg
      · apply lexLt_head
        unfold complByte
        rw [compl_eq_sub _ (by omega), compl_eq_sub _ (by omega)]
        omega
      · have heq : num_bytes_of m1 = num_bytes_of m2 := by omega
        rw [heq, lexLt_cons]
        exact lex_append_eqlen _ _ _ _
          (by simp [be_bytes_length])
          (heq ▸ (be_mono_pair (num_bytes_of m1) m2 m1 hlt h1c).2)
    · have heqm : m1 = m2 := heq.symm
      subst heqm
      rw [lexLt_cons]
      exact lex_append_left _ _ _
        (frac_bytes_mono f2 f1 out2 out1 hfd2 hfd1 hfr ho2 ho1).2
  -- negative non-zero vs negative zero: head byte 127 - nb < 127
  · rw [lexLt_cons]
    apply lexLt_head
    unfold complByte
    rw [compl_eq_sub _ (by omega)]
    rw [show NEGATIVE_ZERO = 127 from rfl]
    omega
  -- negative zero vs positive: head byte 127 < 128 + nb
  · rw [lexLt_cons]
    apply lexLt_head
    rw [show NEGATIVE_ZERO = 127 from rfl]
    omega
  -- negative zero vs negative non-zero: semantically impossible
  · subst hm01
    simp only [decSemLt, Bool.or_eq_true, decide_eq_true_eq,
      Bool.and_eq_true, beq_iff_eq] at hsem
    rcases hsem with hlt | ⟨heq, _⟩ <;> omega
  -- negative zero vs negative zero: fraction comparison
  · simp only [decSemLt, Bool.or_eq_true, decide_eq_true_eq,
      Bool.and_eq_true, beq_iff_eq] at hsem
    rw [lexLt_cons, lexLt_cons]
    have hfr : lexLt f2 f1 = true := by
      rcases hsem with hlt | ⟨_, hfr⟩
      · omega
      · exact hfr
    exact (frac_bytes_mono f2 f1 out2 out1 hfd2 hfd1 hfr ho2 ho1).2

/-! ## Claim C2 -/

/-- Claim C2 (corrected).  Strict order preservation holds per family:
whenever two values of one comparable aspect family are in strictly
increasing semantic order (byte-lexicographic for String, numeric for
Int32/Int64/BigInt, timestamp order for DateTime, sign-magnitude key order
for Float32/Float64, signed decimal order for Decimal), their encoded
records are in strictly increasing unsigned-lexicographic order.  Hence
sorting encodings agrees with sorting values whenever the semantic keys are
pairwise distinct.  As stated — sorting the encodings yields the same
permutation as sorting the values — the claim fails: semantically tied
values can have distinct encodings (the f32 bit patterns of `+0.0` and
`-0.0` encode differently), so a stable sort leaves the values in input
order while their encodings are strictly ordered and get swapped (see the
counterexample). -/
theorem C2_order_amended :
    (∀ (s1 s2 : List Nat) (a : Aspect) (r1 r2 : List Nat),
      aspect_storage a = some .String →
      value_to_storage (.String s1) a = some (.ok r1) →
      value_to_storage (.String s2) a = some (.ok r2) →
      lexLt s1 s2 = true → lexLt r1 r2 = true) ∧
    (∀ (i1 i2 : Int) (a : Aspect) (r1 r2 : List Nat),
      value_to_storage (.Int32 i1) a = some (.ok r1) →
      value_to_storage (.Int32 i2) a = some (.ok r2) →
      -(2 ^ 31) ≤ i1 → i1 < i2 → i2 < 2 ^ 31 → lexLt r1 r2 = true) ∧
    (∀ (i1 i2 : Int) (a : Aspect) (r1 r2 : List Nat),
      value_to_storage (.Int64 i1) a = some (.ok r1) →
      value_to_storage (.Int64 i2) a = some (.ok r2) →
      -(2 ^ 63) ≤ i1 → i1 < i2 → i2 < 2 ^ 63 → lexLt r1 r2 = true) ∧
    (∀ (s1 s2 : List Nat) (t1 t2 : Int) (r1 r2 : List Nat),
      value_to_storage (.String s1) .DateTime = some (.ok r1) →
      value_to_storage (.String s2) .DateTime = some (.ok r2) →
      parse_rfc3339 s1 = some t1 → parse_rfc3339 s2 = some t2 →
      -(2 ^ 63) ≤ t1 → t1 < t2 → t2 < 2 ^ 63 → lexLt r1 r2 = true) ∧
    (∀ (f1 f2 : Nat) (a : Aspect) (r1 r2 : List Nat),
      value_to_storage (.Float32 f1) a = some (.ok r1) →
      value_to_storage (.Float32 f2) a = some (.ok r2) →
      f1 < 2 ^ 32 → f2 < 2 ^ 32 → f32_key f1 < f32_key f2 →
      lexLt r1 r2 = true) ∧
    (∀ (f1 f2 : Nat) (a : Aspect) (r1 r2 : List Nat),
      value_to_storage (.Float64 f1) a = some (.ok r1) →
      value_to_storage (.Float64 f2) a = some (.ok r2) →
      f1 < 2 ^ 64 → f2 < 2 ^ 64 →
      f64_isNaN f1 = false → f64_isNaN f2 = false →
      f64_key f1 < f64_key f2 → lexLt r1 r2 = true) ∧
    (∀ (x1 x2 : Int) (a : Aspect) (r1 r2 : List Nat),
      value_to_storage (.BigInt x1) a = some (.ok r1) →
      value_to_storage (.BigInt x2) a = some (.ok r2) →
      x1 < x2 → x1.natAbs < 2 ^ 503 → x2.natAbs < 2 ^ 503 →
      lexLt r1 r2 = true) ∧
    (∀ (neg1 : Bool) (m1 : Nat) (f1 : List Nat)
        (neg2 : Bool) (m2 : Nat) (f2 : List Nat) (r1 r2 : List Nat),
      m1 < 2 ^ 503 → m2 < 2 ^ 503 →
      allDigits f1 = true → allDigits f2 = true →
      decSemLt neg1 m1 f1 neg2 m2 f2 = true →
      value_to_storage
        (.String ((bif neg1 then [45] else []) ++ decDigits m1 ++ 46 :: f1))
        .Decimal = some (.ok r1) →
      value_to_storage
        (.String ((bif neg2 then [45] else []) ++ decDigits m2 ++ 46 :: f2))
        .Decimal = some (.ok r2) →
      lexLt r1 r2 = true) := by
  refine ⟨?_, ?_, ?_, ?_, ?_, ?_, ?_, ?_⟩
  · intro s1 s2 a r1 r2 ha h1 h2 hlex
    obtain ⟨hnd, hnc⟩ := aspect_of_string_st a ha
    have h1a : string_to_storage s1 a = some (.ok r1) := by
      unfold value_to_storage at h1
      dsimp only at h1
      rw [if_neg hnd, if_neg hnc] at h1
      exact h1
    have h2a : string_to_storage s2 a = some (.ok r2) := by
      unfold value_to_storage at h2
      dsimp only at h2
      rw [if_neg hnd, if_neg hnc] at h2
      exact h2
    obtain ⟨_, hr1⟩ := string_to_storage_ok h1a
    obtain ⟨_, hr2⟩ := string_to_storage_ok h2a
    subst hr1
    subst hr2
    rw [lexLt_cons]
    exact hlex
  · intro i1 i2 a r1 r2 h1 h2 hl h12 hr
    obtain ⟨_, hr1⟩ := int32_to_storage_ok h1
    obtain ⟨_, hr2⟩ := int32_to_storage_ok h2
    subst hr1
    subst hr2
    rw [lexLt_cons]
    exact int32_body_mono i1 i2 hl h12 hr
  · intro i1 i2 a r1 r2 h1 h2 hl h12 hr
    obtain ⟨_, hr1⟩ := int64_to_storage_ok h1
    obtain ⟨_, hr2⟩ := int64_to_storage_ok h2
    subst hr1
    subst hr2
    rw [lexLt_cons]
    exact int64_body_mono i1 i2 hl h12 hr
  · intro s1 s2 t1 t2 r1 r2 h1 h2 hp1 hp2 hl h12 hr
    have h1a : date_time_to_storage s1 .DateTime = some (.ok r1) := h1
    have h2a : date_time_to_storage s2 .DateTime = some (.ok r2) := h2
    unfold date_time_to_storage at h1a h2a
    rw [hp1] at h1a
    rw [hp2] at h2a
    obtain ⟨_, hr1⟩ := int64_to_storage_ok h1a
    obtain ⟨_, hr2⟩ := int64_to_storage_ok h2a
    subst hr1
    subst hr2
    rw [lexLt_cons]
    exact int64_body_mono t1 t2 hl h12 hr
  · intro f1 f2 a r1 r2 h1 h2 hf1 hf2 hk
    obtain ⟨_, hr1⟩ := float32_to_storage_ok h1
    obtain ⟨_, hr2⟩ := float32_to_storage_ok h2
    subst hr1
    subst hr2
    rw [lexLt_cons]
    exact float32_body_mono f1 f2 hf1 hf2 hk
  · intro f1 f2 a r1 r2 h1 h2 hf1 hf2 hn1 hn2 hk
    obtain ⟨_, hr1⟩ := float64_to_storage_ok h1
    obtain ⟨_, hr2⟩ := float64_to_storage_ok h2
    subst hr1
    subst hr2
    rw [lexLt_cons]
    exact float64_body_mono f1 f2 hf1 hf2 hn1 hn2 hk
  · intro x1 x2 a r1 r2 h1 h2 h12 hb1 hb2
    have h1a : some (bigint_to_storage x1 a) =
        some (Except.ok r1 : Except LexDataError (List Nat)) := h1
    have h2a : some (bigint_to_storage x2 a) =
        some (Except.ok r2 : Except LexDataError (List Nat)) := h2
    rw [bigint_to_storage_shape x1 a] at h1a
    rw [bigint_to_storage_shape x2 a] at h2a
    have hr1 := (Except.ok.inj (Option.some.inj h1a)).symm
    have hr2 := (Except.ok.inj (Option.some.inj h2a)).symm
    subst hr1
    subst hr2
    rw [lexLt_cons]
    exact bigint_body_mono x1 x2 h12 hb1 hb2
  · intro neg1 m1 f1 neg2 m2 f2 r1 r2 hm1 hm2 hfd1 hfd2 hsem h1 h2
    exact bignum_record_mono neg1 m1 f1 neg2 m2 f2 r1 r2 hm1 hm2
      hfd1 hfd2 hsem h1 h2

theorem C2_order_witness :
    lexLt [1, 97] [1, 98] = true ∧
    lexLt [21, 127, 255, 255, 255] [21, 128, 0, 0, 5] = true ∧
    lexLt [22, 128, 0, 0, 0, 0, 0, 0, 3] [22, 128, 0, 0, 0, 0, 0, 0, 4] =
      true ∧
    lexLt [9, 128, 0, 0, 0, 0, 0, 0, 0] [9, 128, 0, 0, 0, 0, 0, 0, 1] =
      true ∧
    lexLt [6, 128, 0, 0, 0] [6, 191, 128, 0, 0] = true ∧
    lexLt [5, 128, 0, 0, 0, 0, 0, 0, 0] [5, 128, 0, 0, 0, 0, 0, 0, 1] =
      true ∧
    lexLt [4, 126, 248] [4, 129, 2] = true ∧
    lexLt [3, 129, 1, 112] [3, 129, 2, 112] = true :=
  ⟨C2_order_amended.1 [97] [98] .String [1, 97] [1, 98] (by decide)
     (by decide) (by decide) (by decide),
   C2_order_amended.2.1 (-1) 5 .Int [21, 127, 255, 255, 255] [21, 128, 0, 0, 5]
     (by decide) (by decide) (by decide) (by decide) (by decide),
   C2_order_amended.2.2.1 3 4 .Long [22, 128, 0, 0, 0, 0, 0, 0, 3]
     [22, 128, 0, 0, 0, 0, 0, 0, 4] (by decide) (by decide) (by decide)
     (by decide) (by decide),
   C2_order_amended.2.2.2.1
     [49, 57, 55, 48, 45, 48, 49, 45, 48, 49, 84, 48, 48, 58, 48, 48, 58,
       48, 48, 90]
     [49, 57, 55, 48, 45, 48, 49, 45, 48, 49, 84, 48, 48, 58, 48, 48, 58,
       48, 49, 90]
     0 1 [9, 128, 0, 0, 0, 0, 0, 0, 0] [9, 128, 0, 0, 0, 0, 0, 0, 1]
     (by decide) (by decide) (by decide) (by decide) (by decide) (by decide)
     (by decide),
   C2_order_amended.2.2.2.2.1 0 0x3f800000 .Float [6, 128, 0, 0, 0]
     [6, 191, 128, 0, 0] (by decide) (by decide) (by decide) (by decide)
     (by decide),
   C2_order_amended.2.2.2.2.2.1 0 1 .Double [5, 128, 0, 0, 0, 0, 0, 0, 0]
     [5, 128, 0, 0, 0, 0, 0, 0, 1] (by decide) (by decide) (by decide)
     (by decide) (by decide) (by decide) (by decide),
   C2_order_amended.2.2.2.2.2.2.1 (-7) 2 .Integer [4, 126, 248] [4, 129, 2]
     (by decide) (by decide) (by decide) (by decide) (by decide),
   C2_order_amended.2.2.2.2.2.2.2 false 1 [53] false 2 [53]
     [3, 129, 1, 112] [3, 129, 2, 112] (by decide) (by decide) (by decide)
     (by decide) (by decide) (by decide) (by decide)⟩

/-- Claim C2's counterexample: the f32 bit patterns of `+0.0` and `-0.0`
are semantically tied (equal sort key) but encode to distinct, strictly
ordered records, so a stable sort of the two values keeps them in input
order while the same stable sort of their encodings swaps them — the two
sorts do not yield the same permutation. -/
theorem C2_counterexample :
    value_to_storage (.Float32 0x00000000) .Float =
      some (.ok [6, 128, 0, 0, 0]) ∧
    value_to_storage (.Float32 0x80000000) .Float =
      some (.ok [6, 127, 255, 255, 255]) ∧
    f32_key 0x00000000 = f32_key 0x80000000 ∧
    isort lexLe [[6, 128, 0, 0, 0], [6, 127, 255, 255, 255]] =
      [[6, 127, 255, 255, 255], [6, 128, 0, 0, 0]] ∧
    isort (fun f g => decide (f32_key f ≤ f32_key g))
        [0x00000000, 0x80000000] = [0x00000000, 0x80000000] := by
  refine ⟨by decide, by decide, by decide, by decide, by decide⟩

end Lexdata
